import Mathlib

/-!
# OpenTTD (JGR patch pack): link graph persistence, bit mathematics, directions and roads

A shallow embedding of

* `src/core/bitmath_func.cpp` (`FindFirstBit32`, `FindFirstBit64`, `FindLastBit64`);
* `src/sl/linkgraph_sl.cpp` (`Save_LinkGraph`, `Load_LinkGraph`, `DoSave_LGRP`,
  `DoSave_LGRJ`, `Load_LGRP`, `Load_LGRJ`, `GetLinkGraphJobDayLengthScaleAfterLoad`, the
  descriptor tables);
* `src/direction_func.h` (the conversions between directions, diagonal directions and
  axes);
* `src/road.cpp` (`IsPossibleCrossing`, `CleanUpRoadBits`, `AddDateIntroducedRoadTypes`,
  `GetRoadTypeByLabel`);
* `src/sl/labelmaps_sl.cpp` (`NeedRailTypeConversion`).

Machine integers are `Nat`/`Int` with explicit wrap-around, a savegame chunk is a
list of bytes, and a thrown `SlErrorCorrupt` is an explicit result that carries the
object as mutated up to the throw.
-/

namespace OpenTTD

/-! ## `src/core/bitmath_func.cpp` -/

/-- `uint8_t FindFirstBit32(uint32_t x)`; `x` is a 32-bit value, `pos` a `uint8_t`. -/
def FindFirstBit32 (x : Nat) : Nat :=
  if x = 0 then 0 else
    let pos := 0
    let (x, pos) := if x &&& 0x0000ffff = 0 then (x >>> 16, (pos + 16) % 256) else (x, pos)
    let (x, pos) := if x &&& 0x000000ff = 0 then (x >>> 8, (pos + 8) % 256) else (x, pos)
    let (x, pos) := if x &&& 0x0000000f = 0 then (x >>> 4, (pos + 4) % 256) else (x, pos)
    let (x, pos) := if x &&& 0x00000003 = 0 then (x >>> 2, (pos + 2) % 256) else (x, pos)
    let pos := if x &&& 0x00000001 = 0 then (pos + 1) % 256 else pos
    pos

/-- `uint8_t FindFirstBit64(uint64_t x)`; the casts to `uint32_t` and to the `uint8_t`
result are the explicit `%`. -/
def FindFirstBit64 (x : Nat) : Nat :=
  if x = 0 then 0
  else if x &&& 0x00000000ffffffff ≠ 0 then FindFirstBit32 (x % 2 ^ 32)
  else (FindFirstBit32 ((x >>> 32) % 2 ^ 32) + 32) % 256

/-- `uint8_t FindLastBit64(uint64_t x)`. -/
def FindLastBit64 (x : Nat) : Nat :=
  if x = 0 then 0 else
    let pos := 0
    let (x, pos) := if x &&& 0xffffffff00000000 ≠ 0 then (x >>> 32, (pos + 32) % 256) else (x, pos)
    let (x, pos) := if x &&& 0x00000000ffff0000 ≠ 0 then (x >>> 16, (pos + 16) % 256) else (x, pos)
    let (x, pos) := if x &&& 0x000000000000ff00 ≠ 0 then (x >>> 8, (pos + 8) % 256) else (x, pos)
    let (x, pos) := if x &&& 0x00000000000000f0 ≠ 0 then (x >>> 4, (pos + 4) % 256) else (x, pos)
    let (x, pos) := if x &&& 0x000000000000000c ≠ 0 then (x >>> 2, (pos + 2) % 256) else (x, pos)
    let pos := if x &&& 0x0000000000000002 ≠ 0 then (pos + 1) % 256 else pos
    pos

/-! ## The save/load framework used by `src/sl/linkgraph_sl.cpp`

`saveload.h` and `extended_ver_sl.h` are not among the sources; the parts of them the
link graph code calls are modelled here. -/

/-- One byte of a savegame chunk. -/
abbrev Byte := Fin 256

/-- Integer types of a `SaveLoad` entry (`SLE_FILE_*` on file, `SLE_VAR_*` in memory). -/
inductive VarType where
  | I8 | U8 | I16 | U16 | I32 | U32 | I64 | U64
  deriving DecidableEq, Repr

/-- Width of the type in bytes. -/
def VarType.size : VarType → Nat
  | .I8 => 1 | .U8 => 1 | .I16 => 2 | .U16 => 2
  | .I32 => 4 | .U32 => 4 | .I64 => 8 | .U64 => 8

/-- Whether the type is a signed one. -/
def VarType.signed : VarType → Bool
  | .I8 => true | .I16 => true | .I32 => true | .I64 => true
  | _ => false

/-- Interpretation of the low `8 * size` bits read from file as a value of the type
(sign extension for the signed types). -/
def VarType.decode (t : VarType) (n : Nat) : Int :=
  if t.signed && decide (2 ^ (8 * t.size - 1) ≤ n) then (n : Int) - 2 ^ (8 * t.size) else (n : Int)

/-- The C conversion of an integer to the type: reduction modulo `2 ^ (8 * size)`, read
back as signed or unsigned. -/
def VarType.wrap (t : VarType) (v : Int) : Int :=
  t.decode (v % 2 ^ (8 * t.size)).toNat

/-- Whether `v` is a value of the type. -/
def VarType.inRange (t : VarType) (v : Int) : Prop :=
  if t.signed then -(2 ^ (8 * t.size - 1)) ≤ v ∧ v < 2 ^ (8 * t.size - 1)
  else 0 ≤ v ∧ v < 2 ^ (8 * t.size)

instance (t : VarType) (v : Int) : Decidable (t.inRange v) := by
  unfold VarType.inRange; exact inferInstance

/-- Modelled from the spec: the writer of the persistence layer (`SlWriteByte`,
`SlWriteUint16`, `SlWriteUint32`, `SlWriteUint64` of `saveload.h`), which stores the low
`w` bytes of a value, most significant byte first. -/
def SlWriteBytes : Nat → Nat → List Byte
  | 0, _ => []
  | w + 1, v => ⟨(v / 256 ^ w) % 256, Nat.mod_lt _ (by decide)⟩ :: SlWriteBytes w v

/-- Modelled from the spec: the reader of the persistence layer (`SlReadByte`,
`SlReadUint16`, ... of `saveload.h`); `none` when the chunk ends before `w` bytes
were read. -/
def SlReadBytes : Nat → List Byte → Option (Nat × List Byte)
  | 0, s => some (0, s)
  | _ + 1, [] => none
  | w + 1, b :: s =>
    match SlReadBytes w s with
    | none => none
    | some (v, r) => some (b.val * 256 ^ w + v, r)

/-- Modelled from the spec: `SlWriteUint16`. -/
def SlWriteUint16 (v : Nat) : List Byte := SlWriteBytes 2 v

/-- Modelled from the spec: `SlReadUint16`. -/
def SlReadUint16 (s : List Byte) : Option (Nat × List Byte) := SlReadBytes 2 s

/-- Why a load stopped before its end. -/
inductive Abort where
  /-- `SlErrorCorrupt(msg)` was thrown (the user-visible "corrupt savegame" error). -/
  | SlErrorCorrupt (msg : String)
  /-- A `std::vector` was indexed at or past its size: undefined behaviour, no error is
  raised by the program. -/
  | outOfRange
  /-- A loop that does not end. -/
  | endless
  deriving DecidableEq, Repr

/-- Outcome of a loading routine working on an object of type `α`: either the object
and the unread rest of the chunk, or the reason of the abort together with the object
as it had been mutated up to then. -/
inductive SlResult (α : Type) where
  | ok (obj : α) (rest : List Byte)
  | abort (why : Abort) (obj : α)
  deriving DecidableEq, Repr

/-- Modelled from the spec: what the reader raises when the chunk ends early. -/
def SlErrorEndOfChunk : Abort := .SlErrorCorrupt "Unexpected end of chunk"

/-- Features of the extended savegame version (`XSLFI_*`) tested by the link graph
descriptors. -/
inductive SlXvFeatureIndex where
  | XSLFI_NULL
  | XSLFI_LINKGRAPH_DAY_SCALE
  | XSLFI_LINKGRAPH_TRAVEL_TIME
  | XSLFI_LINKGRAPH_AIRCRAFT
  | XSLFI_LINKGRAPH_SPARSE_EDGES
  deriving DecidableEq, Repr

/-- How a feature test combines with the savegame version test. -/
inductive SlXvFeatureTestOperator where
  | XSLFTO_OR
  | XSLFTO_AND
  deriving DecidableEq, Repr

/-- Modelled from the spec: `SlXvFeatureTest(op, feature, min_version, max_version)`, the
tag `each field` carries for `its valid version range` of a feature. -/
structure SlXvFeatureTest where
  op : SlXvFeatureTestOperator
  feature : SlXvFeatureIndex
  min_version : Nat
  max_version : Nat
  deriving DecidableEq, Repr

/-- The version state of the savegame being read or written: `_sl_version` and the
version of every extended feature (0 = feature absent). -/
structure SlVersions where
  sl_version : Nat
  xv : SlXvFeatureIndex → Nat

def SL_MIN_VERSION : Nat := 0
def SL_MAX_VERSION : Nat := 0xFFFF
def SLV_187 : Nat := 187
def SLV_191 : Nat := 191

/-- Modelled from the spec: `IsSavegameVersionBefore(major)`. -/
def IsSavegameVersionBefore (v : SlVersions) (major : Nat) : Bool :=
  decide (v.sl_version < major)

/-- Modelled from the spec: `SlXvIsFeaturePresent(feature, min_version, max_version)`,
the feature's version lies in `[min_version, max_version]`. -/
def SlXvIsFeaturePresent (v : SlVersions) (feature : SlXvFeatureIndex)
    (min_version max_version : Nat) : Bool :=
  decide (min_version ≤ v.xv feature) && decide (v.xv feature ≤ max_version)

/-- Modelled from the spec: `SlXvIsFeatureMissing(feature, min_version)`. -/
def SlXvIsFeatureMissing (v : SlVersions) (feature : SlXvFeatureIndex)
    (min_version : Nat) : Bool :=
  !SlXvIsFeaturePresent v feature min_version 0xFFFF

/-- Modelled from the spec: `SlXvFeatureTest::IsFeaturePresent`, the savegame version
test `version_from <= _sl_version < version_to` combined with the feature test. -/
def SlXvFeatureTest.IsFeaturePresent (t : SlXvFeatureTest) (v : SlVersions)
    (version_from version_to : Nat) : Bool :=
  let savegame_version_ok := decide (version_from ≤ v.sl_version) && decide (v.sl_version < version_to)
  if t.feature = .XSLFI_NULL then savegame_version_ok
  else
    let feature_ok := SlXvIsFeaturePresent v t.feature t.min_version t.max_version
    match t.op with
    | .XSLFTO_OR => savegame_version_ok || feature_ok
    | .XSLFTO_AND => savegame_version_ok && feature_ok

/-- One entry of a `SaveLoad` descriptor table over the variables `F` of an object:
the variable (`none` for the padding of `SLE_CONDNULL`), its type on file and in
memory, the byte count of a padding entry, and the versions it is valid for. -/
structure SaveLoad (F : Type) where
  address : Option F
  file : VarType
  mem : VarType
  length : Nat
  version_from : Nat
  version_to : Nat
  ext_feature_test : SlXvFeatureTest

/-- The default-constructed `SlXvFeatureTest()`: no feature is tested. -/
def SlXvFeatureTest.none : SlXvFeatureTest :=
  ⟨.XSLFTO_OR, .XSLFI_NULL, 0, 0⟩

/-- The macro `SLE_CONDVAR_X(base, variable, type, from, to, extver)`; `type` is the pair
of the file type and the memory type. -/
def SLE_CONDVAR_X {F : Type} (var : F) (file mem : VarType) (version_from version_to : Nat)
    (extver : SlXvFeatureTest) : SaveLoad F :=
  ⟨some var, file, mem, 1, version_from, version_to, extver⟩

/-- The macro `SLE_CONDVAR(base, variable, type, from, to)` for a type that is the same
on file and in memory. -/
def SLE_CONDVAR {F : Type} (var : F) (type : VarType) (version_from version_to : Nat) :
    SaveLoad F :=
  SLE_CONDVAR_X var type type version_from version_to SlXvFeatureTest.none

/-- The macro `SLE_VAR(base, variable, type)` (also `SLEG_VAR`, for a global). -/
def SLE_VAR {F : Type} (var : F) (type : VarType) : SaveLoad F :=
  SLE_CONDVAR var type SL_MIN_VERSION SL_MAX_VERSION

/-- The macro `SLE_CONDNULL(length, from, to)`: `length` bytes without a variable. -/
def SLE_CONDNULL {F : Type} (length : Nat) (version_from version_to : Nat) : SaveLoad F :=
  ⟨Option.none, .U8, .U8, length, version_from, version_to, SlXvFeatureTest.none⟩

/-- Modelled from the spec: `SlIsObjectValidInSavegame`, whether an entry is part of
the record under the given versions. -/
def SlIsObjectValidInSavegame {F : Type} (v : SlVersions) (sld : SaveLoad F) : Bool :=
  sld.ext_feature_test.IsFeaturePresent v sld.version_from sld.version_to

/-- Modelled from the spec: `SlFilterObject`, the entries of a table valid under the
given versions. -/
def SlFilterObject {F : Type} (v : SlVersions) (slt : List (SaveLoad F)) : List (SaveLoad F) :=
  slt.filter (SlIsObjectValidInSavegame v)

/-- How the variables named by a descriptor are read from and written to an object
(`ReadValue` and `WriteValue` at the entry's address). -/
structure SlAccess (α F : Type) where
  get : α → F → Int
  set : α → F → Int → α

/-- Bytes one entry occupies on file. -/
def SaveLoad.fileBytes {F : Type} (sld : SaveLoad F) : Nat :=
  match sld.address with
  | none => sld.length
  | some _ => sld.file.size

/-- Modelled from the spec: `SlObjectSaveFiltered`, the entries' variables written one
after the other in their file type (a padding entry writes zero bytes). -/
def SlObjectSaveFiltered {α F : Type} (acc : SlAccess α F) (obj : α) :
    List (SaveLoad F) → List Byte
  | [] => []
  | sld :: slt =>
    (match sld.address with
      | none => List.replicate sld.length (0 : Byte)
      | some f => SlWriteBytes sld.file.size (acc.get obj f % 2 ^ (8 * sld.file.size)).toNat)
    ++ SlObjectSaveFiltered acc obj slt

/-- Modelled from the spec: `SlObjectLoadFiltered`, the entries' variables read one after
the other: the file value is sign-extended per its file type and converted to the
memory type; a padding entry skips its bytes. -/
def SlObjectLoadFiltered {α F : Type} (acc : SlAccess α F) :
    α → List (SaveLoad F) → List Byte → SlResult α
  | obj, [], s => .ok obj s
  | obj, sld :: slt, s =>
    match sld.address with
    | none =>
      if sld.length ≤ s.length then SlObjectLoadFiltered acc obj slt (s.drop sld.length)
      else .abort SlErrorEndOfChunk obj
    | some f =>
      match SlReadBytes sld.file.size s with
      | none => .abort SlErrorEndOfChunk obj
      | some (n, r) =>
        SlObjectLoadFiltered acc (acc.set obj f (sld.mem.wrap (sld.file.decode n))) slt r

/-- Modelled from the spec: `SlObject` in save mode, the table filtered on the fly. -/
def SlObjectSave {α F : Type} (v : SlVersions) (acc : SlAccess α F) (obj : α)
    (slt : List (SaveLoad F)) : List Byte :=
  SlObjectSaveFiltered acc obj (SlFilterObject v slt)

/-- Modelled from the spec: `SlObject` in load mode, the table filtered on the fly. -/
def SlObjectLoad {α F : Type} (v : SlVersions) (acc : SlAccess α F) (obj : α)
    (slt : List (SaveLoad F)) (s : List Byte) : SlResult α :=
  SlObjectLoadFiltered acc obj (SlFilterObject v slt) s

/-! ## The link graph (`linkgraph.h`, declarations used by `linkgraph_sl.cpp`) -/

/-- The sentinel `INVALID_NODE` (`to == 0xFFFF`); a `NodeID` (`uint16_t`) is a `Nat`. -/
def INVALID_NODE : Nat := 0xFFFF

/-- The class `LinkGraph::BaseNode`. -/
structure Node where
  xy : Int
  supply : Int
  demand : Int
  station : Int
  last_update : Int
  deriving DecidableEq, Repr, Inhabited

/-- The class `LinkGraph::BaseEdge`. -/
structure Edge where
  capacity : Int
  usage : Int
  travel_time_sum : Int
  last_unrestricted_update : Int
  last_restricted_update : Int
  last_aircraft_update : Int
  deriving DecidableEq, Repr, Inhabited

inductive NodeField where
  | xy | supply | demand | station | last_update
  deriving DecidableEq, Repr

inductive EdgeField where
  | capacity | usage | travel_time_sum | last_unrestricted_update | last_restricted_update
  | last_aircraft_update
  deriving DecidableEq, Repr

def Node.access : SlAccess Node NodeField where
  get n f := match f with
    | .xy => n.xy | .supply => n.supply | .demand => n.demand | .station => n.station
    | .last_update => n.last_update
  set n f v := match f with
    | .xy => { n with xy := v }
    | .supply => { n with supply := v }
    | .demand => { n with demand := v }
    | .station => { n with station := v }
    | .last_update => { n with last_update := v }

def Edge.access : SlAccess Edge EdgeField where
  get e f := match f with
    | .capacity => e.capacity | .usage => e.usage | .travel_time_sum => e.travel_time_sum
    | .last_unrestricted_update => e.last_unrestricted_update
    | .last_restricted_update => e.last_restricted_update
    | .last_aircraft_update => e.last_aircraft_update
  set e f v := match f with
    | .capacity => { e with capacity := v }
    | .usage => { e with usage := v }
    | .travel_time_sum => { e with travel_time_sum := v }
    | .last_unrestricted_update => { e with last_unrestricted_update := v }
    | .last_restricted_update => { e with last_restricted_update := v }
    | .last_aircraft_update => { e with last_aircraft_update := v }

/-- Table `_node_desc`: SaveLoad desc for a link graph node. -/
def _node_desc : List (SaveLoad NodeField) := [
  SLE_CONDVAR .xy .U32 SLV_191 SL_MAX_VERSION,
  SLE_VAR .supply .U32,
  SLE_VAR .demand .U32,
  SLE_VAR .station .U16,
  SLE_VAR .last_update .I32 ]

/-- Table `_edge_desc`: SaveLoad desc for a link graph edge. -/
def _edge_desc : List (SaveLoad EdgeField) := [
  SLE_CONDNULL 4 SL_MIN_VERSION SLV_191,
  SLE_VAR .capacity .U32,
  SLE_VAR .usage .U32,
  SLE_CONDVAR_X .travel_time_sum .U64 .U64 SL_MIN_VERSION SL_MAX_VERSION
    ⟨.XSLFTO_AND, .XSLFI_LINKGRAPH_TRAVEL_TIME, 1, 0xFFFF⟩,
  SLE_VAR .last_unrestricted_update .I32,
  SLE_CONDVAR .last_restricted_update .I32 SLV_187 SL_MAX_VERSION,
  SLE_CONDVAR_X .last_aircraft_update .I32 .I32 SL_MIN_VERSION SL_MAX_VERSION
    ⟨.XSLFTO_AND, .XSLFI_LINKGRAPH_AIRCRAFT, 1, 0xFFFF⟩ ]

/-- Key of the edge map: the pair `(from, to)`. -/
abbrev EdgeKey := Nat × Nat

/-- The order of `std::pair<NodeID, NodeID>`: by `from`, then by `to`. -/
def EdgeKey.lt (a b : EdgeKey) : Bool :=
  decide (a.1 < b.1) || (decide (a.1 = b.1) && decide (a.2 < b.2))

/-- The edge map `LinkGraph::edges`, as the sequence of its entries in iteration
order (ascending keys). -/
abbrev EdgeMap := List (EdgeKey × Edge)

/-- Lookup of a key in the edge map. -/
def EdgeMap.find : EdgeMap → EdgeKey → Option Edge
  | [], _ => none
  | (k', e) :: m, k => if k' = k then some e else EdgeMap.find m k

/-- Store `e` under `k`: the entry is replaced when the key exists and inserted at its
place in the key order otherwise. -/
def EdgeMap.assign : EdgeMap → EdgeKey → Edge → EdgeMap
  | [], k, e => [(k, e)]
  | (k', e') :: m, k, e =>
    if EdgeKey.lt k k' then (k, e) :: (k', e') :: m
    else if k = k' then (k, e) :: m
    else (k', e') :: EdgeMap.assign m k e

/-- The class `LinkGraph`: pool index, header variables, nodes and edge map. -/
structure LinkGraph where
  index : Int
  last_compression : Int
  cargo : Int
  nodes : List Node
  edges : EdgeMap
  deriving DecidableEq, Repr

/-- Modelled from the spec: `LinkGraph::Size()`, the node count as a `NodeID`
(`node count: uint16`). -/
def LinkGraph.Size (lg : LinkGraph) : Nat := lg.nodes.length % 2 ^ 16

/-- Modelled from the spec: `LinkGraph::Init(size)`, which gives the graph `size` nodes,
each a value-initialised node `node_init`. -/
def LinkGraph.Init (node_init : Node) (lg : LinkGraph) (size : Nat) : LinkGraph :=
  { lg with nodes := List.replicate size node_init }

/-- The access `lg.edges[std::make_pair(from, to)]` of `operator[]`: the stored edge, or
a default-constructed one (`edge_init`) that is inserted. -/
def LinkGraph.edgeAt (edge_init : Edge) (lg : LinkGraph) (k : EdgeKey) : Edge :=
  (lg.edges.find k).getD edge_init

/-- The graph with `e` stored at `lg.edges[k]`. -/
def LinkGraph.setEdge (lg : LinkGraph) (k : EdgeKey) (e : Edge) : LinkGraph :=
  { lg with edges := lg.edges.assign k e }

/-- The graph with `n` stored at `lg.nodes[from]`. -/
def LinkGraph.setNode (lg : LinkGraph) (from_ : Nat) (n : Node) : LinkGraph :=
  { lg with nodes := lg.nodes.set from_ n }

/-! ## `Save_LinkGraph` (`linkgraph_sl.cpp`, lines 156-173) -/

/-- The inner loop `while (edge_iter != edge_end && edge_iter->first.first == from)`:
the bytes written and the iterator where the loop stops. -/
def Save_LinkGraph.edgeLoop (_filtered_edge_desc : List (SaveLoad EdgeField)) (from_ : Nat) :
    EdgeMap → List Byte × EdgeMap
  | [] => ([], [])
  | (k, e) :: edge_iter =>
    if k.1 = from_ then
      let r := Save_LinkGraph.edgeLoop _filtered_edge_desc from_ edge_iter
      (SlWriteUint16 k.2 ++ SlObjectSaveFiltered Edge.access e _filtered_edge_desc ++ r.1, r.2)
    else ([], (k, e) :: edge_iter)

/-- The outer loop `for (NodeID from = 0; from < size; ++from)` with `n = size - from`
rounds left. -/
def Save_LinkGraph.nodeLoop (_filtered_node_desc : List (SaveLoad NodeField))
    (_filtered_edge_desc : List (SaveLoad EdgeField)) (nodes : List Node) :
    Nat → Nat → EdgeMap → List Byte
  | 0, _, _ => []
  | n + 1, from_, edge_iter =>
    let r := Save_LinkGraph.edgeLoop _filtered_edge_desc from_ edge_iter
    SlObjectSaveFiltered Node.access (nodes.getD from_ default) _filtered_node_desc
      ++ r.1 ++ SlWriteUint16 INVALID_NODE
      ++ Save_LinkGraph.nodeLoop _filtered_node_desc _filtered_edge_desc nodes n (from_ + 1) r.2

/-- The function `Save_LinkGraph(LinkGraph &lg)`: the bytes it writes. -/
def Save_LinkGraph (_filtered_node_desc : List (SaveLoad NodeField))
    (_filtered_edge_desc : List (SaveLoad EdgeField)) (lg : LinkGraph) : List Byte :=
  let size := lg.Size
  Save_LinkGraph.nodeLoop _filtered_node_desc _filtered_edge_desc lg.nodes size 0 lg.edges

/-! ## `Load_LinkGraph` (`linkgraph_sl.cpp`, lines 179-221) -/

/-- The statements `Node *node = &lg.nodes[from]; SlObjectLoadFiltered(node,
_filtered_node_desc);`. -/
def Load_LinkGraph.loadNode (_filtered_node_desc : List (SaveLoad NodeField)) (from_ : Nat)
    (lg : LinkGraph) (s : List Byte) : SlResult LinkGraph :=
  match SlObjectLoadFiltered Node.access (lg.nodes.getD from_ default) _filtered_node_desc s with
  | .ok node r => .ok (lg.setNode from_ node) r
  | .abort why node => .abort why (lg.setNode from_ node)

/-- The statement `SlObjectLoadFiltered(&lg.edges[std::make_pair(from, to)],
_filtered_edge_desc);`. -/
def Load_LinkGraph.loadEdge (_filtered_edge_desc : List (SaveLoad EdgeField)) (edge_init : Edge)
    (k : EdgeKey) (lg : LinkGraph) (s : List Byte) : SlResult LinkGraph :=
  match SlObjectLoadFiltered Edge.access (lg.edgeAt edge_init k) _filtered_edge_desc s with
  | .ok edge r => .ok (lg.setEdge k edge) r
  | .abort why edge => .abort why (lg.setEdge k edge)

/-- A loop `for (NodeID from = 0; from < size; ++from) body` over a state `σ`, with
`n = size - from` rounds left; an abort of the body ends it. -/
def Load_LinkGraph.forNodes {σ : Type} (body : Nat → σ → List Byte → SlResult σ) :
    Nat → Nat → σ → List Byte → SlResult σ
  | 0, _, st, s => .ok st s
  | n + 1, from_, st, s =>
    match body from_ st s with
    | .ok st1 r => Load_LinkGraph.forNodes body n (from_ + 1) st1 r
    | .abort why st1 => .abort why st1

/-- Sparse format, the loop `while (true)` of lines 186-190. Every round reads at least
the two bytes of `to`, so `fuel` above the length of the chunk is never used up. -/
def Load_LinkGraph.sparseEdges (_filtered_edge_desc : List (SaveLoad EdgeField))
    (edge_init : Edge) (from_ : Nat) : Nat → LinkGraph → List Byte → SlResult LinkGraph
  | 0, lg, _ => .abort .endless lg
  | fuel + 1, lg, s =>
    match SlReadUint16 s with
    | none => .abort SlErrorEndOfChunk lg
    | some (to_, r) =>
      if to_ = INVALID_NODE then .ok lg r
      else
        match Load_LinkGraph.loadEdge _filtered_edge_desc edge_init (from_, to_) lg r with
        | .ok lg1 r1 => Load_LinkGraph.sparseEdges _filtered_edge_desc edge_init from_ fuel lg1 r1
        | .abort why lg1 => .abort why lg1

/-- Sparse format, the body of the loop over `from` (lines 184-190). -/
def Load_LinkGraph.sparseRow (_filtered_node_desc : List (SaveLoad NodeField))
    (_filtered_edge_desc : List (SaveLoad EdgeField)) (edge_init : Edge) (from_ : Nat)
    (lg : LinkGraph) (s : List Byte) : SlResult LinkGraph :=
  match Load_LinkGraph.loadNode _filtered_node_desc from_ lg s with
  | .ok lg1 r =>
    Load_LinkGraph.sparseEdges _filtered_edge_desc edge_init from_ (r.length + 1) lg1 r
  | .abort why lg1 => .abort why lg1

/-- The state of the legacy dense path: the graph and the two temporary vectors. -/
structure DenseState where
  lg : LinkGraph
  temp_edges : List Edge
  temp_next_edges : List Nat
  deriving DecidableEq, Repr

/-- Dense format, the loop `for (NodeID to = 0; to < size; ++to)` of lines 201-204 with
`n = size - to` rounds left: it fills the temporary vectors. -/
def Load_LinkGraph.denseCells (_filtered_edge_desc : List (SaveLoad EdgeField)) :
    Nat → Nat → DenseState → List Byte → SlResult DenseState
  | 0, _, st, s => .ok st s
  | n + 1, to_, st, s =>
    match SlObjectLoadFiltered Edge.access (st.temp_edges.getD to_ default) _filtered_edge_desc s with
    | .abort why edge => .abort why { st with temp_edges := st.temp_edges.set to_ edge }
    | .ok edge r =>
      let st1 := { st with temp_edges := st.temp_edges.set to_ edge }
      match SlReadUint16 r with
      | none => .abort SlErrorEndOfChunk st1
      | some (next, r1) =>
        Load_LinkGraph.denseCells _filtered_edge_desc n (to_ + 1)
          { st1 with temp_next_edges := st1.temp_next_edges.set to_ next } r1

/-- Dense format, the loop `for (NodeID to = from; to != INVALID_NODE; to =
temp_next_edges[to])` of lines 205-207. Nothing checks `to` against the size of the
vectors; an index past their end is the abort `outOfRange`. `fuel` counts the rounds
left. -/
def Load_LinkGraph.denseChain (from_ : Nat) (temp_edges : List Edge)
    (temp_next_edges : List Nat) : Nat → Nat → LinkGraph → SlResult LinkGraph
  | 0, to_, lg => if to_ = INVALID_NODE then .ok lg [] else .abort .endless lg
  | fuel + 1, to_, lg =>
    if to_ = INVALID_NODE then .ok lg []
    else
      match temp_edges[to_]?, temp_next_edges[to_]? with
      | some edge, some next =>
        Load_LinkGraph.denseChain from_ temp_edges temp_next_edges fuel next
          (lg.setEdge (from_, to_) edge)
      | _, _ => .abort .outOfRange lg

/-- Dense format, the body of the loop over `from` (lines 198-207). A chain that runs
for more than `size` rounds inside the vectors visits an index twice and never ends, so
`size + 1` rounds decide the loop. -/
def Load_LinkGraph.denseRow (_filtered_node_desc : List (SaveLoad NodeField))
    (_filtered_edge_desc : List (SaveLoad EdgeField)) (size : Nat) (from_ : Nat)
    (st : DenseState) (s : List Byte) : SlResult DenseState :=
  match Load_LinkGraph.loadNode _filtered_node_desc from_ st.lg s with
  | .abort why lg1 => .abort why { st with lg := lg1 }
  | .ok lg1 r =>
    match Load_LinkGraph.denseCells _filtered_edge_desc size 0 { st with lg := lg1 } r with
    | .abort why st1 => .abort why st1
    | .ok st1 r1 =>
      match Load_LinkGraph.denseChain from_ st1.temp_edges st1.temp_next_edges (size + 1)
          from_ st1.lg with
      | .ok lg2 _ => .ok { st1 with lg := lg2 } r1
      | .abort why lg2 => .abort why { st1 with lg := lg2 }

/-- Linked-list format, the loop `for (NodeID to = from; to != INVALID_NODE;)` of lines
214-218. Every round but the first follows a read of two bytes, so `fuel` above the
length of the chunk is never used up. -/
def Load_LinkGraph.listEdges (_filtered_edge_desc : List (SaveLoad EdgeField))
    (edge_init : Edge) (size : Nat) (from_ : Nat) :
    Nat → Nat → LinkGraph → List Byte → SlResult LinkGraph
  | 0, _, lg, _ => .abort .endless lg
  | fuel + 1, to_, lg, s =>
    if to_ = INVALID_NODE then .ok lg s
    else if size ≤ to_ then .abort (.SlErrorCorrupt "Link graph structure overflow") lg
    else
      match Load_LinkGraph.loadEdge _filtered_edge_desc edge_init (from_, to_) lg s with
      | .abort why lg1 => .abort why lg1
      | .ok lg1 r =>
        match SlReadUint16 r with
        | none => .abort SlErrorEndOfChunk lg1
        | some (next, r1) =>
          Load_LinkGraph.listEdges _filtered_edge_desc edge_init size from_ fuel next lg1 r1

/-- Linked-list format, the body of the loop over `from` (lines 211-218). -/
def Load_LinkGraph.listRow (_filtered_node_desc : List (SaveLoad NodeField))
    (_filtered_edge_desc : List (SaveLoad EdgeField)) (edge_init : Edge) (size : Nat)
    (from_ : Nat) (lg : LinkGraph) (s : List Byte) : SlResult LinkGraph :=
  match Load_LinkGraph.loadNode _filtered_node_desc from_ lg s with
  | .ok lg1 r =>
    Load_LinkGraph.listEdges _filtered_edge_desc edge_init size from_ (r.length + 2) from_ lg1 r
  | .abort why lg1 => .abort why lg1

/-- Projection of a result of the dense path on the graph. -/
def SlResult.toGraph : SlResult DenseState → SlResult LinkGraph
  | .ok st r => .ok st.lg r
  | .abort why st => .abort why st.lg

/-- The function `Load_LinkGraph(LinkGraph &lg)`; `v` is the version state of the
savegame, the filtered descriptors are the globals set by `FilterDescs`, `edge_init` is
a default-constructed edge. -/
def Load_LinkGraph (v : SlVersions) (_filtered_node_desc : List (SaveLoad NodeField))
    (_filtered_edge_desc : List (SaveLoad EdgeField)) (edge_init : Edge)
    (lg : LinkGraph) (s : List Byte) : SlResult LinkGraph :=
  let size := lg.Size
  if SlXvIsFeaturePresent v .XSLFI_LINKGRAPH_SPARSE_EDGES 1 0xFFFF then
    Load_LinkGraph.forNodes
      (Load_LinkGraph.sparseRow _filtered_node_desc _filtered_edge_desc edge_init) size 0 lg s
  else if IsSavegameVersionBefore v SLV_191 then
    SlResult.toGraph
      (Load_LinkGraph.forNodes (Load_LinkGraph.denseRow _filtered_node_desc _filtered_edge_desc size)
        size 0 ⟨lg, List.replicate size edge_init, List.replicate size 0⟩ s)
  else
    Load_LinkGraph.forNodes
      (Load_LinkGraph.listRow _filtered_node_desc _filtered_edge_desc edge_init size) size 0 lg s

/-! ## Link graph jobs and the chunk handlers (`linkgraph_sl.cpp`) -/

/-- The struct `LinkGraphSettings` (`settings_type.h`): the member `recalc_time` and the
other members, numbered. -/
structure LinkGraphSettings where
  recalc_time : Int
  other : Nat → Int

inductive LinkGraphSettingsField where
  | recalc_time
  | other (i : Nat)
  deriving DecidableEq, Repr

/-- The class `LinkGraphJob`, as far as it is saved: its copy of the graph, its copy of
the settings and the two schedule timestamps. -/
structure LinkGraphJob where
  link_graph : LinkGraph
  settings : LinkGraphSettings
  join_date_ticks : Int
  start_date_ticks : Int

/-- Variables of a `LinkGraphJob` a descriptor can name. -/
inductive LinkGraphJobField where
  | settings (f : LinkGraphSettingsField)
  | join_date_ticks
  | start_date_ticks
  | link_graph_index
  deriving DecidableEq, Repr

def LinkGraphSettings.access : SlAccess LinkGraphSettings LinkGraphSettingsField where
  get st f := match f with
    | .recalc_time => st.recalc_time
    | .other i => st.other i
  set st f v := match f with
    | .recalc_time => { st with recalc_time := v }
    | .other i => { st with other := Function.update st.other i v }

def LinkGraphJob.access : SlAccess LinkGraphJob LinkGraphJobField where
  get lgj f := match f with
    | .settings g => LinkGraphSettings.access.get lgj.settings g
    | .join_date_ticks => lgj.join_date_ticks
    | .start_date_ticks => lgj.start_date_ticks
    | .link_graph_index => lgj.link_graph.index
  set lgj f v := match f with
    | .settings g => { lgj with settings := LinkGraphSettings.access.set lgj.settings g v }
    | .join_date_ticks => { lgj with join_date_ticks := v }
    | .start_date_ticks => { lgj with start_date_ticks := v }
    | .link_graph_index => { lgj with link_graph := { lgj.link_graph with index := v } }

/-- Modelled from the spec: `LinkGraphJob::Size()`, the size of the job's own graph. -/
def LinkGraphJob.Size (lgj : LinkGraphJob) : Nat := lgj.link_graph.Size

/-- What `linkgraph_sl.cpp` takes from declarations outside the sources: the link graph
setting table, the values default construction gives, and the date constants. -/
structure Env where
  linkgraph_table : List (SaveLoad LinkGraphSettingsField)
  node_init : Node
  edge_init : Edge
  last_compression_init : Int
  cargo_init : Int
  index_init : Int
  settings_init : LinkGraphSettings
  join_date_ticks_init : Int
  start_date_ticks_init : Int
  DAY_TICKS : Nat
  SECONDS_PER_DAY : Nat
  SPAWN_JOIN_TICK : Nat
  SLV_LINKGRAPH_SECONDS : Nat

/-- The expression `new (index) LinkGraph()`: a graph without nodes and edges. -/
def Env.newLinkGraph (env : Env) (index : Int) : LinkGraph :=
  ⟨index, env.last_compression_init, env.cargo_init, [], []⟩

/-- The expression `new (index) LinkGraphJob()`: a job whose graph has no nodes and no
edges. -/
def Env.newLinkGraphJob (env : Env) : LinkGraphJob :=
  ⟨env.newLinkGraph env.index_init, env.settings_init, env.join_date_ticks_init,
    env.start_date_ticks_init⟩

/-- A graph header being saved or loaded together with the global `_num_nodes`. -/
structure LGRPState where
  lg : LinkGraph
  _num_nodes : Int

/-- A job being loaded together with the global `_num_nodes`. -/
structure LGRJState where
  lgj : LinkGraphJob
  _num_nodes : Int

inductive LinkGraphField where
  | last_compression
  | _num_nodes
  | cargo
  deriving DecidableEq, Repr

def LGRPState.access : SlAccess LGRPState LinkGraphField where
  get st f := match f with
    | .last_compression => st.lg.last_compression
    | ._num_nodes => st._num_nodes
    | .cargo => st.lg.cargo
  set st f v := match f with
    | .last_compression => { st with lg := { st.lg with last_compression := v } }
    | ._num_nodes => { st with _num_nodes := v }
    | .cargo => { st with lg := { st.lg with cargo := v } }

/-- The function `GetLinkGraphDesc()`: SaveLoad array for a link graph. -/
def GetLinkGraphDesc : List (SaveLoad LinkGraphField) := [
  SLE_CONDVAR_X .last_compression .I32 .I64 SL_MIN_VERSION SL_MAX_VERSION
    ⟨.XSLFTO_AND, .XSLFI_LINKGRAPH_DAY_SCALE, 0, 3⟩,
  SLE_CONDVAR_X .last_compression .I64 .I64 SL_MIN_VERSION SL_MAX_VERSION
    ⟨.XSLFTO_AND, .XSLFI_LINKGRAPH_DAY_SCALE, 4, 0xFFFF⟩,
  SLE_VAR ._num_nodes .U16,
  SLE_VAR .cargo .U8 ]

/-- The array `job_desc` of `GetLinkGraphJobDesc()` (lines 85-91). -/
def GetLinkGraphJobDesc.job_desc : List (SaveLoad LinkGraphJobField) := [
  SLE_CONDVAR_X .join_date_ticks .I32 .I64 SL_MIN_VERSION SL_MAX_VERSION
    ⟨.XSLFTO_AND, .XSLFI_LINKGRAPH_DAY_SCALE, 0, 4⟩,
  SLE_CONDVAR_X .join_date_ticks .I64 .I64 SL_MIN_VERSION SL_MAX_VERSION
    ⟨.XSLFTO_AND, .XSLFI_LINKGRAPH_DAY_SCALE, 5, 0xFFFF⟩,
  SLE_CONDVAR_X .start_date_ticks .I32 .I64 SL_MIN_VERSION SL_MAX_VERSION
    ⟨.XSLFTO_AND, .XSLFI_LINKGRAPH_DAY_SCALE, 1, 4⟩,
  SLE_CONDVAR_X .start_date_ticks .I64 .I64 SL_MIN_VERSION SL_MAX_VERSION
    ⟨.XSLFTO_AND, .XSLFI_LINKGRAPH_DAY_SCALE, 5, 0xFFFF⟩,
  SLE_VAR .link_graph_index .U16 ]

/-- The function `GetLinkGraphJobDesc()`: the entries of the link graph setting table,
their addresses moved from `GameSettings::linkgraph` to `LinkGraphJob::settings` (an entry
without a variable is kept as it is), followed by `job_desc`. -/
def GetLinkGraphJobDesc (linkgraph_table : List (SaveLoad LinkGraphSettingsField)) :
    List (SaveLoad LinkGraphJobField) :=
  linkgraph_table.map (fun sl =>
      ⟨sl.address.map LinkGraphJobField.settings, sl.file, sl.mem, sl.length, sl.version_from,
        sl.version_to, sl.ext_feature_test⟩)
    ++ GetLinkGraphJobDesc.job_desc

/-- The globals `_filtered_node_desc`, `_filtered_edge_desc`, `_filtered_job_desc`. -/
structure FilteredDescs where
  _filtered_node_desc : List (SaveLoad NodeField)
  _filtered_edge_desc : List (SaveLoad EdgeField)
  _filtered_job_desc : List (SaveLoad LinkGraphJobField)

/-- The function `FilterDescs()`. -/
def FilterDescs (v : SlVersions) (env : Env) : FilteredDescs :=
  ⟨SlFilterObject v _node_desc, SlFilterObject v _edge_desc,
    SlFilterObject v (GetLinkGraphJobDesc env.linkgraph_table)⟩

/-- The function `GetLinkGraphJobDayLengthScaleAfterLoad(LinkGraphJob *lgj)`; the ticks
are 64-bit signed, `recalc_scale` and its product with `recalc_time` are `uint`. -/
def GetLinkGraphJobDayLengthScaleAfterLoad (v : SlVersions) (env : Env) (lgj : LinkGraphJob) :
    LinkGraphJob :=
  let join1 := VarType.I64.wrap (lgj.join_date_ticks * env.DAY_TICKS)
  let join2 := VarType.I64.wrap (join1 + env.SPAWN_JOIN_TICK)
  let recalc_scale : Nat :=
    if IsSavegameVersionBefore v env.SLV_LINKGRAPH_SECONDS
        && SlXvIsFeatureMissing v .XSLFI_LINKGRAPH_DAY_SCALE 3 then
      env.DAY_TICKS % 2 ^ 32
    else
      (env.DAY_TICKS / env.SECONDS_PER_DAY) % 2 ^ 32
  { lgj with
    join_date_ticks := join2
    start_date_ticks :=
      VarType.I64.wrap (join2 - VarType.U32.wrap (lgj.settings.recalc_time * recalc_scale)) }

/-- The function `DoSave_LGRP(LinkGraph *lg)`: the bytes it writes. -/
def DoSave_LGRP (v : SlVersions) (fd : FilteredDescs) (lg : LinkGraph) : List Byte :=
  let _num_nodes : Int := lg.Size
  SlObjectSave v LGRPState.access ⟨lg, _num_nodes⟩ GetLinkGraphDesc
    ++ Save_LinkGraph fd._filtered_node_desc fd._filtered_edge_desc lg

/-- The function `DoSave_LGRJ(LinkGraphJob *lgj)`: the bytes it writes. -/
def DoSave_LGRJ (v : SlVersions) (fd : FilteredDescs) (lgj : LinkGraphJob) : List Byte :=
  let job := SlObjectSaveFiltered LinkGraphJob.access lgj fd._filtered_job_desc
  let _num_nodes : Int := lgj.Size
  job ++ SlObjectSave v LGRPState.access ⟨lgj.link_graph, _num_nodes⟩ GetLinkGraphDesc
    ++ Save_LinkGraph fd._filtered_node_desc fd._filtered_edge_desc lgj.link_graph

/-- One round of the loop of `Load_LGRP()` after the allocation of `lg` (lines 259-261):
`SlObject(lg, GetLinkGraphDesc()); lg->Init(_num_nodes); Load_LinkGraph(*lg);`. -/
def Load_LGRP.item (v : SlVersions) (env : Env) (fd : FilteredDescs) (st : LGRPState)
    (s : List Byte) : SlResult LGRPState :=
  match SlObjectLoad v LGRPState.access st GetLinkGraphDesc s with
  | .abort why st1 => .abort why st1
  | .ok st1 r =>
    let lg1 := st1.lg.Init env.node_init st1._num_nodes.toNat
    match Load_LinkGraph v fd._filtered_node_desc fd._filtered_edge_desc env.edge_init lg1 r with
    | .ok lg2 r1 => .ok ⟨lg2, st1._num_nodes⟩ r1
    | .abort why lg2 => .abort why ⟨lg2, st1._num_nodes⟩

/-- One round of the loop of `Load_LGRP()` (lines 254-261) for the array index `index`;
`_num_nodes` is the value of the global before the round. The pool has room for the
graph (`CanAllocateItem`), which the source takes for granted (`NOT_REACHED`). -/
def Load_LGRP.round (v : SlVersions) (env : Env) (index : Int) (_num_nodes : Int)
    (s : List Byte) : SlResult LGRPState :=
  Load_LGRP.item v env (FilterDescs v env) ⟨env.newLinkGraph index, _num_nodes⟩ s

/-- One round of the loop of `Load_LGRJ()` (lines 273-286); `_num_nodes` is the value of
the global before the round. The pool has room for the job (`CanAllocateItem`), which
the source takes for granted (`NOT_REACHED`). -/
def Load_LGRJ.round (v : SlVersions) (env : Env) (_num_nodes : Int) (s : List Byte) :
    SlResult LGRJState :=
  let fd := FilterDescs v env
  match SlObjectLoadFiltered LinkGraphJob.access env.newLinkGraphJob fd._filtered_job_desc s with
  | .abort why lgj => .abort why ⟨lgj, _num_nodes⟩
  | .ok lgj r =>
    let lgj1 :=
      if SlXvIsFeatureMissing v .XSLFI_LINKGRAPH_DAY_SCALE 1 then
        GetLinkGraphJobDayLengthScaleAfterLoad v env lgj
      else lgj
    match SlObjectLoad v LGRPState.access ⟨lgj1.link_graph, _num_nodes⟩ GetLinkGraphDesc r with
    | .abort why st1 => .abort why ⟨{ lgj1 with link_graph := st1.lg }, st1._num_nodes⟩
    | .ok st1 r1 =>
      let lg1 := st1.lg.Init env.node_init st1._num_nodes.toNat
      match Load_LinkGraph v fd._filtered_node_desc fd._filtered_edge_desc env.edge_init lg1 r1 with
      | .ok lg2 r2 => .ok ⟨{ lgj1 with link_graph := lg2 }, st1._num_nodes⟩ r2
      | .abort why lg2 => .abort why ⟨{ lgj1 with link_graph := lg2 }, st1._num_nodes⟩

/-! ## Well-formed values and the sparse layout as the specification words it -/

/-- The members of a node hold values of their C types. -/
def Node.WF (n : Node) : Prop :=
  VarType.U32.inRange n.xy ∧ VarType.U32.inRange n.supply ∧ VarType.U32.inRange n.demand ∧
    VarType.U16.inRange n.station ∧ VarType.I32.inRange n.last_update

instance (n : Node) : Decidable n.WF := by
  unfold Node.WF; exact inferInstance

/-- The members of an edge hold values of their C types. -/
def Edge.WF (e : Edge) : Prop :=
  VarType.U32.inRange e.capacity ∧ VarType.U32.inRange e.usage ∧
    VarType.U64.inRange e.travel_time_sum ∧ VarType.I32.inRange e.last_unrestricted_update ∧
    VarType.I32.inRange e.last_restricted_update ∧ VarType.I32.inRange e.last_aircraft_update

instance (e : Edge) : Decidable e.WF := by
  unfold Edge.WF; exact inferInstance

/-- The edge map is ordered by `(from, to)`: its entries ascend strictly in the order of
the keys (the invariant of the ordered map). -/
def EdgeMap.Ordered (m : EdgeMap) : Prop :=
  m.Pairwise (fun a b => EdgeKey.lt a.1 b.1 = true)

instance (m : EdgeMap) : Decidable m.Ordered := by
  unfold EdgeMap.Ordered; exact inferInstance

/-- A link graph as the C++ types allow it: a node count that fits a `NodeID`, members
within their types, an edge map in key order. -/
def LinkGraph.WF (lg : LinkGraph) : Prop :=
  lg.nodes.length < 2 ^ 16 ∧ (∀ n ∈ lg.nodes, n.WF) ∧ (∀ ke ∈ lg.edges, ke.2.WF) ∧
    lg.edges.Ordered

instance (lg : LinkGraph) : Decidable lg.WF := by
  unfold LinkGraph.WF; exact inferInstance

/-- The version state a game is saved under, as far as nodes and edges go: a savegame
version from `SLV_191` on and the travel time, aircraft and sparse edges features
present, so that every variable of `_node_desc` and `_edge_desc` is written. -/
def SlVersions.savesAllMembers (v : SlVersions) : Prop :=
  SLV_191 ≤ v.sl_version ∧ v.sl_version < SL_MAX_VERSION ∧
    SlXvIsFeaturePresent v .XSLFI_LINKGRAPH_TRAVEL_TIME 1 0xFFFF = true ∧
    SlXvIsFeaturePresent v .XSLFI_LINKGRAPH_AIRCRAFT 1 0xFFFF = true ∧
    SlXvIsFeaturePresent v .XSLFI_LINKGRAPH_SPARSE_EDGES 1 0xFFFF = true

instance (v : SlVersions) : Decidable v.savesAllMembers := by
  unfold SlVersions.savesAllMembers; exact inferInstance

/-- The edges leaving `from` in the order of the map, each as its `to` and its value. -/
def EdgeMap.row (m : EdgeMap) (from_ : Nat) : List (Nat × Edge) :=
  (m.filter (fun ke => decide (ke.1.1 = from_))).map (fun ke => (ke.1.2, ke.2))

/-- The sparse format of one node as the specification gives it: the node record, then
for each edge the 16-bit `to` followed by the edge record, then the sentinel `0xFFFF`. -/
def sparseRowBytes (node_desc : List (SaveLoad NodeField)) (edge_desc : List (SaveLoad EdgeField))
    (node : Node) (row : List (Nat × Edge)) : List Byte :=
  SlObjectSaveFiltered Node.access node node_desc
    ++ row.flatMap (fun te => SlWriteUint16 te.1 ++ SlObjectSaveFiltered Edge.access te.2 edge_desc)
    ++ SlWriteUint16 0xFFFF

/-- The sparse format of a graph as the specification gives it: the rows of the nodes
`0 .. size - 1` in ascending order. -/
def sparseLayout (node_desc : List (SaveLoad NodeField)) (edge_desc : List (SaveLoad EdgeField))
    (lg : LinkGraph) : List Byte :=
  (List.range lg.Size).flatMap (fun from_ =>
    sparseRowBytes node_desc edge_desc (lg.nodes.getD from_ default) (lg.edges.row from_))

/-! ## Predicates and layouts the theorems are stated with -/

/-- The entries of the job descriptor valid under `v` that store the variable `f`. -/
def activeJobEntries (v : SlVersions) (linkgraph_table : List (SaveLoad LinkGraphSettingsField))
    (f : LinkGraphJobField) : List (SaveLoad LinkGraphJobField) :=
  (SlFilterObject v (GetLinkGraphJobDesc linkgraph_table)).filter
    (fun sld => decide (sld.address = some f))

/-- The object a loading routine worked on, whether it ended or aborted. -/
def SlResult.obj {α : Type} : SlResult α → α
  | .ok o _ => o
  | .abort _ o => o

/-- The chain of next pointers that starts at `to_` visits exactly the entries of `c`, in
this order, every one below `size`, and then reaches `INVALID_NODE`: `c` is
`to, N[to], N[N[to]], ...` up to the element whose next pointer is `0xFFFF`. -/
def ChainFrom (temp_next_edges : List Nat) (size : Nat) : Nat → List Nat → Prop
  | to_, [] => to_ = INVALID_NODE
  | to_, t :: c =>
    t = to_ ∧ to_ < size ∧
      match temp_next_edges[to_]? with
      | some next => ChainFrom temp_next_edges size next c
      | none => False

instance ChainFrom.decidable (temp_next_edges : List Nat) (size : Nat) :
    (to_ : Nat) → (c : List Nat) → Decidable (ChainFrom temp_next_edges size to_ c)
  | to_, [] => decEq to_ INVALID_NODE
  | to_, t :: c =>
    match h : temp_next_edges[to_]? with
    | some next =>
      match ChainFrom.decidable temp_next_edges size next c with
      | isTrue hc =>
        if h1 : t = to_ ∧ to_ < size then
          isTrue (by unfold ChainFrom; rw [h]; exact ⟨h1.1, h1.2, hc⟩)
        else isFalse (by unfold ChainFrom; exact fun hx => h1 ⟨hx.1, hx.2.1⟩)
      | isFalse hc =>
        isFalse (by unfold ChainFrom; rw [h]; exact fun hx => hc hx.2.2)
    | none => isFalse (by unfold ChainFrom; rw [h]; exact fun hx => hx.2.2)

/-- Number of bytes a record takes on file under a filtered descriptor. -/
def recordBytes {F : Type} (desc : List (SaveLoad F)) : Nat :=
  (desc.map SaveLoad.fileBytes).sum

/-- The bytes of one row of the linked-list format up to, but without, the next pointer
that ends it: the node record, the edge record of `(from, from)`, and for every further
element of the chain its 16-bit node ID followed by its edge record. -/
structure ListRow where
  node : List Byte
  first : List Byte
  chain : List (Nat × List Byte)

/-- The bytes of the row. -/
def ListRow.bytes (row : ListRow) : List Byte :=
  row.node ++ row.first ++ row.chain.flatMap (fun p => SlWriteUint16 p.1 ++ p.2)

/-- The records of the row have the length of their descriptors and every node ID of
the chain is below `size`. -/
def ListRow.Valid (size nodeBytes edgeBytes : Nat) (row : ListRow) : Prop :=
  row.node.length = nodeBytes ∧ row.first.length = edgeBytes ∧
    ∀ p ∈ row.chain, p.1 < size ∧ p.2.length = edgeBytes

/-- For some node `from` the chain `from, next1, next2, ...` read from the chunk reaches
a value `>= size` before it reaches `0xFFFF`: the chunk starts with the complete rows of
the nodes below `from`, each ended by `0xFFFF`, and the row of `from` is followed by a
next pointer `v` with `size <= v` that is not `0xFFFF`. -/
def ChainOverflows (size nodeBytes edgeBytes : Nat) (s : List Byte) : Prop :=
  ∃ (rows : List ListRow) (row : ListRow) (v : Nat) (rest : List Byte),
    rows.length < size ∧ (∀ r ∈ rows, r.Valid size nodeBytes edgeBytes) ∧
    row.Valid size nodeBytes edgeBytes ∧ size ≤ v ∧ v < 0xFFFF ∧
    s = rows.flatMap (fun r => r.bytes ++ SlWriteUint16 0xFFFF)
      ++ row.bytes ++ SlWriteUint16 v ++ rest

/-! ## Sample values used to instantiate the theorems -/

/-- A version state a current game is saved under: savegame version 300 and every
tested feature at version 1. -/
def sampleVersions : SlVersions := ⟨300, fun _ => 1⟩

/-- A graph of two nodes and three edges. -/
def sampleGraph : LinkGraph :=
  ⟨3, 11, 2, [⟨100, 20, 30, 7, 5000⟩, ⟨200, 0, 65, 9, -1⟩],
    [((0, 0), ⟨0, 0, 0, 5000, -1, -1⟩), ((0, 1), ⟨120, 40, 7000, 5000, 4990, -1⟩),
      ((1, 0), ⟨80, 80, 123456789012, 4999, -1, 4000⟩)]⟩

/-- A graph of two value-initialised nodes and no edges, as `Init` leaves it. -/
def sampleEmptyGraph : LinkGraph :=
  ⟨0, 0, 0, [default, default], []⟩

/-- A graph of one value-initialised node and no edges. -/
def sampleSingleGraph : LinkGraph :=
  ⟨0, 0, 0, [default], []⟩

/-- A sparse-format chunk for a graph of one node: the node record (`xy` 100, `supply` 20,
`demand` 30, `station` 7, `last_update` 5000), one edge record with `to` = 5 (`capacity`
120, `usage` 40, `travel_time_sum` 7000, the three update dates 5000, 4990, -1), and the
sentinel `0xFFFF`. -/
def sparseChunkToFive : List Byte :=
  [0, 0, 0, 100, 0, 0, 0, 20, 0, 0, 0, 30, 0, 7, 0, 0, 19, 136,
    0, 5,
    0, 0, 0, 120, 0, 0, 0, 40, 0, 0, 0, 0, 0, 0, 27, 88, 0, 0, 19, 136, 0, 0, 19, 126,
    255, 255, 255, 255,
    255, 255]

/-- The version state of a savegame of version 190 without any extended feature: the
legacy dense format. -/
def legacyVersions : SlVersions := ⟨190, fun _ => 0⟩

/-- A dense-format chunk (savegame version 190) for a graph of one node: the node record
(`supply` 20, `demand` 30, `station` 7, `last_update` 5000), then the single cell of the
row: four bytes of the former distance, `capacity` 120, `usage` 40, the update dates 5000
and 4990, and the next pointer 5. -/
def denseChunkNextFive : List Byte :=
  [0, 0, 0, 20, 0, 0, 0, 30, 0, 7, 0, 0, 19, 136,
    0, 0, 0, 0, 0, 0, 0, 120, 0, 0, 0, 40, 0, 0, 19, 136, 0, 0, 19, 126,
    0, 5]

/-- The version state of a savegame of version 300 in which the day scale feature is
absent (version 0). -/
def noDayScaleVersions : SlVersions := ⟨300, fun _ => 0⟩

/-- Sample declarations from outside the sources: a setting table with the two 16-bit
settings `recalc_time` and one other member, zero-initialised objects, and date
constants. -/
def sampleEnv : Env where
  linkgraph_table := [SLE_VAR .recalc_time .U16, SLE_VAR (.other 0) .U16]
  node_init := default
  edge_init := default
  last_compression_init := 0
  cargo_init := 0
  index_init := 0
  settings_init := ⟨0, fun _ => 0⟩
  join_date_ticks_init := 0
  start_date_ticks_init := 0
  DAY_TICKS := 74
  SECONDS_PER_DAY := 2
  SPAWN_JOIN_TICK := 21
  SLV_LINKGRAPH_SECONDS := 308

/-- A job on a copy of `sampleGraph`. -/
def sampleJob : LinkGraphJob :=
  ⟨sampleGraph, ⟨16, fun _ => 4⟩, 740021, 739429⟩

/-- A linked-list-format chunk (savegame version 300, no extended feature) for a graph
of one node: the node record (`xy` 100, `supply` 20, `demand` 30, `station` 7,
`last_update` 5000), the edge record of `(0, 0)` (`capacity` 120, `usage` 40, update dates
5000 and 4990), and the next pointer 5. -/
def listChunkNextFive : List Byte :=
  [0, 0, 0, 100, 0, 0, 0, 20, 0, 0, 0, 30, 0, 7, 0, 0, 19, 136,
    0, 0, 0, 120, 0, 0, 0, 40, 0, 0, 19, 136, 0, 0, 19, 126,
    0, 5]

/-! ## `src/direction_func.h`

The enumerations of `direction_type.h` are values of type `Nat`: a `Direction` is
`DIR_N = 0` clockwise to `DIR_NW = 7`, a `DiagDirection` is `DIAGDIR_NE = 0` clockwise to
`DIAGDIR_NW = 3`, an `Axis` is `AXIS_X = 0` or `AXIS_Y = 1`. The arithmetic of the
functions is the one of `int` and `uint` (32 bits), the result is cast to the 8-bit
enumeration. -/

def DIR_N : Nat := 0
def DIR_NE : Nat := 1
def DIR_E : Nat := 2
def DIR_SE : Nat := 3
def DIR_S : Nat := 4
def DIR_SW : Nat := 5
def DIR_W : Nat := 6
def DIR_NW : Nat := 7
def DIR_END : Nat := 8

def DIAGDIR_BEGIN : Nat := 0
def DIAGDIR_NE : Nat := 0
def DIAGDIR_SE : Nat := 1
def DIAGDIR_SW : Nat := 2
def DIAGDIR_NW : Nat := 3
def DIAGDIR_END : Nat := 4
def INVALID_DIAGDIR : Nat := 0xFF

def AXIS_X : Nat := 0
def AXIS_Y : Nat := 1
def AXIS_END : Nat := 2

/-- The enumerator `DIRDIFF_45RIGHT` of `DirDiff`: one 45 degree step to the right. -/
def DIRDIFF_45RIGHT : Nat := 1

/-- The function `IsValidDiagDirection(d)`. -/
def IsValidDiagDirection (d : Nat) : Bool := decide (d < DIAGDIR_END)

/-- The function `IsValidDirection(d)`. -/
def IsValidDirection (d : Nat) : Bool := decide (d < DIR_END)

/-- The function `IsValidAxis(d)`. -/
def IsValidAxis (d : Nat) : Bool := decide (d < AXIS_END)

/-- The function `ChangeDir(d, delta)`: `(Direction)((uint)(d + delta) % 8)`. -/
def ChangeDir (d delta : Nat) : Nat := ((d + delta) % 2 ^ 32 % 8) % 256

/-- The function `DirToDiagDir(dir)`: `(DiagDirection)(dir >> 1)`. -/
def DirToDiagDir (dir : Nat) : Nat := (dir >>> 1) % 256

/-- The function `DiagDirToDir(dir)`: `(Direction)(dir * 2 + 1)`. -/
def DiagDirToDir (dir : Nat) : Nat := (dir * 2 + 1) % 256

/-- The function `DiagDirToAxis(d)`: `(Axis)(d & 1)`. -/
def DiagDirToAxis (d : Nat) : Nat := (d &&& 1) % 256

/-- The function `AxisToDiagDir(a)`: `(DiagDirection)(2 - a)`, an `int` subtraction. -/
def AxisToDiagDir (a : Nat) : Nat := (((2 : Int) - (a : Int)) % 256).toNat

/-- The function `AxisToDirection(a)`: `(Direction)(5 - 2 * a)`, `int` arithmetic. -/
def AxisToDirection (a : Nat) : Nat := (((5 : Int) - 2 * (a : Int)) % 256).toNat

/-- The function `XYNSToDiagDir(xy, ns)`: `(DiagDirection)(xy * 3 ^ ns * 2)`, where the
products bind tighter than the exclusive or. -/
def XYNSToDiagDir (xy ns : Nat) : Nat := (((xy * 3) % 2 ^ 32) ^^^ ((ns * 2) % 2 ^ 32)) % 256

/-- The function `IsDiagonalDirection(dir)`. -/
def IsDiagonalDirection (dir : Nat) : Bool := decide ((dir &&& 1) ≠ 0)

/-- The function `DirToDiagDirAlongAxis(dir, axis)`; `dir - axis` is an `int` subtraction
(two's complement, 32 bits) before `& 4`. -/
def DirToDiagDirAlongAxis (dir axis : Nat) : Nat :=
  if (dir &&& 3) = (3 ^^^ (axis <<< 1)) then INVALID_DIAGDIR
  else
    /- Mapping:
       X 4, 5, 6 -> 2    0, 1, 2 -> 0
       Y 2, 3, 4 -> 1    0, 6, 7 -> 3 -/
    ((((((dir : Int) - (axis : Int)) % 2 ^ 32).toNat &&& 4) >>> 1) ||| axis) % 256

/-! ## Road types (`src/road.cpp`) and rail type labels (`src/sl/labelmaps_sl.cpp`) -/

/-- The members of the struct `RoadTypeInfo` (`road.h`) the functions read: the label
(`uint32`), the alternate labels, the introduction date (`Date`, 32 bits signed), and the
two `RoadTypes` bit sets (`uint64`). -/
structure RoadTypeInfo where
  label : Nat
  alternate_labels : List Nat
  introduction_date : Int
  introduction_required_roadtypes : Nat
  introduces_roadtypes : Nat
  deriving DecidableEq, Repr, Inhabited

/-- What `road.cpp` takes from declarations outside the sources: the enumerators
`ROADTYPE_END` and `INVALID_ROADTYPE`, the constant `MAX_DAY`, and the table `_roadtypes`
behind `GetRoadTypeInfo`. -/
structure RoadTypeTable where
  ROADTYPE_END : Nat
  INVALID_ROADTYPE : Nat
  MAX_DAY : Int
  GetRoadTypeInfo : Nat → RoadTypeInfo

def ROADTYPE_BEGIN : Nat := 0

/-- Modelled from the spec: `IsInsideMM(x, min, max)` of `math_func.hpp`, whether `x` lies
in `[min, max)`. -/
def IsInsideMM (x min max : Int) : Bool := decide (min ≤ x) && decide (x < max)

/-- A loop `for (r = begin; r != end; r++) if (found(r)) return r;` with `n` rounds left:
the value returned from inside the loop, if any. -/
def firstFrom (found : Nat → Bool) : Nat → Nat → Option Nat
  | 0, _ => none
  | n + 1, r => if found r then some r else firstFrom found n (r + 1)

/-- The function `GetRoadTypeByLabel(label, allow_alternate_labels)`. -/
def GetRoadTypeByLabel (t : RoadTypeTable) (label : Nat) (allow_alternate_labels : Bool) : Nat :=
  /- Loop through each road type until the label is found -/
  match firstFrom (fun r => decide ((t.GetRoadTypeInfo r).label = label))
      (t.ROADTYPE_END - ROADTYPE_BEGIN) ROADTYPE_BEGIN with
  | some r => r
  | none =>
    if allow_alternate_labels then
      /- Test if any road type defines the label as an alternate. -/
      match firstFrom (fun r => decide (label ∈ (t.GetRoadTypeInfo r).alternate_labels))
          (t.ROADTYPE_END - ROADTYPE_BEGIN) ROADTYPE_BEGIN with
      | some r => r
      | none => t.INVALID_ROADTYPE
    else
      /- No matching label was found, so it is invalid -/
      t.INVALID_ROADTYPE

/-- The loop of `AddDateIntroducedRoadTypes` over the road types (lines 189-205) with `n`
rounds left: the set `rts` after the loop. -/
def AddDateIntroducedRoadTypes.pass (t : RoadTypeTable) (date : Int) : Nat → Nat → Nat → Nat
  | 0, _, rts => rts
  | n + 1, rt, rts =>
    let rti := t.GetRoadTypeInfo rt
    /- Unused road type. -/
    if rti.label = 0 then AddDateIntroducedRoadTypes.pass t date n (rt + 1) rts
    /- Not date introduced. -/
    else if !IsInsideMM rti.introduction_date 0 t.MAX_DAY then
      AddDateIntroducedRoadTypes.pass t date n (rt + 1) rts
    /- Not yet introduced at this date. -/
    else if rti.introduction_date > date then
      AddDateIntroducedRoadTypes.pass t date n (rt + 1) rts
    /- Have we introduced all required roadtypes? -/
    else if (rts &&& rti.introduction_required_roadtypes) ≠ rti.introduction_required_roadtypes then
      AddDateIntroducedRoadTypes.pass t date n (rt + 1) rts
    else
      AddDateIntroducedRoadTypes.pass t date n (rt + 1) (rts ||| rti.introduces_roadtypes)

/-- The recursion of `AddDateIntroducedRoadTypes` with `fuel` further calls allowed;
`none` when they are used up. -/
def AddDateIntroducedRoadTypes.run (t : RoadTypeTable) (date : Int) : Nat → Nat → Option Nat
  | fuel, current =>
    let rts := AddDateIntroducedRoadTypes.pass t date (t.ROADTYPE_END - ROADTYPE_BEGIN)
      ROADTYPE_BEGIN current
    if rts = current then some rts
    else
      match fuel with
      | 0 => none
      | fuel + 1 => AddDateIntroducedRoadTypes.run t date fuel rts

/-- The function `AddDateIntroducedRoadTypes(current, date)`. Every further call is made
on a strictly larger 64-bit set, so `2 ^ 64` further calls are never used up. -/
def AddDateIntroducedRoadTypes (t : RoadTypeTable) (current : Nat) (date : Int) : Option Nat :=
  AddDateIntroducedRoadTypes.run t date (2 ^ 64) current

/-- What `labelmaps_sl.cpp` takes from declarations outside the sources: the enumerator
`RAILTYPE_END` and the labels of the currently loaded rail types
(`GetRailTypeInfo(rt)->label`). -/
structure RailTypeTable where
  RAILTYPE_END : Nat
  label : Nat → Nat

/-- The loop of `NeedRailTypeConversion` with `n` rounds left at index `i`. `RailType` is
an 8-bit enumeration (`INVALID_RAILTYPE = 0xFF`), so `(RailType)i` is `i % 256`. -/
def NeedRailTypeConversion.loop (t : RailTypeTable) (_railtype_list : List Nat) :
    Nat → Nat → Bool
  | 0, _ => false
  | n + 1, i =>
    if i % 256 < t.RAILTYPE_END then
      if t.label (i % 256) ≠ _railtype_list.getD i 0 then true
      else NeedRailTypeConversion.loop t _railtype_list n (i + 1)
    else
      if _railtype_list.getD i 0 ≠ 0 then true
      else NeedRailTypeConversion.loop t _railtype_list n (i + 1)

/-- The function `NeedRailTypeConversion()` on the global `_railtype_list`. -/
def NeedRailTypeConversion (t : RailTypeTable) (_railtype_list : List Nat) : Bool :=
  NeedRailTypeConversion.loop t _railtype_list _railtype_list.length 0

/-- A road type table with four road types in use: road type 0 is not introduced by date,
road type 3 needs road type 0 and brings road type 3, road type 1 needs road type 3 and
brings road type 1, road type 2 needs road type 1 and brings road type 2. The label
`0x4554524D` is an alternate label of road types 1 and 2. -/
def sampleRoadTypes : RoadTypeTable where
  ROADTYPE_END := 63
  INVALID_ROADTYPE := 63
  MAX_DAY := 1000000
  GetRoadTypeInfo := fun rt =>
    match rt with
    | 0 => ⟨0x524F4144, [], -1, 0, 1⟩
    | 1 => ⟨0x454C5254, [0x4554524D], 100, 8, 2⟩
    | 2 => ⟨0x48574159, [0x4D4F544F, 0x4554524D], 200, 2, 4⟩
    | 3 => ⟨0x44495254, [], 50, 1, 8⟩
    | _ => ⟨0, [], 0, 0, 0⟩

/-- A rail type table with `RAILTYPE_END = 64` and four rail types in use, with the labels
`RAIL`, `ELRL`, `MONO` and `MGLV`. -/
def sampleRailTypes : RailTypeTable where
  RAILTYPE_END := 64
  label := fun rt =>
    match rt with
    | 0 => 0x5241494C
    | 1 => 0x454C524C
    | 2 => 0x4D4F4E4F
    | 3 => 0x4D474C56
    | _ => 0

/-- A loaded label list of 257 entries: the labels of the 64 current rail types followed by
193 zero labels. -/
def longRailTypeList : List Nat :=
  (List.range 64).map sampleRailTypes.label ++ List.replicate 193 0

/-- A job as `SlObjectLoadFiltered` leaves it when the day scale feature is absent: the
join date 10000 still in days, the recalculation time 16 and no start date. -/
def storedDaysJob : LinkGraphJob :=
  ⟨sampleGraph, ⟨16, fun _ => 4⟩, 10000, 0⟩

/-! ## Planned road bits (src/road.cpp) -/

/-- Modelled from the spec: the enumeration `TileType` of `tile_type.h`. -/
inductive TileType where
  | MP_CLEAR | MP_RAILWAY | MP_ROAD | MP_HOUSE | MP_TREES | MP_STATION | MP_WATER | MP_VOID
  | MP_INDUSTRY | MP_TUNNELBRIDGE | MP_OBJECT
  deriving DecidableEq, Repr

/-- Modelled from the spec: the enumeration `RoadTramType` of `road_type.h`. -/
inductive RoadTramType where
  | RTT_ROAD | RTT_TRAM
  deriving DecidableEq, Repr

/-- What `CleanUpRoadBits` and `IsPossibleCrossing` take from declarations outside the
sources: the map accessors, with tiles as numbers, and the enumerators
`RAIL_TILE_NORMAL`, `TRACK_BIT_X`, `TRACK_BIT_Y` and `SLOPE_FLAT`. -/
structure TileMap where
  IsValidTile : Nat → Bool
  TileAddByDiagDir : Nat → Nat → Nat
  GetTileType : Nat → TileType
  GetRailTileType : Nat → Nat
  GetTrackBits : Nat → Nat
  GetFoundationSlope : Nat → Nat
  IsNormalRoadTile : Nat → Bool
  GetAnyRoadBits : Nat → RoadTramType → Nat
  IsWater : Nat → Bool
  RAIL_TILE_NORMAL : Nat
  TRACK_BIT_X : Nat
  TRACK_BIT_Y : Nat
  SLOPE_FLAT : Nat

def ROAD_NONE : Nat := 0
def ROAD_NW : Nat := 1
def ROAD_SW : Nat := 2
def ROAD_SE : Nat := 4
def ROAD_NE : Nat := 8

/-- Modelled from the spec: `DiagDirToRoadBits(d)` of `road_func.h`,
`(RoadBits)(ROAD_NW << (3 ^ d))`. -/
def DiagDirToRoadBits (d : Nat) : Nat := (ROAD_NW <<< (3 ^^^ d)) % 256

/-- Modelled from the spec: `MirrorRoadBits(r)` of `road_func.h`,
`(RoadBits)(GB(r, 0, 2) << 2 | GB(r, 2, 2))`. -/
def MirrorRoadBits (r : Nat) : Nat := (((r % 4) <<< 2) ||| ((r >>> 2) % 4)) % 256

/-- The function `IsPossibleCrossing(tile, ax)`. -/
def IsPossibleCrossing (m : TileMap) (tile ax : Nat) : Bool :=
  decide (m.GetTileType tile = .MP_RAILWAY) &&
    decide (m.GetRailTileType tile = m.RAIL_TILE_NORMAL) &&
    decide (m.GetTrackBits tile = (if ax = AXIS_X then m.TRACK_BIT_Y else m.TRACK_BIT_X)) &&
    decide (m.GetFoundationSlope tile = m.SLOPE_FLAT)

/-- What one pass from the label `test_tile` to the end of the `switch` ends in: the
value of `connective`, or the jump `goto test_tile` with a new `neighbor_tile`. -/
inductive TestTile where
  | done (connective : Bool)
  | again (neighbor_tile : Nat)
  deriving DecidableEq, Repr

/-- One pass of `CleanUpRoadBits` from the label `test_tile` to the end of the `switch`
(lines 87-125); `connective` is false when the pass starts. -/
def CleanUpRoadBits.pass (m : TileMap) (dir mirrored_rb neighbor_tile : Nat) : TestTile :=
  if m.IsValidTile neighbor_tile then
    match m.GetTileType neighbor_tile with
    /- Always connective ones -/
    | .MP_CLEAR | .MP_TREES => .done true
    /- The conditionally connective ones -/
    | .MP_TUNNELBRIDGE | .MP_STATION | .MP_ROAD =>
      if m.IsNormalRoadTile neighbor_tile then
        /- Always connective -/
        .done true
      else
        let neighbor_rb :=
          m.GetAnyRoadBits neighbor_tile .RTT_ROAD ||| m.GetAnyRoadBits neighbor_tile .RTT_TRAM
        /- Accept only connective tiles -/
        .done (decide (neighbor_rb &&& mirrored_rb ≠ ROAD_NONE))
    | .MP_RAILWAY =>
      if IsPossibleCrossing m neighbor_tile (DiagDirToAxis dir) then
        /- Check far side of crossing -/
        .again (m.TileAddByDiagDir neighbor_tile dir)
      else .done false
    | .MP_WATER =>
      /- Check for real water tile -/
      .done (!m.IsWater neighbor_tile)
    /- The definitely not connective ones -/
    | _ => .done false
  else .done false

/-- The passes of `CleanUpRoadBits` from the label `test_tile` on, with `fuel` jumps back
to the label allowed: the value of `connective` after the `switch`, `none` when the jumps
are used up. -/
def CleanUpRoadBits.test_tile (m : TileMap) (dir mirrored_rb : Nat) : Nat → Nat → Option Bool
  | 0, neighbor_tile =>
    match CleanUpRoadBits.pass m dir mirrored_rb neighbor_tile with
    | .done connective => some connective
    | .again _ => none
  | fuel + 1, neighbor_tile =>
    match CleanUpRoadBits.pass m dir mirrored_rb neighbor_tile with
    | .done connective => some connective
    | .again neighbor_tile => CleanUpRoadBits.test_tile m dir mirrored_rb fuel neighbor_tile

/-- The loop of `CleanUpRoadBits` over the directions with `n` rounds left at direction
`dir`: the planned bits `org_rb` after it. -/
def CleanUpRoadBits.loop (m : TileMap) (fuel tile : Nat) : Nat → Nat → Nat → Option Nat
  | 0, _, org_rb => some org_rb
  | n + 1, dir, org_rb =>
    let neighbor_tile := m.TileAddByDiagDir tile dir
    /- Get the Roadbit pointing to the neighbor_tile -/
    let target_rb := DiagDirToRoadBits dir
    /- If the roadbit is in the current plan -/
    if org_rb &&& target_rb ≠ 0 then
      let mirrored_rb := MirrorRoadBits target_rb
      match CleanUpRoadBits.test_tile m dir mirrored_rb fuel neighbor_tile with
      | none => none
      | some connective =>
        /- If the neighbor tile is inconnective, remove the planned road connection to it -/
        CleanUpRoadBits.loop m fuel tile n (dir + 1)
          (if !connective then org_rb ^^^ target_rb else org_rb)
    else CleanUpRoadBits.loop m fuel tile n (dir + 1) org_rb

/-- The function `CleanUpRoadBits(tile, org_rb)` with `fuel` jumps to `test_tile` allowed
for each direction. -/
def CleanUpRoadBits (m : TileMap) (fuel tile org_rb : Nat) : Option Nat :=
  if !m.IsValidTile tile then some ROAD_NONE
  else CleanUpRoadBits.loop m fuel tile (DIAGDIR_END - DIAGDIR_BEGIN) DIAGDIR_BEGIN org_rb

/-- The tile `n` steps in direction `dir` from `t`. -/
def tileAhead (m : TileMap) (dir : Nat) : Nat → Nat → Nat
  | 0, t => t
  | n + 1, t => tileAhead m dir n (m.TileAddByDiagDir t dir)

/-- The run of possible level crossings in direction `dir` that starts at tile `t` has
exactly `n` tiles: the first `n` tiles from `t` on are valid tiles with a possible
crossing for the axis of `dir`, the next one is not. -/
def IsCrossingRun (m : TileMap) (dir t n : Nat) : Prop :=
  (∀ j, j < n → m.IsValidTile (tileAhead m dir j t) = true ∧
      IsPossibleCrossing m (tileAhead m dir j t) (DiagDirToAxis dir) = true) ∧
    ¬ (m.IsValidTile (tileAhead m dir n t) = true ∧
      IsPossibleCrossing m (tileAhead m dir n t) (DiagDirToAxis dir) = true)

instance (m : TileMap) (dir t n : Nat) : Decidable (IsCrossingRun m dir t n) := by
  unfold IsCrossingRun; exact inferInstance

/-- Whether a road piece entering tile `t` in direction `dir` finds a connection there:
`t` is a valid tile that is clear land or trees, or a road, station or tunnel/bridge tile
that is a normal road tile or has a road or tram piece towards the side it is entered
from, or a water tile without water. -/
def IsConnectiveTile (m : TileMap) (dir t : Nat) : Bool :=
  m.IsValidTile t &&
    (decide (m.GetTileType t = .MP_CLEAR) || decide (m.GetTileType t = .MP_TREES) ||
      ((decide (m.GetTileType t = .MP_TUNNELBRIDGE) || decide (m.GetTileType t = .MP_STATION) ||
          decide (m.GetTileType t = .MP_ROAD)) &&
        (m.IsNormalRoadTile t ||
          decide ((m.GetAnyRoadBits t .RTT_ROAD ||| m.GetAnyRoadBits t .RTT_TRAM) &&&
            MirrorRoadBits (DiagDirToRoadBits dir) ≠ ROAD_NONE))) ||
      (decide (m.GetTileType t = .MP_WATER) && !m.IsWater t))

/-- A map of 16 by 16 tiles around tile 100: towards the north-east a level crossing
candidate (tile 99) with a normal road tile behind it (tile 98), towards the south-east
a water tile (tile 116), towards the south-west a house (tile 101), clear land
elsewhere. -/
def sampleMap : TileMap where
  IsValidTile := fun t => decide (t < 256)
  TileAddByDiagDir := fun t dir =>
    match dir with
    | 0 => t - 1
    | 1 => t + 16
    | 2 => t + 1
    | _ => t - 16
  GetTileType := fun t =>
    match t with
    | 99 => .MP_RAILWAY
    | 98 => .MP_ROAD
    | 116 => .MP_WATER
    | 101 => .MP_HOUSE
    | _ => .MP_CLEAR
  GetRailTileType := fun _ => 0
  GetTrackBits := fun _ => 2
  GetFoundationSlope := fun _ => 0
  IsNormalRoadTile := fun t => decide (t = 98)
  GetAnyRoadBits := fun _ _ => 0
  IsWater := fun t => decide (t = 116)
  RAIL_TILE_NORMAL := 0
  TRACK_BIT_X := 1
  TRACK_BIT_Y := 2
  SLOPE_FLAT := 0

/-- The length of the run of possible crossings next to tile 100 of `sampleMap` in each
direction. -/
def sampleRunLength (dir : Nat) : Nat := if dir = 0 then 1 else 0

/-- A version state with savegame version 300 in which the travel time feature is absent
(version 0) and every other tested feature is at version 1. -/
def noTravelTimeVersions : SlVersions :=
  ⟨300, fun f => if f = .XSLFI_LINKGRAPH_TRAVEL_TIME then 0 else 1⟩

/-! ## What a reader finds of a saved record -/

/-- The value a variable of memory type `mem` holds after `x` was written in the file type
`file` and read back. -/
def VarType.reread (file mem : VarType) (x : Int) : Int :=
  mem.wrap (file.decode ((x % 2 ^ (8 * file.size)).toNat % 256 ^ file.size))

/-- The object `dst` after each variable of the descriptor, in the order of the
descriptor, was given the value that was written of it from `src`. -/
def SlObjectReread {α F : Type} (acc : SlAccess α F) (src : α) : α → List (SaveLoad F) → α
  | dst, [] => dst
  | dst, sld :: slt =>
    match sld.address with
    | none => SlObjectReread acc src dst slt
    | some f =>
      SlObjectReread acc src (acc.set dst f (VarType.reread sld.file sld.mem (acc.get src f))) slt

/-- The file type of the schedule timestamps of a job under the version state `v`: 32
bits up to version 4 of the day scale feature, 64 bits from version 5 on. -/
def jobTicksFile (v : SlVersions) : VarType :=
  if v.xv .XSLFI_LINKGRAPH_DAY_SCALE ≤ 4 then .I32 else .I64

/-- The file type of `last_compression` under the version state `v`: 32 bits up to
version 3 of the day scale feature, 64 bits from version 4 on. -/
def lastCompressionFile (v : SlVersions) : VarType :=
  if v.xv .XSLFI_LINKGRAPH_DAY_SCALE ≤ 3 then .I32 else .I64

/-- The record of the job's own variables as the specification words it: the settings
copy (the record of the link graph setting table), the join tick, the start tick when
the day scale feature is present, and the 16-bit index of the link graph. -/
def jobRecordBytes (v : SlVersions) (env : Env) (lgj : LinkGraphJob) : List Byte :=
  SlObjectSaveFiltered LinkGraphSettings.access lgj.settings
      (SlFilterObject v env.linkgraph_table)
    ++ SlWriteBytes (jobTicksFile v).size
        (lgj.join_date_ticks % 2 ^ (8 * (jobTicksFile v).size)).toNat
    ++ (if v.xv .XSLFI_LINKGRAPH_DAY_SCALE = 0 then []
        else SlWriteBytes (jobTicksFile v).size
          (lgj.start_date_ticks % 2 ^ (8 * (jobTicksFile v).size)).toNat)
    ++ SlWriteBytes 2 (lgj.link_graph.index % 2 ^ 16).toNat

/-- The job a reader holds after the record of the job's own variables, written of
`lgj`, was read into a newly constructed job: the variables of the record have the
values written of `lgj`, the start tick of a record without one and the graph apart from
its index are as constructed. -/
def jobRecordRead (v : SlVersions) (env : Env) (lgj : LinkGraphJob) : LinkGraphJob where
  link_graph :=
    { env.newLinkGraph env.index_init with
      index := VarType.reread .U16 .U16 lgj.link_graph.index }
  settings :=
    SlObjectReread LinkGraphSettings.access lgj.settings env.settings_init
      (SlFilterObject v env.linkgraph_table)
  join_date_ticks := VarType.reread (jobTicksFile v) .I64 lgj.join_date_ticks
  start_date_ticks :=
    if v.xv .XSLFI_LINKGRAPH_DAY_SCALE = 0 then env.start_date_ticks_init
    else VarType.reread (jobTicksFile v) .I64 lgj.start_date_ticks

/-- The job after the conversion `Load_LGRJ` applies to a job read from a savegame without
the day scale feature. -/
def jobAfterDayLengthScale (v : SlVersions) (env : Env) (lgj : LinkGraphJob) : LinkGraphJob :=
  if SlXvIsFeatureMissing v .XSLFI_LINKGRAPH_DAY_SCALE 1 then
    GetLinkGraphJobDayLengthScaleAfterLoad v env lgj
  else lgj

/-- The graph with pool index `index` a reader holds after the header written of `lg` was
read and the graph was initialised with the node count of the header: `last_compression`
and `cargo` as written, as many value-initialised nodes as `lg` has, no edges. -/
def graphAfterHeader (v : SlVersions) (env : Env) (lg : LinkGraph) (index : Int) : LinkGraph :=
  ⟨index, VarType.reread (lastCompressionFile v) .I64 lg.last_compression,
    VarType.reread .U8 .U8 lg.cargo, List.replicate lg.Size env.node_init, []⟩

/-- What the part of a round of `Load_LGRP` or `Load_LGRJ` after the header makes of the
result of `Load_LinkGraph`: the graph goes to its place in `wrap`, the global `_num_nodes`
has the value `size` read from the header. -/
def afterLoad_LinkGraph {σ : Type} (wrap : LinkGraph → Int → σ) (size : Nat) :
    SlResult LinkGraph → SlResult σ
  | .ok lg r => .ok (wrap lg size) r
  | .abort why lg => .abort why (wrap lg size)

/-- The unread rest of the chunk after a loading routine that ended; `none` after an
abort. -/
def SlResult.rest {α : Type} : SlResult α → Option (List Byte)
  | .ok _ r => some r
  | .abort _ _ => none

/-- The header variables of a graph hold values of their file types under `v`, and its
pool index is a 16-bit value. -/
def LinkGraph.HeaderWF (v : SlVersions) (lg : LinkGraph) : Prop :=
  (lastCompressionFile v).inRange lg.last_compression ∧ VarType.U8.inRange lg.cargo ∧
    VarType.U16.inRange lg.index

instance (v : SlVersions) (lg : LinkGraph) : Decidable (lg.HeaderWF v) := by
  unfold LinkGraph.HeaderWF; exact inferInstance

/-! # Theorems -/

/-! ## Bit mathematics -/

theorem and_shifted_mask (x a b : Nat) :
    x &&& ((2 ^ a - 1) <<< b) = ((x >>> b) % 2 ^ a) <<< b := by
  apply Nat.eq_of_testBit_eq
  intro i
  simp only [Nat.testBit_and, Nat.testBit_shiftLeft, Nat.testBit_mod_two_pow,
    Nat.testBit_shiftRight, Nat.testBit_two_pow_sub_one]
  by_cases h : b ≤ i
  · have : b + (i - b) = i := by omega
    simp [h, this, Bool.and_comm]
  · simp [h]

theorem and_shifted_mask_eq_zero (x a b : Nat) :
    x &&& ((2 ^ a - 1) <<< b) = 0 ↔ (x / 2 ^ b) % 2 ^ a = 0 := by
  rw [and_shifted_mask, Nat.shiftLeft_eq, Nat.shiftRight_eq_div_pow]
  have : 0 < 2 ^ b := Nat.pos_pow_of_pos _ (by decide)
  constructor
  · intro h0
    rcases Nat.mul_eq_zero.mp h0 with h1 | h1
    · exact h1
    · omega
  · intro h; simp [h]

theorem mask_hi32 (x : Nat) : x &&& 0xffffffff00000000 = 0 ↔ (x / 2 ^ 32) % 2 ^ 32 = 0 :=
  and_shifted_mask_eq_zero x 32 32

theorem mask_hi16 (x : Nat) : x &&& 0x00000000ffff0000 = 0 ↔ (x / 2 ^ 16) % 2 ^ 16 = 0 :=
  and_shifted_mask_eq_zero x 16 16

theorem mask_hi8 (x : Nat) : x &&& 0x000000000000ff00 = 0 ↔ (x / 2 ^ 8) % 2 ^ 8 = 0 :=
  and_shifted_mask_eq_zero x 8 8

theorem mask_hi4 (x : Nat) : x &&& 0x00000000000000f0 = 0 ↔ (x / 2 ^ 4) % 2 ^ 4 = 0 :=
  and_shifted_mask_eq_zero x 4 4

theorem mask_hi2 (x : Nat) : x &&& 0x000000000000000c = 0 ↔ (x / 2 ^ 2) % 2 ^ 2 = 0 :=
  and_shifted_mask_eq_zero x 2 2

theorem mask_hi1 (x : Nat) : x &&& 0x0000000000000002 = 0 ↔ (x / 2 ^ 1) % 2 ^ 1 = 0 :=
  and_shifted_mask_eq_zero x 1 1

theorem mask_lo32 (x : Nat) : x &&& 0x00000000ffffffff = x % 2 ^ 32 :=
  Nat.and_pow_two_sub_one_eq_mod x 32

theorem mask_lo16 (x : Nat) : x &&& 0x0000ffff = x % 2 ^ 16 :=
  Nat.and_pow_two_sub_one_eq_mod x 16

theorem mask_lo8 (x : Nat) : x &&& 0x000000ff = x % 2 ^ 8 :=
  Nat.and_pow_two_sub_one_eq_mod x 8

theorem mask_lo4 (x : Nat) : x &&& 0x0000000f = x % 2 ^ 4 :=
  Nat.and_pow_two_sub_one_eq_mod x 4

theorem mask_lo2 (x : Nat) : x &&& 0x00000003 = x % 2 ^ 2 :=
  Nat.and_pow_two_sub_one_eq_mod x 2

theorem mask_lo1 (x : Nat) : x &&& 0x00000001 = x % 2 ^ 1 :=
  Nat.and_pow_two_sub_one_eq_mod x 1

set_option maxHeartbeats 1000000 in
theorem FindLastBit64_msb (x : Nat) (hx : x < 2 ^ 64) (h0 : x ≠ 0) :
    2 ^ FindLastBit64 x ≤ x ∧ x < 2 ^ (FindLastBit64 x + 1) ∧ FindLastBit64 x ≤ 63 := by
  unfold FindLastBit64
  rw [if_neg h0]
  simp only [ne_eq, mask_hi32, mask_hi16, mask_hi8, mask_hi4, mask_hi2, mask_hi1,
    Nat.shiftRight_eq_div_pow, Nat.reducePow]
  by_cases h1 : x / 4294967296 % 4294967296 = 0 <;>
    simp only [h1, not_true_eq_false, not_false_eq_true, if_true, if_false]
  all_goals repeat' split
  all_goals (simp only [Nat.reduceAdd, Nat.reduceMod, Nat.reducePow, Nat.zero_add] at *; omega)

theorem FindFirstBit32_lsb (x : Nat) (hx : x < 2 ^ 32) (h0 : x ≠ 0) :
    FindFirstBit32 x ≤ 31 ∧ 2 ^ FindFirstBit32 x ∣ x ∧ ¬ 2 ^ (FindFirstBit32 x + 1) ∣ x := by
  unfold FindFirstBit32
  rw [if_neg h0]
  simp only [mask_lo16, mask_lo8, mask_lo4, mask_lo2, mask_lo1,
    Nat.shiftRight_eq_div_pow, Nat.reducePow]
  by_cases h1 : x % 65536 = 0 <;> simp only [h1, if_true, if_false]
  all_goals repeat' split
  all_goals (simp only [Nat.reduceAdd, Nat.reduceMod, Nat.reducePow, Nat.zero_add] at *; omega)

theorem FindFirstBit64_lsb (x : Nat) (hx : x < 2 ^ 64) (h0 : x ≠ 0) :
    2 ^ FindFirstBit64 x ∣ x ∧ ¬ 2 ^ (FindFirstBit64 x + 1) ∣ x := by
  unfold FindFirstBit64
  rw [if_neg h0, mask_lo32, Nat.shiftRight_eq_div_pow]
  by_cases hlo : x % 2 ^ 32 = 0
  · rw [if_neg (by simpa using hlo)]
    have hhi : x / 2 ^ 32 < 2 ^ 32 := by omega
    have hne : x / 2 ^ 32 ≠ 0 := by omega
    rw [Nat.mod_eq_of_lt hhi]
    obtain ⟨hr, hd, hnd⟩ := FindFirstBit32_lsb (x / 2 ^ 32) hhi hne
    have hx' : x = 2 ^ 32 * (x / 2 ^ 32) := by omega
    generalize FindFirstBit32 (x / 2 ^ 32) = r at hr hd hnd
    generalize x / 2 ^ 32 = y at hd hnd hx'
    subst hx'
    have hr' : (r + 32) % 256 = r + 32 := by omega
    rw [hr']
    constructor
    · rw [pow_add, mul_comm]; exact Nat.mul_dvd_mul_left _ hd
    · intro h
      apply hnd
      have : 2 ^ (r + 32 + 1) = 2 ^ 32 * 2 ^ (r + 1) := by ring
      rw [this] at h
      exact (Nat.mul_dvd_mul_iff_left (by positivity)).mp h
  · rw [if_pos hlo]
    obtain ⟨hr, hd, hnd⟩ := FindFirstBit32_lsb (x % 2 ^ 32) (Nat.mod_lt _ (by positivity)) hlo
    generalize FindFirstBit32 (x % 2 ^ 32) = r at hr hd hnd
    have h1 : 2 ^ r ∣ 2 ^ 32 := pow_dvd_pow 2 (by omega)
    have h2 : 2 ^ (r + 1) ∣ 2 ^ 32 := pow_dvd_pow 2 (by omega)
    exact ⟨(Nat.dvd_mod_iff h1).mp hd, fun h => hnd ((Nat.dvd_mod_iff h2).mpr h)⟩

/-- C9: for every 64-bit `x` other than 0, `FindLastBit64 x` is the position `r` of the
most significant set bit, `2 ^ r ≤ x < 2 ^ (r + 1)` with `r ≤ 63`; and
`FindLastBit64 0 = 0`. -/
theorem C9_FindLastBit64 (x : Nat) (hx : x < 2 ^ 64) (h0 : x ≠ 0) :
    (2 ^ FindLastBit64 x ≤ x ∧ x < 2 ^ (FindLastBit64 x + 1) ∧ 0 ≤ FindLastBit64 x ∧
      FindLastBit64 x ≤ 63) ∧ FindLastBit64 0 = 0 := by
  obtain ⟨h1, h2, h3⟩ := FindLastBit64_msb x hx h0
  exact ⟨⟨h1, h2, Nat.zero_le _, h3⟩, by decide⟩

theorem C9_FindLastBit64_witness :
    (2 ^ FindLastBit64 0x8000000000000001 ≤ 0x8000000000000001 ∧
      0x8000000000000001 < 2 ^ (FindLastBit64 0x8000000000000001 + 1) ∧
      0 ≤ FindLastBit64 0x8000000000000001 ∧ FindLastBit64 0x8000000000000001 ≤ 63) ∧
    FindLastBit64 0 = 0 :=
  C9_FindLastBit64 0x8000000000000001 (by decide) (by decide)

/-- C10: for every non-zero 64-bit `x`, `FindFirstBit64 x` is the index `r` of the least
significant set bit (`2 ^ r` divides `x` and `2 ^ (r + 1)` does not); `FindFirstBit32`
gives the same for every non-zero 32-bit `y`; both return 0 for 0. -/
theorem C10_FindFirstBit (x y : Nat) (hx : x < 2 ^ 64) (hx0 : x ≠ 0) (hy : y < 2 ^ 32)
    (hy0 : y ≠ 0) :
    (2 ^ FindFirstBit64 x ∣ x ∧ ¬ 2 ^ (FindFirstBit64 x + 1) ∣ x) ∧
    (2 ^ FindFirstBit32 y ∣ y ∧ ¬ 2 ^ (FindFirstBit32 y + 1) ∣ y) ∧
    FindFirstBit64 0 = 0 ∧ FindFirstBit32 0 = 0 :=
  ⟨FindFirstBit64_lsb x hx hx0, (FindFirstBit32_lsb y hy hy0).2, by decide, by decide⟩

theorem C10_FindFirstBit_witness :
    (2 ^ FindFirstBit64 0x300000000000 ∣ 0x300000000000 ∧
      ¬ 2 ^ (FindFirstBit64 0x300000000000 + 1) ∣ 0x300000000000) ∧
    (2 ^ FindFirstBit32 40 ∣ 40 ∧ ¬ 2 ^ (FindFirstBit32 40 + 1) ∣ 40) ∧
    FindFirstBit64 0 = 0 ∧ FindFirstBit32 0 = 0 :=
  C10_FindFirstBit 0x300000000000 40 (by decide) (by decide) (by decide) (by decide)

/-! ## The byte stream -/

theorem SlReadBytes_SlWriteBytes (w v : Nat) (r : List Byte) :
    SlReadBytes w (SlWriteBytes w v ++ r) = some (v % 256 ^ w, r) := by
  induction w with
  | zero => simp [SlReadBytes, SlWriteBytes, Nat.mod_one]
  | succ w ih =>
    rw [SlWriteBytes, List.cons_append, SlReadBytes, ih]
    simp only [Option.some.injEq, Prod.mk.injEq, and_true]
    rw [Nat.mod_pow_succ]
    ring

theorem SlReadBytes_of_le (w : Nat) (s : List Byte) (h : w ≤ s.length) :
    ∃ n, SlReadBytes w s = some (n, s.drop w) := by
  induction w generalizing s with
  | zero => exact ⟨0, by simp [SlReadBytes]⟩
  | succ w ih =>
    cases s with
    | nil => simp at h
    | cons b s =>
      obtain ⟨n, hn⟩ := ih s (by simpa using h)
      exact ⟨b.val * 256 ^ w + n, by simp [SlReadBytes, hn]⟩

theorem SlReadBytes_of_lt (w : Nat) (s : List Byte) (h : s.length < w) :
    SlReadBytes w s = none := by
  induction w generalizing s with
  | zero => simp at h
  | succ w ih =>
    cases s with
    | nil => simp [SlReadBytes]
    | cons b s => simp [SlReadBytes, ih s (by simpa using h)]

theorem SlReadBytes_lt (w : Nat) (s r : List Byte) (n : Nat)
    (h : SlReadBytes w s = some (n, r)) : n < 256 ^ w ∧ s.length = r.length + w := by
  induction w generalizing s n with
  | zero =>
    simp only [SlReadBytes, Option.some.injEq, Prod.mk.injEq] at h
    obtain ⟨h1, h2⟩ := h
    subst h1 h2
    simp
  | succ w ih =>
    cases s with
    | nil => simp [SlReadBytes] at h
    | cons b s =>
      simp only [SlReadBytes] at h
      cases hr : SlReadBytes w s with
      | none => simp [hr] at h
      | some p =>
        obtain ⟨m, r'⟩ := p
        simp only [hr, Option.some.injEq, Prod.mk.injEq] at h
        obtain ⟨h1, h2⟩ := h
        subst h1 h2
        obtain ⟨hm, hl⟩ := ih s m hr
        have hb := b.isLt
        refine ⟨?_, by simp [hl]; omega⟩
        rw [pow_succ]
        nlinarith

theorem SlReadUint16_SlWriteUint16 (v : Nat) (r : List Byte) (h : v < 65536) :
    SlReadUint16 (SlWriteUint16 v ++ r) = some (v, r) := by
  unfold SlReadUint16 SlWriteUint16
  rw [SlReadBytes_SlWriteBytes]
  simp [Nat.mod_eq_of_lt h]

theorem VarType.wrap_decode_encode (t : VarType) (v : Int) (h : t.inRange v) :
    t.wrap (t.decode ((v % 2 ^ (8 * t.size)).toNat % 256 ^ t.size)) = v := by
  cases t <;>
    simp only [VarType.inRange, VarType.signed, VarType.size, VarType.wrap, VarType.decode,
      Bool.false_eq_true, if_false, if_true, Bool.true_and, Bool.false_and, decide_eq_true_eq,
      Nat.reduceMul, Nat.reduceSub, Nat.reducePow, Int.reducePow, Int.reduceNeg] at h ⊢ <;>
    (try split_ifs) <;> omega

/-! ## Records and descriptors -/

theorem SlFilterObject_node_desc (v : SlVersions) (hv : v.savesAllMembers) :
    SlFilterObject v _node_desc = _node_desc := by
  obtain ⟨h1, h2, -, -, -⟩ := hv
  simp only [SLV_191, SL_MAX_VERSION] at h1 h2
  have h3 : 0 ≤ v.sl_version := Nat.zero_le _
  simp [SlFilterObject, _node_desc, SLE_CONDVAR, SLE_VAR, SLE_CONDVAR_X, SlIsObjectValidInSavegame,
    SlXvFeatureTest.IsFeaturePresent, SlXvFeatureTest.none, List.filter, SLV_191, SL_MAX_VERSION,
    SL_MIN_VERSION, h1, h2]

theorem SlFilterObject_edge_desc (v : SlVersions) (hv : v.savesAllMembers) :
    SlFilterObject v _edge_desc = _edge_desc.tail := by
  obtain ⟨h1, h2, h3, h4, -⟩ := hv
  simp only [SLV_191, SL_MAX_VERSION] at h1 h2
  have h5 : ¬ v.sl_version < 191 := by omega
  have h6 : 187 ≤ v.sl_version := by omega
  simp [SlFilterObject, _edge_desc, SLE_CONDVAR, SLE_VAR, SLE_CONDVAR_X, SLE_CONDNULL,
    SlIsObjectValidInSavegame,
    SlXvFeatureTest.IsFeaturePresent, SlXvFeatureTest.none, List.filter, SLV_191, SLV_187,
    SL_MAX_VERSION, SL_MIN_VERSION, h2, h3, h4, h5, h6]

theorem node_roundtrip (n n0 : Node) (h : n.WF) (r : List Byte) :
    SlObjectLoadFiltered Node.access n0 _node_desc
      (SlObjectSaveFiltered Node.access n _node_desc ++ r) = .ok n r := by
  obtain ⟨h1, h2, h3, h4, h5⟩ := h
  have e1 := VarType.wrap_decode_encode _ _ h1
  have e2 := VarType.wrap_decode_encode _ _ h2
  have e3 := VarType.wrap_decode_encode _ _ h3
  have e4 := VarType.wrap_decode_encode _ _ h4
  have e5 := VarType.wrap_decode_encode _ _ h5
  simp only [_node_desc, SLE_CONDVAR, SLE_VAR, SLE_CONDVAR_X, SlObjectLoadFiltered,
    SlObjectSaveFiltered, List.append_assoc, SlReadBytes_SlWriteBytes, Node.access, List.append_nil,
    e1, e2, e3, e4, e5]

theorem edge_roundtrip (e e0 : Edge) (h : e.WF) (r : List Byte) :
    SlObjectLoadFiltered Edge.access e0 _edge_desc.tail
      (SlObjectSaveFiltered Edge.access e _edge_desc.tail ++ r) = .ok e r := by
  obtain ⟨h1, h2, h3, h4, h5, h6⟩ := h
  have e1 := VarType.wrap_decode_encode _ _ h1
  have e2 := VarType.wrap_decode_encode _ _ h2
  have e3 := VarType.wrap_decode_encode _ _ h3
  have e4 := VarType.wrap_decode_encode _ _ h4
  have e5 := VarType.wrap_decode_encode _ _ h5
  have e6 := VarType.wrap_decode_encode _ _ h6
  simp only [_edge_desc, List.tail, SLE_CONDVAR, SLE_VAR, SLE_CONDVAR_X, SlObjectLoadFiltered,
    SlObjectSaveFiltered, List.append_assoc, SlReadBytes_SlWriteBytes, Edge.access, List.append_nil,
    e1, e2, e3, e4, e5, e6]

/-! ## The edge map and the layout written by `Save_LinkGraph` -/

theorem EdgeKey.lt_iff (a b : EdgeKey) :
    EdgeKey.lt a b = true ↔ a.1 < b.1 ∨ (a.1 = b.1 ∧ a.2 < b.2) := by
  simp [EdgeKey.lt]

theorem EdgeKey.lt_fst_le {a b : EdgeKey} (h : EdgeKey.lt a b = true) : a.1 ≤ b.1 := by
  rw [EdgeKey.lt_iff] at h
  omega

theorem EdgeMap.Ordered.fst_le {m : EdgeMap} (h : m.Ordered) :
    m.Pairwise (fun a b => a.1.1 ≤ b.1.1) :=
  List.Pairwise.imp (fun hab => EdgeKey.lt_fst_le hab) h

theorem EdgeMap.assign_append (m : EdgeMap) (k : EdgeKey) (e : Edge)
    (h : ∀ ke ∈ m, EdgeKey.lt ke.1 k = true) : m.assign k e = m ++ [(k, e)] := by
  induction m with
  | nil => rfl
  | cons x m ih =>
    obtain ⟨k', e'⟩ := x
    have hx : EdgeKey.lt k' k = true := h (k', e') (List.mem_cons_self _ _)
    have h1 : EdgeKey.lt k k' = false := by
      rw [EdgeKey.lt_iff] at hx
      rw [← Bool.not_eq_true, EdgeKey.lt_iff]
      omega
    have h2 : k ≠ k' := by
      rintro rfl
      rw [EdgeKey.lt_iff] at hx
      omega
    simp only [EdgeMap.assign, h1, Bool.false_eq_true, if_false, h2, List.cons_append]
    rw [ih (fun ke hke => h ke (List.mem_cons_of_mem _ hke))]

theorem Save_LinkGraph.edgeLoop_spec (ed : List (SaveLoad EdgeField)) (from_ : Nat)
    (it : EdgeMap) (hs : it.Pairwise (fun a b => a.1.1 ≤ b.1.1))
    (hge : ∀ ke ∈ it, from_ ≤ ke.1.1) :
    (Save_LinkGraph.edgeLoop ed from_ it).1 =
        (EdgeMap.row it from_).flatMap
          (fun te => SlWriteUint16 te.1 ++ SlObjectSaveFiltered Edge.access te.2 ed) ∧
      (Save_LinkGraph.edgeLoop ed from_ it).2 = it.filter (fun ke => decide (from_ < ke.1.1)) := by
  induction it with
  | nil => simp [Save_LinkGraph.edgeLoop, EdgeMap.row]
  | cons x it ih =>
    obtain ⟨k, e⟩ := x
    obtain ⟨hx, hs'⟩ := List.pairwise_cons.mp hs
    have hk := hge (k, e) (List.mem_cons_self _ _)
    simp only at hk
    by_cases hkf : k.1 = from_
    · obtain ⟨ih1, ih2⟩ := ih hs' (fun ke hke => hge ke (List.mem_cons_of_mem _ hke))
      have hn : ¬ from_ < k.1 := by omega
      simp [Save_LinkGraph.edgeLoop, EdgeMap.row, hkf, ih1, ih2, List.filter_cons] at *
    · have hlt : from_ < k.1 := by omega
      have hall : ∀ ke ∈ it, from_ < ke.1.1 := fun ke hke => by
        have := hx ke hke
        simp only at this
        omega
      have hf1 : it.filter (fun ke => decide (ke.1.1 = from_)) = [] := by
        rw [List.filter_eq_nil_iff]
        intro ke hke
        have := hall ke hke
        simp; omega
      have hf2 : it.filter (fun ke => decide (from_ < ke.1.1)) = it := by
        rw [List.filter_eq_self]
        intro ke hke
        simpa using hall ke hke
      simp [Save_LinkGraph.edgeLoop, EdgeMap.row, hkf, List.filter_cons, hlt, hf1, hf2]

theorem EdgeMap.row_filter_gt (it : EdgeMap) (from_ f : Nat) (h : from_ < f) :
    EdgeMap.row (it.filter (fun ke => decide (from_ < ke.1.1))) f = EdgeMap.row it f := by
  unfold EdgeMap.row
  rw [List.filter_filter]
  congr 1
  apply List.filter_congr
  intro ke _
  by_cases hk : ke.1.1 = f
  · simp [hk, h]
  · simp [hk]

theorem Save_LinkGraph.nodeLoop_layout (nd : List (SaveLoad NodeField))
    (ed : List (SaveLoad EdgeField)) (nodes : List Node) (n : Nat) (from_ : Nat)
    (it : EdgeMap) (hs : it.Pairwise (fun a b => a.1.1 ≤ b.1.1))
    (hge : ∀ ke ∈ it, from_ ≤ ke.1.1) :
    Save_LinkGraph.nodeLoop nd ed nodes n from_ it =
      (List.range' from_ n).flatMap (fun f =>
        sparseRowBytes nd ed (nodes.getD f default) (EdgeMap.row it f)) := by
  induction n generalizing from_ it with
  | zero => simp [Save_LinkGraph.nodeLoop]
  | succ n ih =>
    obtain ⟨h1, h2⟩ := Save_LinkGraph.edgeLoop_spec ed from_ it hs hge
    rw [Save_LinkGraph.nodeLoop, List.range'_succ, List.flatMap_cons, h1, h2]
    rw [ih (from_ + 1) _ (hs.filter _) (by
      intro ke hke
      have := (List.mem_filter.mp hke).2
      simp only [decide_eq_true_eq] at this
      omega)]
    simp only [sparseRowBytes, INVALID_NODE]
    congr 1
    apply List.flatMap_congr
    intro f hf
    rw [EdgeMap.row_filter_gt]
    have := (List.mem_range'_1.mp hf).1
    omega

/-! ## C2: the layout of the sparse format -/

theorem EdgeMap.filter_split (it : EdgeMap) (from_ : Nat)
    (hs : it.Pairwise (fun a b => a.1.1 ≤ b.1.1)) (hge : ∀ ke ∈ it, from_ ≤ ke.1.1) :
    it.filter (fun ke => decide (ke.1.1 = from_)) ++ it.filter (fun ke => decide (from_ < ke.1.1))
      = it := by
  induction it with
  | nil => rfl
  | cons x it ih =>
    obtain ⟨hx, hs'⟩ := List.pairwise_cons.mp hs
    have hk := hge x (List.mem_cons_self _ _)
    have hge' : ∀ ke ∈ it, from_ ≤ ke.1.1 := fun ke hke => hge ke (List.mem_cons_of_mem _ hke)
    by_cases hkf : x.1.1 = from_
    · have hn : ¬ from_ < x.1.1 := by omega
      simp only [List.filter_cons, hkf, decide_True, if_true, lt_self_iff_false, decide_False,
        Bool.false_eq_true, if_false, List.cons_append]
      rw [ih hs' hge']
    · have hlt : from_ < x.1.1 := by omega
      have hall : ∀ ke ∈ it, from_ < ke.1.1 := fun ke hke => by
        have := hx ke hke
        omega
      have hf1 : it.filter (fun ke => decide (ke.1.1 = from_)) = [] := by
        rw [List.filter_eq_nil_iff]
        intro ke hke
        have := hall ke hke
        simp; omega
      have hf2 : it.filter (fun ke => decide (from_ < ke.1.1)) = it := by
        rw [List.filter_eq_self]
        intro ke hke
        simpa using hall ke hke
      simp [List.filter_cons, hkf, hlt, hf1, hf2]

theorem EdgeMap.rows_concat (n : Nat) (from_ : Nat) (it : EdgeMap)
    (hs : it.Pairwise (fun a b => a.1.1 ≤ b.1.1)) (hge : ∀ ke ∈ it, from_ ≤ ke.1.1)
    (hlt : ∀ ke ∈ it, ke.1.1 < from_ + n) :
    (List.range' from_ n).flatMap (fun f => it.filter (fun ke => decide (ke.1.1 = f))) = it := by
  induction n generalizing from_ it with
  | zero =>
    cases it with
    | nil => rfl
    | cons x it =>
      have h1 := hge x (List.mem_cons_self _ _)
      have h2 := hlt x (List.mem_cons_self _ _)
      omega
  | succ n ih =>
    rw [List.range'_succ, List.flatMap_cons]
    have hrec := ih (from_ + 1) (it.filter (fun ke => decide (from_ < ke.1.1))) (hs.filter _)
      (by
        intro ke hke
        have := (List.mem_filter.mp hke).2
        simp only [decide_eq_true_eq] at this
        omega)
      (by
        intro ke hke
        have := hlt ke (List.mem_filter.mp hke).1
        omega)
    have hcongr : (List.range' (from_ + 1) n).flatMap
          (fun f => it.filter (fun ke => decide (ke.1.1 = f))) =
        (List.range' (from_ + 1) n).flatMap
          (fun f => (it.filter (fun ke => decide (from_ < ke.1.1))).filter
            (fun ke => decide (ke.1.1 = f))) := by
      apply List.flatMap_congr
      intro f hf
      have hf' := (List.mem_range'_1.mp hf).1
      rw [List.filter_filter]
      apply List.filter_congr
      intro ke _
      by_cases hk : ke.1.1 = f
      · have : from_ < f := by omega
        simp [hk, this]
      · simp [hk]
    rw [hcongr, hrec]
    exact EdgeMap.filter_split it from_ hs hge

theorem EdgeMap.row_ascending (m : EdgeMap) (h : m.Ordered) (f : Nat) :
    (m.row f).Pairwise (fun a b => a.1 < b.1) := by
  unfold EdgeMap.row
  rw [List.pairwise_map]
  have h1 : (m.filter (fun ke => decide (ke.1.1 = f))).Pairwise
      (fun a b => EdgeKey.lt a.1 b.1 = true) := List.Pairwise.filter _ h
  refine List.Pairwise.imp_of_mem ?_ h1
  intro a b ha hb hab
  have ha' := (List.mem_filter.mp ha).2
  have hb' := (List.mem_filter.mp hb).2
  simp only [decide_eq_true_eq] at ha' hb'
  rw [EdgeKey.lt_iff] at hab
  omega

theorem EdgeMap.row_map_key (m : EdgeMap) (f : Nat) :
    (m.row f).map (fun te => ((f, te.1), te.2)) = m.filter (fun ke => decide (ke.1.1 = f)) := by
  unfold EdgeMap.row
  rw [List.map_map]
  conv_rhs => rw [← List.map_id (m.filter (fun ke => decide (ke.1.1 = f)))]
  apply List.map_congr_left
  intro ke hke
  have := (List.mem_filter.mp hke).2
  simp only [decide_eq_true_eq] at this
  obtain ⟨⟨k1, k2⟩, e⟩ := ke
  simp only at this
  simp [this]

theorem EdgeMap.mem_row {m : EdgeMap} {f : Nat} {te : Nat × Edge} (h : te ∈ m.row f) :
    ((f, te.1), te.2) ∈ m := by
  unfold EdgeMap.row at h
  obtain ⟨ke, hke, rfl⟩ := List.mem_map.mp h
  obtain ⟨hm, hf⟩ := List.mem_filter.mp hke
  simp only [decide_eq_true_eq] at hf
  obtain ⟨⟨k1, k2⟩, e⟩ := ke
  simp only at hf
  subst hf
  exact hm

/-- C2: for a link graph whose edge map is ordered by `(from, to)` and whose edges all
have `from < size`, `Save_LinkGraph` writes the sparse layout: for `from = 0 .. size - 1`
ascending the node record, then for each edge of `from` in ascending `to` order the 16-bit
`to` and the edge record, then the sentinel `0xFFFF`; there are `size` rows (one sentinel
each), and the rows taken together hold every edge of the map exactly once. -/
theorem C2_Save_LinkGraph_layout (nd : List (SaveLoad NodeField)) (ed : List (SaveLoad EdgeField))
    (lg : LinkGraph) (hord : lg.edges.Ordered) (hfrom : ∀ ke ∈ lg.edges, ke.1.1 < lg.Size) :
    Save_LinkGraph nd ed lg = sparseLayout nd ed lg ∧
    (∀ f, (lg.edges.row f).Pairwise (fun a b => a.1 < b.1)) ∧
    (List.range lg.Size).length = lg.Size ∧
    (List.range lg.Size).flatMap (fun f => (lg.edges.row f).map (fun te => ((f, te.1), te.2)))
      = lg.edges ∧
    ((List.range lg.Size).map (fun f => (lg.edges.row f).length)).sum = lg.edges.length := by
  have hcat : (List.range lg.Size).flatMap
      (fun f => (lg.edges.row f).map (fun te => ((f, te.1), te.2))) = lg.edges := by
    simp only [EdgeMap.row_map_key]
    rw [List.range_eq_range']
    exact EdgeMap.rows_concat lg.Size 0 lg.edges hord.fst_le (fun _ _ => Nat.zero_le _)
      (by simpa using hfrom)
  refine ⟨?_, EdgeMap.row_ascending lg.edges hord, List.length_range _, hcat, ?_⟩
  · unfold Save_LinkGraph sparseLayout
    rw [List.range_eq_range']
    exact Save_LinkGraph.nodeLoop_layout nd ed lg.nodes lg.Size 0 lg.edges hord.fst_le
      (fun _ _ => Nat.zero_le _)
  · have := congrArg List.length hcat
    rw [List.length_flatMap] at this
    rw [← this]
    congr 1
    apply List.map_congr_left
    intro f _
    simp

/-! ## C1: saving and loading the sparse format -/

theorem SlWriteBytes_length (w v : Nat) : (SlWriteBytes w v).length = w := by
  induction w with
  | zero => rfl
  | succ w ih => simp [SlWriteBytes, ih]

theorem sparseRow_length_le (ed : List (SaveLoad EdgeField)) (row : List (Nat × Edge)) :
    row.length ≤ (row.flatMap
      (fun te => SlWriteUint16 te.1 ++ SlObjectSaveFiltered Edge.access te.2 ed)).length := by
  induction row with
  | nil => simp
  | cons te row ih =>
    simp only [SlWriteUint16] at ih
    simp only [List.flatMap_cons, List.length_append, List.length_cons, SlWriteUint16,
      SlWriteBytes_length]
    omega

theorem LinkGraph.eta_edges (lg : LinkGraph) : { lg with edges := lg.edges ++ [] } = lg := by
  cases lg; simp

theorem Load_LinkGraph.sparseEdges_row (einit : Edge) (from_ : Nat) (row : List (Nat × Edge))
    (cur : LinkGraph) (fuel : Nat) (rest : List Byte)
    (hrow : ∀ te ∈ row, te.1 < 65535 ∧ te.2.WF)
    (hasc : row.Pairwise (fun a b => a.1 < b.1))
    (hcur : ∀ ke ∈ cur.edges, ∀ te ∈ row, EdgeKey.lt ke.1 (from_, te.1) = true)
    (hfuel : row.length < fuel) :
    Load_LinkGraph.sparseEdges _edge_desc.tail einit from_ fuel cur
        (row.flatMap (fun te => SlWriteUint16 te.1
            ++ SlObjectSaveFiltered Edge.access te.2 _edge_desc.tail)
          ++ SlWriteUint16 0xFFFF ++ rest)
      = .ok { cur with edges := cur.edges ++ row.map (fun te => ((from_, te.1), te.2)) } rest := by
  induction row generalizing cur fuel with
  | nil =>
    obtain ⟨fuel, rfl⟩ : ∃ f, fuel = f + 1 := ⟨fuel - 1, by simp at hfuel; omega⟩
    simp only [List.flatMap_nil, List.nil_append, Load_LinkGraph.sparseEdges, List.map_nil]
    rw [SlReadUint16_SlWriteUint16 _ _ (by decide)]
    simp [INVALID_NODE, LinkGraph.eta_edges]
  | cons te row ih =>
    obtain ⟨fuel, rfl⟩ : ∃ f, fuel = f + 1 := ⟨fuel - 1, by simp at hfuel; omega⟩
    obtain ⟨hte, hwf⟩ := hrow te (List.mem_cons_self _ _)
    obtain ⟨hhead, hasc'⟩ := List.pairwise_cons.mp hasc
    simp only [List.flatMap_cons, List.append_assoc, Load_LinkGraph.sparseEdges]
    rw [SlReadUint16_SlWriteUint16 _ _ (by omega)]
    have hne : te.1 ≠ INVALID_NODE := by simp only [INVALID_NODE]; omega
    simp only [hne, if_false, Load_LinkGraph.loadEdge, edge_roundtrip _ _ hwf]
    have hassign : cur.setEdge (from_, te.1) te.2 =
        { cur with edges := cur.edges ++ [((from_, te.1), te.2)] } := by
      simp only [LinkGraph.setEdge]
      rw [EdgeMap.assign_append _ _ _ (fun ke hke => hcur ke hke te (List.mem_cons_self _ _))]
    rw [hassign]
    have := ih { cur with edges := cur.edges ++ [((from_, te.1), te.2)] } fuel
      (fun t ht => hrow t (List.mem_cons_of_mem _ ht)) hasc'
      (by
        intro ke hke t ht
        rcases List.mem_append.mp hke with h | h
        · exact hcur ke h t (List.mem_cons_of_mem _ ht)
        · simp only [List.mem_singleton] at h
          subst h
          rw [EdgeKey.lt_iff]
          right
          exact ⟨rfl, hhead t ht⟩)
      (by simp at hfuel; omega)
    simp only [List.append_assoc] at this
    rw [this]
    simp

theorem Node.getD_WF (nodes : List Node) (h : ∀ nd ∈ nodes, nd.WF) (f : Nat) :
    (nodes.getD f default).WF := by
  rw [List.getD_eq_getElem?_getD]
  cases hf : nodes[f]? with
  | none => simp only [Option.getD_none]; decide
  | some nd => exact h nd (List.mem_iff_getElem?.mpr ⟨f, hf⟩)

theorem Load_LinkGraph.sparse_rows (einit : Edge) (nodes : List Node) (it : EdgeMap)
    (n from_ : Nat) (cur : LinkGraph) (rest : List Byte)
    (hnodes : ∀ nd ∈ nodes, nd.WF) (hord : it.Ordered)
    (hit : ∀ ke ∈ it, ke.1.2 < 65535 ∧ ke.2.WF)
    (hcur : ∀ ke ∈ cur.edges, ke.1.1 < from_) :
    Load_LinkGraph.forNodes (Load_LinkGraph.sparseRow _node_desc _edge_desc.tail einit) n from_ cur
        ((List.range' from_ n).flatMap (fun f =>
            sparseRowBytes _node_desc _edge_desc.tail (nodes.getD f default) (it.row f)) ++ rest)
      = .ok ⟨cur.index, cur.last_compression, cur.cargo,
          (List.range' from_ n).foldl (fun ns f => ns.set f (nodes.getD f default)) cur.nodes,
          cur.edges ++ (List.range' from_ n).flatMap
            (fun f => it.filter (fun ke => decide (ke.1.1 = f)))⟩ rest := by
  induction n generalizing from_ cur with
  | zero => cases cur; simp [Load_LinkGraph.forNodes]
  | succ n ih =>
    rw [List.range'_succ, List.flatMap_cons, List.flatMap_cons, List.foldl_cons,
      Load_LinkGraph.forNodes]
    simp only [sparseRowBytes, List.append_assoc, Load_LinkGraph.sparseRow,
      Load_LinkGraph.loadNode, node_roundtrip _ _ (Node.getD_WF nodes hnodes from_)]
    have hrow := Load_LinkGraph.sparseEdges_row einit from_ (it.row from_)
      (cur.setNode from_ (nodes.getD from_ default))
      (((it.row from_).flatMap (fun te => SlWriteUint16 te.1
            ++ SlObjectSaveFiltered Edge.access te.2 _edge_desc.tail)
          ++ (SlWriteUint16 0xFFFF ++ ((List.range' (from_ + 1) n).flatMap (fun f =>
            sparseRowBytes _node_desc _edge_desc.tail (nodes.getD f default) (it.row f))
              ++ rest))).length + 1)
      ((List.range' (from_ + 1) n).flatMap (fun f =>
            sparseRowBytes _node_desc _edge_desc.tail (nodes.getD f default) (it.row f)) ++ rest)
      (fun te hte => hit _ (EdgeMap.mem_row hte))
      (EdgeMap.row_ascending it hord from_)
      (by
        intro ke hke te _
        have := hcur ke hke
        rw [EdgeKey.lt_iff]
        left
        exact this)
      (by
        have := sparseRow_length_le _edge_desc.tail (it.row from_)
        simp only [List.length_append]
        omega)
    simp only [List.append_assoc, sparseRowBytes] at hrow ⊢
    rw [hrow]
    simp only []
    have hstep := ih (from_ + 1)
      { cur.setNode from_ (nodes.getD from_ default) with
        edges := (cur.setNode from_ (nodes.getD from_ default)).edges
          ++ (it.row from_).map (fun te => ((from_, te.1), te.2)) }
      (by
        intro ke hke
        rcases List.mem_append.mp hke with h | h
        · have := hcur ke h
          omega
        · obtain ⟨te, _, rfl⟩ := List.mem_map.mp h
          simp)
    simp only [sparseRowBytes, List.append_assoc] at hstep
    rw [hstep]
    simp [LinkGraph.setNode, EdgeMap.row_map_key]

theorem foldl_set_getElem? (nodes : List Node) (n a : Nat) (ns : List Node) (i : Nat) :
    ((List.range' a n).foldl (fun ns f => ns.set f (nodes.getD f default)) ns)[i]? =
      if a ≤ i ∧ i < a + n ∧ i < ns.length then some (nodes.getD i default) else ns[i]? := by
  induction n generalizing a ns with
  | zero =>
    have : ¬ (a ≤ i ∧ i < a + 0 ∧ i < ns.length) := by omega
    simp only [List.range'_zero, List.foldl_nil, this, if_false]
  | succ n ih =>
    rw [List.range'_succ, List.foldl_cons, ih, List.length_set, List.getElem?_set]
    by_cases h1 : a = i
    · subst h1
      by_cases h2 : a < ns.length
      · simp [h2]
      · have : ns[a]? = none := by simp; omega
        simp [h2, this]
    · by_cases h3 : a + 1 ≤ i ∧ i < a + 1 + n ∧ i < ns.length
      · have : a ≤ i ∧ i < a + (n + 1) ∧ i < ns.length := by omega
        simp [h3, this]
      · have : ¬ (a ≤ i ∧ i < a + (n + 1) ∧ i < ns.length) := by omega
        simp [h1, h3, this]

theorem foldl_set_all (nodes ns : List Node) (h : ns.length = nodes.length) :
    (List.range' 0 nodes.length).foldl (fun ns f => ns.set f (nodes.getD f default)) ns
      = nodes := by
  apply List.ext_getElem?
  intro i
  rw [foldl_set_getElem?]
  by_cases hi : i < nodes.length
  · have : 0 ≤ i ∧ i < 0 + nodes.length ∧ i < ns.length := by omega
    simp [this, List.getD_eq_getElem?_getD, hi]
  · have : ¬ (0 ≤ i ∧ i < 0 + nodes.length ∧ i < ns.length) := by omega
    have h1 : ns[i]? = none := by simp; omega
    have h2 : nodes[i]? = none := by simp; omega
    rw [if_neg this, h1, h2]

/-- C1 (counterexample): with the sparse edges feature present but the travel time feature
absent, the same filtered descriptors do not hold `travel_time_sum`. The graph
`sampleGraph` has two nodes and only keys below 2; loading what `Save_LinkGraph` wrote of
it into a graph of two nodes and no edges succeeds, but the loaded edges `(0, 1)` and
`(1, 0)` have `travel_time_sum` 0 where the saved ones had 7000 and 123456789012. -/
theorem C1_counterexample :
    SlXvIsFeaturePresent noTravelTimeVersions .XSLFI_LINKGRAPH_SPARSE_EDGES 1 0xFFFF = true ∧
    sampleGraph.WF ∧
    (∀ ke ∈ sampleGraph.edges, ke.1.1 < sampleGraph.Size ∧ ke.1.2 < sampleGraph.Size) ∧
    sampleEmptyGraph.nodes.length = sampleGraph.nodes.length ∧ sampleEmptyGraph.edges = [] ∧
    Load_LinkGraph noTravelTimeVersions (SlFilterObject noTravelTimeVersions _node_desc)
        (SlFilterObject noTravelTimeVersions _edge_desc) default sampleEmptyGraph
        (Save_LinkGraph (SlFilterObject noTravelTimeVersions _node_desc)
          (SlFilterObject noTravelTimeVersions _edge_desc) sampleGraph)
      = .ok ⟨0, 0, 0, sampleGraph.nodes,
          [((0, 0), ⟨0, 0, 0, 5000, -1, -1⟩), ((0, 1), ⟨120, 40, 0, 5000, 4990, -1⟩),
            ((1, 0), ⟨80, 80, 0, 4999, -1, 4000⟩)]⟩ [] ∧
    ¬ (Load_LinkGraph noTravelTimeVersions (SlFilterObject noTravelTimeVersions _node_desc)
        (SlFilterObject noTravelTimeVersions _edge_desc) default sampleEmptyGraph
        (Save_LinkGraph (SlFilterObject noTravelTimeVersions _node_desc)
          (SlFilterObject noTravelTimeVersions _edge_desc) sampleGraph)
      = .ok { sampleEmptyGraph with nodes := sampleGraph.nodes, edges := sampleGraph.edges }
          []) := by
  decide

/-- C1 (amended): under a version state that saves every node and edge variable (savegame
version from `SLV_191` on, travel time, aircraft and sparse edges features present), for
every well-formed link graph with `size` nodes whose edge map holds only keys `(from, to)`
with `from < size` and `to < size`, loading what `Save_LinkGraph` wrote (the same filtered
descriptors) into a graph initialised with the same size and no edges succeeds, consumes
exactly the written bytes, and yields the same nodes and exactly the same edge map. -/
theorem C1_Save_Load_LinkGraph_roundtrip (v : SlVersions) (edge_init : Edge)
    (lg lg0 : LinkGraph) (rest : List Byte)
    (hv : v.savesAllMembers) (hwf : lg.WF)
    (hkeys : ∀ ke ∈ lg.edges, ke.1.1 < lg.Size ∧ ke.1.2 < lg.Size)
    (hsize : lg0.nodes.length = lg.nodes.length) (hempty : lg0.edges = []) :
    Load_LinkGraph v (SlFilterObject v _node_desc) (SlFilterObject v _edge_desc) edge_init lg0
        (Save_LinkGraph (SlFilterObject v _node_desc) (SlFilterObject v _edge_desc) lg ++ rest)
      = .ok { lg0 with nodes := lg.nodes, edges := lg.edges } rest := by
  obtain ⟨hlen, hnodes, hedges, hord⟩ := hwf
  have hS : lg.Size = lg.nodes.length := Nat.mod_eq_of_lt hlen
  have hS0 : lg0.Size = lg.nodes.length := by
    unfold LinkGraph.Size
    rw [hsize]
    exact Nat.mod_eq_of_lt hlen
  rw [SlFilterObject_node_desc v hv, SlFilterObject_edge_desc v hv]
  unfold Load_LinkGraph
  simp only [hv.2.2.2.2, if_true, hS0]
  unfold Save_LinkGraph
  rw [hS, Save_LinkGraph.nodeLoop_layout _ _ _ _ _ _ hord.fst_le (fun _ _ => Nat.zero_le _)]
  rw [Load_LinkGraph.sparse_rows edge_init lg.nodes lg.edges lg.nodes.length 0 lg0 rest hnodes hord
    (fun ke hke => ⟨by have := (hkeys ke hke).2; omega, hedges ke hke⟩)
    (by simp [hempty])]
  rw [foldl_set_all lg.nodes lg0.nodes hsize,
    EdgeMap.rows_concat lg.nodes.length 0 lg.edges hord.fst_le (fun _ _ => Nat.zero_le _)
      (by
        intro ke hke
        have := (hkeys ke hke).1
        omega)]
  simp [hempty]

/-! ## C3 and C6: the formats that do not check `to` -/

/-- C3 (evaluation at the failing input): the sparse path loads a chunk whose edge record
carries `to` = 5 into a graph of size 1 without any error and inserts the edge
`(0, 5)`. -/
theorem C3_sparse_path_inserts_out_of_range_edge :
    Load_LinkGraph sampleVersions (SlFilterObject sampleVersions _node_desc)
        (SlFilterObject sampleVersions _edge_desc) default sampleSingleGraph sparseChunkToFive
      = .ok ⟨0, 0, 0, [⟨100, 20, 30, 7, 5000⟩], [((0, 5), ⟨120, 40, 7000, 5000, 4990, -1⟩)]⟩ [] := by
  decide

/-- C6 (evaluation at the failing input): the dense path follows the next pointer 5 of a
row of a graph of size 1 and indexes the temporary vectors of length 1 at 5; no
`SlErrorCorrupt` is raised. -/
theorem C6_dense_path_indexes_out_of_range :
    Load_LinkGraph legacyVersions (SlFilterObject legacyVersions _node_desc)
        (SlFilterObject legacyVersions _edge_desc) default sampleSingleGraph denseChunkNextFive
      = .abort .outOfRange
          ⟨0, 0, 0, [⟨0, 20, 30, 7, 5000⟩], [((0, 0), ⟨120, 40, 0, 5000, 4990, 0⟩)]⟩ := by
  decide

/-! ## C8: the schedule timestamps in the job descriptor -/

theorem activeJobEntries_eq (v : SlVersions)
    (linkgraph_table : List (SaveLoad LinkGraphSettingsField)) (f : LinkGraphJobField)
    (hf : ∀ g, f ≠ .settings g) :
    activeJobEntries v linkgraph_table f =
      (SlFilterObject v GetLinkGraphJobDesc.job_desc).filter
        (fun sld => decide (sld.address = some f)) := by
  unfold activeJobEntries GetLinkGraphJobDesc SlFilterObject
  rw [List.filter_append, List.filter_append]
  have : ((linkgraph_table.map (fun sl =>
      (⟨sl.address.map LinkGraphJobField.settings, sl.file, sl.mem, sl.length, sl.version_from,
        sl.version_to, sl.ext_feature_test⟩ : SaveLoad LinkGraphJobField))).filter
        (SlIsObjectValidInSavegame v)).filter (fun sld => decide (sld.address = some f)) = [] := by
    rw [List.filter_eq_nil_iff]
    intro sld hsld
    obtain ⟨sl, _, rfl⟩ := List.mem_map.mp (List.mem_filter.mp hsld).1
    simp only [decide_eq_true_eq]
    cases h : sl.address with
    | none => simp
    | some g =>
      simp only [Option.map_some', Option.some.injEq]
      exact fun h' => hf g h'.symm
  rw [this, List.nil_append]

/-- C8 (counterexample): with the day scale feature absent (version 0) the job
descriptor has one active `join_date_ticks` entry but no active `start_date_ticks`
entry. -/
theorem C8_counterexample :
    ¬ ((activeJobEntries noDayScaleVersions [] .join_date_ticks).length = 1 ∧
        (activeJobEntries noDayScaleVersions [] .start_date_ticks).length = 1) := by
  decide

/-- C8 (amended): for every version `v` of `XSLFI_LINKGRAPH_DAY_SCALE` (0 = absent) the
job descriptor has exactly one active `join_date_ticks` entry, 32 bits on file for
`v <= 4` and 64 bits for `v >= 5`; it has exactly one active `start_date_ticks` entry of
the same width for `v >= 1`, and none for `v = 0`. -/
theorem C8_job_desc_timestamps (v : SlVersions)
    (linkgraph_table : List (SaveLoad LinkGraphSettingsField))
    (hver : v.sl_version < SL_MAX_VERSION)
    (hds : v.xv .XSLFI_LINKGRAPH_DAY_SCALE ≤ 0xFFFF) :
    (activeJobEntries v linkgraph_table .join_date_ticks).map (fun sld => sld.file) =
        [if v.xv .XSLFI_LINKGRAPH_DAY_SCALE ≤ 4 then VarType.I32 else VarType.I64] ∧
    (activeJobEntries v linkgraph_table .start_date_ticks).map (fun sld => sld.file) =
        if v.xv .XSLFI_LINKGRAPH_DAY_SCALE = 0 then []
        else [if v.xv .XSLFI_LINKGRAPH_DAY_SCALE ≤ 4 then VarType.I32 else VarType.I64] := by
  rw [activeJobEntries_eq _ _ _ (by simp), activeJobEntries_eq _ _ _ (by simp)]
  simp only [SL_MAX_VERSION] at hver
  generalize hx : v.xv .XSLFI_LINKGRAPH_DAY_SCALE = x at hds ⊢
  have hcases : x = 0 ∨ (1 ≤ x ∧ x ≤ 4) ∨ 5 ≤ x := by omega
  rcases hcases with h0 | ⟨h1, h4⟩ | h5
  · subst h0
    simp [SlFilterObject, GetLinkGraphJobDesc.job_desc, SLE_CONDVAR_X, SLE_VAR, SLE_CONDVAR,
      SlIsObjectValidInSavegame, SlXvFeatureTest.IsFeaturePresent, SlXvFeatureTest.none,
      SlXvIsFeaturePresent, SL_MIN_VERSION, SL_MAX_VERSION, List.filter, hx, hver]
  · have n5 : ¬ 5 ≤ x := by omega
    have n0 : x ≠ 0 := by omega
    simp [SlFilterObject, GetLinkGraphJobDesc.job_desc, SLE_CONDVAR_X, SLE_VAR, SLE_CONDVAR,
      SlIsObjectValidInSavegame, SlXvFeatureTest.IsFeaturePresent, SlXvFeatureTest.none,
      SlXvIsFeaturePresent, SL_MIN_VERSION, SL_MAX_VERSION, List.filter, hx, hver, h1, h4, n5, n0]
  · have n4 : ¬ x ≤ 4 := by omega
    have n0 : x ≠ 0 := by omega
    simp [SlFilterObject, GetLinkGraphJobDesc.job_desc, SLE_CONDVAR_X, SLE_VAR, SLE_CONDVAR,
      SlIsObjectValidInSavegame, SlXvFeatureTest.IsFeaturePresent, SlXvFeatureTest.none,
      SlXvIsFeaturePresent, SL_MIN_VERSION, SL_MAX_VERSION, List.filter, hx, hver, h5, hds, n4, n0]

theorem C8_job_desc_timestamps_witness :
    sampleVersions.sl_version < SL_MAX_VERSION ∧
    sampleVersions.xv .XSLFI_LINKGRAPH_DAY_SCALE ≤ 0xFFFF ∧
    (activeJobEntries sampleVersions [] .join_date_ticks).map (fun sld => sld.file) =
        [if sampleVersions.xv .XSLFI_LINKGRAPH_DAY_SCALE ≤ 4 then VarType.I32 else VarType.I64] ∧
    (activeJobEntries sampleVersions [] .start_date_ticks).map (fun sld => sld.file) =
        if sampleVersions.xv .XSLFI_LINKGRAPH_DAY_SCALE = 0 then []
        else [if sampleVersions.xv .XSLFI_LINKGRAPH_DAY_SCALE ≤ 4 then VarType.I32
          else VarType.I64] :=
  ⟨by decide, by decide, C8_job_desc_timestamps sampleVersions [] (by decide) (by decide)⟩

/-! ## C7: a job persists as a graph record behind its own variables -/

theorem SlFilterObject_GetLinkGraphDesc (v : SlVersions) (hver : v.sl_version < SL_MAX_VERSION)
    (hds : v.xv .XSLFI_LINKGRAPH_DAY_SCALE ≤ 0xFFFF) :
    SlFilterObject v GetLinkGraphDesc =
      [ if v.xv .XSLFI_LINKGRAPH_DAY_SCALE ≤ 3 then
          SLE_CONDVAR_X .last_compression .I32 .I64 SL_MIN_VERSION SL_MAX_VERSION
            ⟨.XSLFTO_AND, .XSLFI_LINKGRAPH_DAY_SCALE, 0, 3⟩
        else
          SLE_CONDVAR_X .last_compression .I64 .I64 SL_MIN_VERSION SL_MAX_VERSION
            ⟨.XSLFTO_AND, .XSLFI_LINKGRAPH_DAY_SCALE, 4, 0xFFFF⟩,
        SLE_VAR ._num_nodes .U16, SLE_VAR .cargo .U8 ] := by
  simp only [SL_MAX_VERSION] at hver
  by_cases h3 : v.xv .XSLFI_LINKGRAPH_DAY_SCALE ≤ 3
  · have n4 : ¬ 4 ≤ v.xv .XSLFI_LINKGRAPH_DAY_SCALE := by omega
    simp [SlFilterObject, GetLinkGraphDesc, SLE_CONDVAR_X, SLE_VAR, SLE_CONDVAR,
      SlIsObjectValidInSavegame, SlXvFeatureTest.IsFeaturePresent, SlXvFeatureTest.none,
      SlXvIsFeaturePresent, SL_MIN_VERSION, SL_MAX_VERSION, List.filter, hver, h3, n4]
  · have h4 : 4 ≤ v.xv .XSLFI_LINKGRAPH_DAY_SCALE := by omega
    simp [SlFilterObject, GetLinkGraphDesc, SLE_CONDVAR_X, SLE_VAR, SLE_CONDVAR,
      SlIsObjectValidInSavegame, SlXvFeatureTest.IsFeaturePresent, SlXvFeatureTest.none,
      SlXvIsFeaturePresent, SL_MIN_VERSION, SL_MAX_VERSION, List.filter, hver, h3, h4, hds]

theorem DoSave_LGRP_header (v : SlVersions) (fd : FilteredDescs) (lg : LinkGraph)
    (hver : v.sl_version < SL_MAX_VERSION) (hds : v.xv .XSLFI_LINKGRAPH_DAY_SCALE ≤ 0xFFFF) :
    DoSave_LGRP v fd lg =
      (if v.xv .XSLFI_LINKGRAPH_DAY_SCALE ≤ 3 then
          SlWriteBytes 4 (lg.last_compression % 2 ^ 32).toNat
        else SlWriteBytes 8 (lg.last_compression % 2 ^ 64).toNat)
        ++ SlWriteUint16 lg.Size ++ SlWriteBytes 1 (lg.cargo % 2 ^ 8).toNat
        ++ Save_LinkGraph fd._filtered_node_desc fd._filtered_edge_desc lg := by
  unfold DoSave_LGRP SlObjectSave
  rw [SlFilterObject_GetLinkGraphDesc v hver hds]
  have hsz : (((lg.Size : Nat) : Int) % 65536).toNat = lg.Size := by
    have : lg.Size < 65536 := Nat.mod_lt _ (by decide)
    omega
  by_cases h3 : v.xv .XSLFI_LINKGRAPH_DAY_SCALE ≤ 3 <;>
    simp [h3, SlObjectSaveFiltered, SLE_CONDVAR_X, SLE_VAR, SLE_CONDVAR, LGRPState.access,
      VarType.size, SlWriteUint16, hsz]

/-! ## Reading a record that was written with the same descriptor -/

theorem SlObjectLoadFiltered_SlObjectSaveFiltered {α F : Type} (acc : SlAccess α F)
    (desc : List (SaveLoad F)) (src dst : α) (r : List Byte) :
    SlObjectLoadFiltered acc dst desc (SlObjectSaveFiltered acc src desc ++ r) =
      .ok (SlObjectReread acc src dst desc) r := by
  induction desc generalizing dst with
  | nil => rfl
  | cons sld slt ih =>
    rw [SlObjectLoadFiltered, SlObjectSaveFiltered, SlObjectReread]
    cases h : sld.address with
    | none =>
      simp only [List.append_assoc]
      rw [if_pos (by simp), List.drop_left' (by simp), ih]
    | some f =>
      simp only [List.append_assoc]
      rw [SlReadBytes_SlWriteBytes]
      simp only []
      rw [ih]
      rfl

theorem SlObjectSaveFiltered_append {α F : Type} (acc : SlAccess α F) (obj : α)
    (d1 d2 : List (SaveLoad F)) :
    SlObjectSaveFiltered acc obj (d1 ++ d2) =
      SlObjectSaveFiltered acc obj d1 ++ SlObjectSaveFiltered acc obj d2 := by
  induction d1 with
  | nil => rfl
  | cons sld slt ih =>
    rw [List.cons_append, SlObjectSaveFiltered, SlObjectSaveFiltered, ih, List.append_assoc]

theorem SlObjectReread_append {α F : Type} (acc : SlAccess α F) (src dst : α)
    (d1 d2 : List (SaveLoad F)) :
    SlObjectReread acc src dst (d1 ++ d2) =
      SlObjectReread acc src (SlObjectReread acc src dst d1) d2 := by
  induction d1 generalizing dst with
  | nil => rfl
  | cons sld slt ih =>
    simp only [List.cons_append, SlObjectReread]
    cases sld.address with
    | none => exact ih dst
    | some f => exact ih _

theorem SlObjectSaveFiltered_settings (lgj : LinkGraphJob)
    (table : List (SaveLoad LinkGraphSettingsField)) :
    SlObjectSaveFiltered LinkGraphJob.access lgj
        (table.map (fun sl =>
          (⟨sl.address.map LinkGraphJobField.settings, sl.file, sl.mem, sl.length,
            sl.version_from, sl.version_to, sl.ext_feature_test⟩ : SaveLoad LinkGraphJobField)))
      = SlObjectSaveFiltered LinkGraphSettings.access lgj.settings table := by
  induction table with
  | nil => rfl
  | cons sl table ih =>
    simp only [List.map_cons, SlObjectSaveFiltered, ih]
    cases sl.address with
    | none => rfl
    | some g => rfl

theorem SlObjectReread_settings (src dst : LinkGraphJob)
    (table : List (SaveLoad LinkGraphSettingsField)) :
    SlObjectReread LinkGraphJob.access src dst
        (table.map (fun sl =>
          (⟨sl.address.map LinkGraphJobField.settings, sl.file, sl.mem, sl.length,
            sl.version_from, sl.version_to, sl.ext_feature_test⟩ : SaveLoad LinkGraphJobField)))
      = { dst with
          settings := SlObjectReread LinkGraphSettings.access src.settings dst.settings table } := by
  induction table generalizing dst with
  | nil => rfl
  | cons sl table ih =>
    simp only [List.map_cons, SlObjectReread]
    cases sl.address with
    | none => exact ih dst
    | some g =>
      simp only [Option.map_some']
      rw [ih]
      rfl

theorem SlFilterObject_GetLinkGraphJobDesc (v : SlVersions)
    (table : List (SaveLoad LinkGraphSettingsField)) :
    SlFilterObject v (GetLinkGraphJobDesc table) =
      (SlFilterObject v table).map (fun sl =>
          (⟨sl.address.map LinkGraphJobField.settings, sl.file, sl.mem, sl.length,
            sl.version_from, sl.version_to, sl.ext_feature_test⟩ : SaveLoad LinkGraphJobField))
        ++ SlFilterObject v GetLinkGraphJobDesc.job_desc := by
  unfold GetLinkGraphJobDesc SlFilterObject
  rw [List.filter_append, List.filter_map]
  rfl

theorem SlFilterObject_job_desc (v : SlVersions) (hver : v.sl_version < SL_MAX_VERSION)
    (hds : v.xv .XSLFI_LINKGRAPH_DAY_SCALE ≤ 0xFFFF) :
    SlFilterObject v GetLinkGraphJobDesc.job_desc =
      SLE_CONDVAR_X .join_date_ticks (jobTicksFile v) .I64 SL_MIN_VERSION SL_MAX_VERSION
          (if v.xv .XSLFI_LINKGRAPH_DAY_SCALE ≤ 4 then
            ⟨.XSLFTO_AND, .XSLFI_LINKGRAPH_DAY_SCALE, 0, 4⟩
          else ⟨.XSLFTO_AND, .XSLFI_LINKGRAPH_DAY_SCALE, 5, 0xFFFF⟩)
        :: ((if v.xv .XSLFI_LINKGRAPH_DAY_SCALE = 0 then []
            else [SLE_CONDVAR_X .start_date_ticks (jobTicksFile v) .I64 SL_MIN_VERSION
              SL_MAX_VERSION
              (if v.xv .XSLFI_LINKGRAPH_DAY_SCALE ≤ 4 then
                ⟨.XSLFTO_AND, .XSLFI_LINKGRAPH_DAY_SCALE, 1, 4⟩
              else ⟨.XSLFTO_AND, .XSLFI_LINKGRAPH_DAY_SCALE, 5, 0xFFFF⟩)])
          ++ [SLE_VAR .link_graph_index .U16]) := by
  simp only [SL_MAX_VERSION] at hver
  unfold jobTicksFile
  generalize hx : v.xv .XSLFI_LINKGRAPH_DAY_SCALE = x at hds ⊢
  have hcases : x = 0 ∨ (1 ≤ x ∧ x ≤ 4) ∨ 5 ≤ x := by omega
  rcases hcases with h0 | ⟨h1, h4⟩ | h5
  · subst h0
    simp [SlFilterObject, GetLinkGraphJobDesc.job_desc, SLE_CONDVAR_X, SLE_VAR, SLE_CONDVAR,
      SlIsObjectValidInSavegame, SlXvFeatureTest.IsFeaturePresent, SlXvFeatureTest.none,
      SlXvIsFeaturePresent, SL_MIN_VERSION, SL_MAX_VERSION, List.filter, hx, hver]
  · have n5 : ¬ 5 ≤ x := by omega
    have n0 : x ≠ 0 := by omega
    simp [SlFilterObject, GetLinkGraphJobDesc.job_desc, SLE_CONDVAR_X, SLE_VAR, SLE_CONDVAR,
      SlIsObjectValidInSavegame, SlXvFeatureTest.IsFeaturePresent, SlXvFeatureTest.none,
      SlXvIsFeaturePresent, SL_MIN_VERSION, SL_MAX_VERSION, List.filter, hx, hver, h1, h4, n5, n0]
  · have n4 : ¬ x ≤ 4 := by omega
    have n0 : x ≠ 0 := by omega
    have h1 : 1 ≤ x := by omega
    simp [SlFilterObject, GetLinkGraphJobDesc.job_desc, SLE_CONDVAR_X, SLE_VAR, SLE_CONDVAR,
      SlIsObjectValidInSavegame, SlXvFeatureTest.IsFeaturePresent, SlXvFeatureTest.none,
      SlXvIsFeaturePresent, SL_MIN_VERSION, SL_MAX_VERSION, List.filter, hx, hver, h5, hds, n4, n0,
      h1]

theorem VarType.reread_of_inRange (file mem : VarType) (x : Int) (hfile : file.inRange x)
    (hmem : mem.inRange x) : VarType.reread file mem x = x := by
  unfold VarType.reread
  have h1 : file.decode ((x % 2 ^ (8 * file.size)).toNat % 256 ^ file.size) = x := by
    cases file <;>
      simp only [VarType.inRange, VarType.signed, VarType.size, VarType.decode,
        Bool.false_eq_true, if_false, if_true, Bool.true_and, Bool.false_and, decide_eq_true_eq,
        Nat.reduceMul, Nat.reduceSub, Nat.reducePow, Int.reducePow, Int.reduceNeg] at hfile ⊢ <;>
      (try split_ifs) <;> omega
  rw [h1]
  cases mem <;>
    simp only [VarType.inRange, VarType.signed, VarType.size, VarType.wrap, VarType.decode,
      Bool.false_eq_true, if_false, if_true, Bool.true_and, Bool.false_and, decide_eq_true_eq,
      Nat.reduceMul, Nat.reduceSub, Nat.reducePow, Int.reducePow, Int.reduceNeg] at hmem ⊢ <;>
    (try split_ifs) <;> omega

theorem jobRecordBytes_eq (v : SlVersions) (env : Env) (lgj : LinkGraphJob)
    (hver : v.sl_version < SL_MAX_VERSION) (hds : v.xv .XSLFI_LINKGRAPH_DAY_SCALE ≤ 0xFFFF) :
    SlObjectSaveFiltered LinkGraphJob.access lgj (FilterDescs v env)._filtered_job_desc =
      jobRecordBytes v env lgj := by
  unfold FilterDescs jobRecordBytes
  simp only []
  rw [SlFilterObject_GetLinkGraphJobDesc, SlObjectSaveFiltered_append,
    SlObjectSaveFiltered_settings, SlFilterObject_job_desc v hver hds]
  by_cases h0 : v.xv .XSLFI_LINKGRAPH_DAY_SCALE = 0
  · simp [h0, SlObjectSaveFiltered, SLE_CONDVAR_X, SLE_VAR, SLE_CONDVAR, LinkGraphJob.access,
      VarType.size]
  · simp [h0, SlObjectSaveFiltered, SLE_CONDVAR_X, SLE_VAR, SLE_CONDVAR, LinkGraphJob.access,
      VarType.size]

theorem jobRecordRead_eq (v : SlVersions) (env : Env) (lgj : LinkGraphJob)
    (hver : v.sl_version < SL_MAX_VERSION) (hds : v.xv .XSLFI_LINKGRAPH_DAY_SCALE ≤ 0xFFFF) :
    SlObjectReread LinkGraphJob.access lgj env.newLinkGraphJob
        (FilterDescs v env)._filtered_job_desc =
      jobRecordRead v env lgj := by
  unfold FilterDescs jobRecordRead
  simp only []
  rw [SlFilterObject_GetLinkGraphJobDesc, SlObjectReread_append,
    SlObjectReread_settings, SlFilterObject_job_desc v hver hds]
  by_cases h0 : v.xv .XSLFI_LINKGRAPH_DAY_SCALE = 0
  · simp [h0, SlObjectReread, SLE_CONDVAR_X, SLE_VAR, SLE_CONDVAR, LinkGraphJob.access,
      Env.newLinkGraphJob, Env.newLinkGraph]
  · simp [h0, SlObjectReread, SLE_CONDVAR_X, SLE_VAR, SLE_CONDVAR, LinkGraphJob.access,
      Env.newLinkGraphJob, Env.newLinkGraph]

theorem SlObjectLoad_header (v : SlVersions) (env : Env) (lg g0 : LinkGraph)
    (_num_nodes : Int) (rest : List Byte)
    (hver : v.sl_version < SL_MAX_VERSION) (hds : v.xv .XSLFI_LINKGRAPH_DAY_SCALE ≤ 0xFFFF) :
    SlObjectLoad v LGRPState.access ⟨g0, _num_nodes⟩ GetLinkGraphDesc
        (DoSave_LGRP v (FilterDescs v env) lg ++ rest) =
      .ok ⟨{ g0 with
            last_compression := VarType.reread (lastCompressionFile v) .I64 lg.last_compression
            cargo := VarType.reread .U8 .U8 lg.cargo }, lg.Size⟩
        (Save_LinkGraph (FilterDescs v env)._filtered_node_desc
          (FilterDescs v env)._filtered_edge_desc lg ++ rest) := by
  have hsz : lg.Size < 65536 := Nat.mod_lt _ (by decide)
  have hnum : VarType.reread .U16 .U16 (lg.Size : Int) = (lg.Size : Int) := by
    apply VarType.reread_of_inRange <;>
      simp only [VarType.inRange, VarType.signed, VarType.size, Bool.false_eq_true, if_false,
        Nat.reduceMul] <;> omega
  unfold DoSave_LGRP SlObjectLoad SlObjectSave
  simp only [List.append_assoc]
  rw [SlObjectLoadFiltered_SlObjectSaveFiltered, SlFilterObject_GetLinkGraphDesc v hver hds]
  by_cases h3 : v.xv .XSLFI_LINKGRAPH_DAY_SCALE ≤ 3
  · simp only [h3, if_true, SlObjectReread, SLE_CONDVAR_X, SLE_VAR, SLE_CONDVAR,
      LGRPState.access, hnum, lastCompressionFile]
  · simp only [h3, if_false, SlObjectReread, SLE_CONDVAR_X, SLE_VAR, SLE_CONDVAR,
      LGRPState.access, hnum, lastCompressionFile]

theorem Load_LGRP.item_DoSave_LGRP (v : SlVersions) (env : Env) (lg g0 : LinkGraph)
    (_num_nodes : Int) (rest : List Byte)
    (hver : v.sl_version < SL_MAX_VERSION) (hds : v.xv .XSLFI_LINKGRAPH_DAY_SCALE ≤ 0xFFFF)
    (hg0 : g0.edges = []) :
    Load_LGRP.item v env (FilterDescs v env) ⟨g0, _num_nodes⟩
        (DoSave_LGRP v (FilterDescs v env) lg ++ rest) =
      afterLoad_LinkGraph LGRPState.mk lg.Size
        (Load_LinkGraph v (FilterDescs v env)._filtered_node_desc
          (FilterDescs v env)._filtered_edge_desc env.edge_init
          (graphAfterHeader v env lg g0.index)
          (Save_LinkGraph (FilterDescs v env)._filtered_node_desc
            (FilterDescs v env)._filtered_edge_desc lg ++ rest)) := by
  unfold Load_LGRP.item
  rw [SlObjectLoad_header v env lg g0 _num_nodes rest hver hds]
  cases g0 with
  | mk index lc cargo nodes edges =>
    simp only [] at hg0
    subst hg0
    simp only [Int.toNat_ofNat, LinkGraph.Init, graphAfterHeader]
    cases Load_LinkGraph v (FilterDescs v env)._filtered_node_desc
      (FilterDescs v env)._filtered_edge_desc env.edge_init _ _ <;> rfl

theorem Load_LinkGraph_after_header (v : SlVersions) (env : Env) (lg : LinkGraph) (index : Int)
    (rest : List Byte) (hv : v.savesAllMembers) (hwf : lg.WF)
    (hkeys : ∀ ke ∈ lg.edges, ke.1.1 < lg.Size ∧ ke.1.2 < lg.Size) :
    Load_LinkGraph v (FilterDescs v env)._filtered_node_desc
        (FilterDescs v env)._filtered_edge_desc env.edge_init (graphAfterHeader v env lg index)
        (Save_LinkGraph (FilterDescs v env)._filtered_node_desc
          (FilterDescs v env)._filtered_edge_desc lg ++ rest)
      = .ok { graphAfterHeader v env lg index with nodes := lg.nodes, edges := lg.edges }
          rest := by
  obtain ⟨hlen, hnodes, hedges, hord⟩ := hwf
  have hS : lg.Size = lg.nodes.length := Nat.mod_eq_of_lt hlen
  have hsize : (graphAfterHeader v env lg index).nodes.length = lg.nodes.length := by
    simp [graphAfterHeader, hS]
  have hS0 : (graphAfterHeader v env lg index).Size = lg.nodes.length := by
    unfold LinkGraph.Size
    rw [hsize]
    exact Nat.mod_eq_of_lt hlen
  simp only [FilterDescs]
  rw [SlFilterObject_node_desc v hv, SlFilterObject_edge_desc v hv]
  unfold Load_LinkGraph
  simp only [hv.2.2.2.2, if_true, hS0]
  unfold Save_LinkGraph
  rw [hS, Save_LinkGraph.nodeLoop_layout _ _ _ _ _ _ hord.fst_le (fun _ _ => Nat.zero_le _)]
  rw [Load_LinkGraph.sparse_rows env.edge_init lg.nodes lg.edges lg.nodes.length 0
    (graphAfterHeader v env lg index) rest hnodes hord
    (fun ke hke => ⟨by have := (hkeys ke hke).2; omega, hedges ke hke⟩)
    (by simp [graphAfterHeader])]
  rw [foldl_set_all lg.nodes (graphAfterHeader v env lg index).nodes hsize,
    EdgeMap.rows_concat lg.nodes.length 0 lg.edges hord.fst_le (fun _ _ => Nat.zero_le _)
      (by
        intro ke hke
        have := (hkeys ke hke).1
        omega)]
  simp [graphAfterHeader]

theorem graphAfterHeader_of_HeaderWF (v : SlVersions) (env : Env) (lg : LinkGraph)
    (h : lg.HeaderWF v) :
    { graphAfterHeader v env lg (VarType.reread .U16 .U16 lg.index) with
      nodes := lg.nodes, edges := lg.edges } = lg := by
  obtain ⟨h1, h2, h3⟩ := h
  have hlc : (VarType.I64).inRange lg.last_compression := by
    unfold lastCompressionFile at h1
    split_ifs at h1 <;>
      simp only [VarType.inRange, VarType.signed, VarType.size, if_true, Nat.reduceMul,
        Nat.reduceSub] at h1 ⊢ <;> omega
  cases lg with
  | mk index lc cargo nodes edges =>
    simp only [graphAfterHeader, VarType.reread_of_inRange _ _ _ h1 hlc,
      VarType.reread_of_inRange _ _ _ h2 h2, VarType.reread_of_inRange _ _ _ h3 h3]

/-- C7: the bytes `DoSave_LGRJ` writes are the record of the job's own variables (settings
copy, join tick, start tick when the day scale feature is present, link graph index)
followed by exactly the bytes `DoSave_LGRP` writes for the job's graph, which are the
header (`last_compression`, node count = size of that graph, `cargo`) and then
`Save_LinkGraph`. A round of `Load_LGRJ` on these bytes reads them in that order: first
the job's variables, which get the written values and leave exactly the bytes of
`DoSave_LGRP`; then the header, after which the job's graph is initialised with the node
count of the header; then `Load_LinkGraph` on exactly the bytes of `Save_LinkGraph`, as
a round of `Load_LGRP` does on the bytes of `DoSave_LGRP`. When every node and edge
variable is saved and the graph is well-formed the round ends with the saved graph in
the job and nothing but `rest` unread. -/
theorem C7_job_record_is_graph_record (v : SlVersions) (env : Env) (lgj : LinkGraphJob)
    (_num_nodes : Int) (rest : List Byte)
    (hver : v.sl_version < SL_MAX_VERSION) (hds : v.xv .XSLFI_LINKGRAPH_DAY_SCALE ≤ 0xFFFF) :
    DoSave_LGRJ v (FilterDescs v env) lgj =
        jobRecordBytes v env lgj ++ DoSave_LGRP v (FilterDescs v env) lgj.link_graph ∧
    DoSave_LGRP v (FilterDescs v env) lgj.link_graph =
        (if v.xv .XSLFI_LINKGRAPH_DAY_SCALE ≤ 3 then
            SlWriteBytes 4 (lgj.link_graph.last_compression % 2 ^ 32).toNat
          else SlWriteBytes 8 (lgj.link_graph.last_compression % 2 ^ 64).toNat)
          ++ SlWriteUint16 lgj.link_graph.Size
          ++ SlWriteBytes 1 (lgj.link_graph.cargo % 2 ^ 8).toNat
          ++ Save_LinkGraph (FilterDescs v env)._filtered_node_desc
              (FilterDescs v env)._filtered_edge_desc lgj.link_graph ∧
    SlObjectLoadFiltered LinkGraphJob.access env.newLinkGraphJob
        (FilterDescs v env)._filtered_job_desc (DoSave_LGRJ v (FilterDescs v env) lgj ++ rest) =
      .ok (jobRecordRead v env lgj) (DoSave_LGRP v (FilterDescs v env) lgj.link_graph ++ rest) ∧
    Load_LGRJ.round v env _num_nodes (DoSave_LGRJ v (FilterDescs v env) lgj ++ rest) =
      afterLoad_LinkGraph
        (fun lg size =>
          (⟨{ jobAfterDayLengthScale v env (jobRecordRead v env lgj) with link_graph := lg },
            size⟩ : LGRJState))
        lgj.link_graph.Size
        (Load_LinkGraph v (FilterDescs v env)._filtered_node_desc
          (FilterDescs v env)._filtered_edge_desc env.edge_init
          (graphAfterHeader v env lgj.link_graph (VarType.reread .U16 .U16 lgj.link_graph.index))
          (Save_LinkGraph (FilterDescs v env)._filtered_node_desc
            (FilterDescs v env)._filtered_edge_desc lgj.link_graph ++ rest)) ∧
    (∀ index, Load_LGRP.round v env index _num_nodes
        (DoSave_LGRP v (FilterDescs v env) lgj.link_graph ++ rest) =
      afterLoad_LinkGraph LGRPState.mk lgj.link_graph.Size
        (Load_LinkGraph v (FilterDescs v env)._filtered_node_desc
          (FilterDescs v env)._filtered_edge_desc env.edge_init
          (graphAfterHeader v env lgj.link_graph index)
          (Save_LinkGraph (FilterDescs v env)._filtered_node_desc
            (FilterDescs v env)._filtered_edge_desc lgj.link_graph ++ rest))) ∧
    (v.savesAllMembers → lgj.link_graph.WF → lgj.link_graph.HeaderWF v →
      (∀ ke ∈ lgj.link_graph.edges,
        ke.1.1 < lgj.link_graph.Size ∧ ke.1.2 < lgj.link_graph.Size) →
      Load_LGRJ.round v env _num_nodes (DoSave_LGRJ v (FilterDescs v env) lgj ++ rest) =
        .ok ⟨{ jobAfterDayLengthScale v env (jobRecordRead v env lgj) with
              link_graph := lgj.link_graph }, lgj.link_graph.Size⟩ rest) := by
  have hlayout : DoSave_LGRJ v (FilterDescs v env) lgj =
      jobRecordBytes v env lgj ++ DoSave_LGRP v (FilterDescs v env) lgj.link_graph := by
    rw [← jobRecordBytes_eq v env lgj hver hds]
    simp only [DoSave_LGRJ, DoSave_LGRP, LinkGraphJob.Size, List.append_assoc]
  have hjob : SlObjectLoadFiltered LinkGraphJob.access env.newLinkGraphJob
        (FilterDescs v env)._filtered_job_desc (DoSave_LGRJ v (FilterDescs v env) lgj ++ rest) =
      .ok (jobRecordRead v env lgj)
        (DoSave_LGRP v (FilterDescs v env) lgj.link_graph ++ rest) := by
    rw [hlayout, ← jobRecordBytes_eq v env lgj hver hds, List.append_assoc,
      SlObjectLoadFiltered_SlObjectSaveFiltered, jobRecordRead_eq v env lgj hver hds]
  have hgraph : (jobAfterDayLengthScale v env (jobRecordRead v env lgj)).link_graph =
      { env.newLinkGraph env.index_init with
        index := VarType.reread .U16 .U16 lgj.link_graph.index } := by
    unfold jobAfterDayLengthScale
    split_ifs <;> rfl
  have hround : Load_LGRJ.round v env _num_nodes
        (DoSave_LGRJ v (FilterDescs v env) lgj ++ rest) =
      afterLoad_LinkGraph
        (fun lg size =>
          (⟨{ jobAfterDayLengthScale v env (jobRecordRead v env lgj) with link_graph := lg },
            size⟩ : LGRJState))
        lgj.link_graph.Size
        (Load_LinkGraph v (FilterDescs v env)._filtered_node_desc
          (FilterDescs v env)._filtered_edge_desc env.edge_init
          (graphAfterHeader v env lgj.link_graph (VarType.reread .U16 .U16 lgj.link_graph.index))
          (Save_LinkGraph (FilterDescs v env)._filtered_node_desc
            (FilterDescs v env)._filtered_edge_desc lgj.link_graph ++ rest)) := by
    have hhdr := SlObjectLoad_header v env lgj.link_graph
      (jobAfterDayLengthScale v env (jobRecordRead v env lgj)).link_graph _num_nodes rest hver hds
    unfold Load_LGRJ.round
    simp only [hjob]
    change (match SlObjectLoad v LGRPState.access
        ⟨(jobAfterDayLengthScale v env (jobRecordRead v env lgj)).link_graph, _num_nodes⟩
        GetLinkGraphDesc (DoSave_LGRP v (FilterDescs v env) lgj.link_graph ++ rest) with
      | .abort why st1 => SlResult.abort why
          (⟨{ jobAfterDayLengthScale v env (jobRecordRead v env lgj) with link_graph := st1.lg },
            st1._num_nodes⟩ : LGRJState)
      | .ok st1 r1 =>
        match Load_LinkGraph v (FilterDescs v env)._filtered_node_desc
            (FilterDescs v env)._filtered_edge_desc env.edge_init
            (st1.lg.Init env.node_init st1._num_nodes.toNat) r1 with
        | .ok lg2 r2 => SlResult.ok
            ⟨{ jobAfterDayLengthScale v env (jobRecordRead v env lgj) with link_graph := lg2 },
              st1._num_nodes⟩ r2
        | .abort why lg2 => SlResult.abort why
            ⟨{ jobAfterDayLengthScale v env (jobRecordRead v env lgj) with link_graph := lg2 },
              st1._num_nodes⟩) = _
    rw [hhdr, hgraph]
    simp only [Int.toNat_ofNat, LinkGraph.Init, graphAfterHeader, Env.newLinkGraph]
    cases Load_LinkGraph v (FilterDescs v env)._filtered_node_desc
      (FilterDescs v env)._filtered_edge_desc env.edge_init _ _ <;> rfl
  refine ⟨hlayout, DoSave_LGRP_header v _ _ hver hds, hjob, hround, ?_, ?_⟩
  · intro index
    exact Load_LGRP.item_DoSave_LGRP v env lgj.link_graph (env.newLinkGraph index) _num_nodes
      rest hver hds rfl
  · intro hv hwf hhdr hkeys
    rw [hround, Load_LinkGraph_after_header v env _ _ rest hv hwf hkeys,
      graphAfterHeader_of_HeaderWF v env _ hhdr]
    rfl

theorem C7_job_record_is_graph_record_witness :
    (sampleVersions.sl_version < SL_MAX_VERSION ∧
      sampleVersions.xv .XSLFI_LINKGRAPH_DAY_SCALE ≤ 0xFFFF) ∧
    (jobRecordBytes sampleVersions sampleEnv sampleJob =
        [0, 16, 0, 4, 0, 11, 74, 181, 0, 11, 72, 101, 0, 3] ∧
      (Load_LGRJ.round sampleVersions sampleEnv 0
          (DoSave_LGRJ sampleVersions (FilterDescs sampleVersions sampleEnv) sampleJob ++ [7])).rest
        = some [7] ∧
      (Load_LGRJ.round sampleVersions sampleEnv 0
          (DoSave_LGRJ sampleVersions (FilterDescs sampleVersions sampleEnv) sampleJob
            ++ [7])).obj.lgj.link_graph = sampleGraph ∧
      (Load_LGRJ.round sampleVersions sampleEnv 0
          (DoSave_LGRJ sampleVersions (FilterDescs sampleVersions sampleEnv) sampleJob
            ++ [7])).obj.lgj.join_date_ticks = 740021 ∧
      (Load_LGRJ.round sampleVersions sampleEnv 0
          (DoSave_LGRJ sampleVersions (FilterDescs sampleVersions sampleEnv) sampleJob
            ++ [7])).obj.lgj.start_date_ticks = 739429 ∧
      (Load_LGRJ.round sampleVersions sampleEnv 0
          (DoSave_LGRJ sampleVersions (FilterDescs sampleVersions sampleEnv) sampleJob
            ++ [7])).obj.lgj.settings.recalc_time = 16 ∧
      (Load_LGRJ.round sampleVersions sampleEnv 0
          (DoSave_LGRJ sampleVersions (FilterDescs sampleVersions sampleEnv) sampleJob
            ++ [7])).obj._num_nodes = 2) ∧
    (sampleVersions.savesAllMembers ∧ sampleJob.link_graph.WF ∧
      sampleJob.link_graph.HeaderWF sampleVersions ∧
      ∀ ke ∈ sampleJob.link_graph.edges,
        ke.1.1 < sampleJob.link_graph.Size ∧ ke.1.2 < sampleJob.link_graph.Size) ∧
    Load_LGRJ.round sampleVersions sampleEnv 0
        (DoSave_LGRJ sampleVersions (FilterDescs sampleVersions sampleEnv) sampleJob ++ [7]) =
      .ok ⟨{ jobAfterDayLengthScale sampleVersions sampleEnv
              (jobRecordRead sampleVersions sampleEnv sampleJob) with
            link_graph := sampleJob.link_graph }, sampleJob.link_graph.Size⟩ [7] :=
  ⟨⟨by decide, by decide⟩, by decide, by decide,
    (C7_job_record_is_graph_record sampleVersions sampleEnv sampleJob 0 [7] (by decide)
      (by decide)).2.2.2.2.2 (by decide) (by decide) (by decide) (by decide)⟩

/-! ## C5: the legacy dense format -/

theorem C1_Save_Load_LinkGraph_roundtrip_witness :
    (sampleVersions.savesAllMembers ∧ sampleGraph.WF ∧
      (∀ ke ∈ sampleGraph.edges, ke.1.1 < sampleGraph.Size ∧ ke.1.2 < sampleGraph.Size) ∧
      sampleEmptyGraph.nodes.length = sampleGraph.nodes.length ∧ sampleEmptyGraph.edges = []) ∧
    Load_LinkGraph sampleVersions (SlFilterObject sampleVersions _node_desc)
        (SlFilterObject sampleVersions _edge_desc) default sampleEmptyGraph
        (Save_LinkGraph (SlFilterObject sampleVersions _node_desc)
          (SlFilterObject sampleVersions _edge_desc) sampleGraph ++ [])
      = .ok { sampleEmptyGraph with nodes := sampleGraph.nodes, edges := sampleGraph.edges } [] :=
  ⟨by decide,
    C1_Save_Load_LinkGraph_roundtrip sampleVersions default sampleGraph sampleEmptyGraph []
      (by decide) (by decide) (by decide) (by decide) (by decide)⟩

theorem C2_Save_LinkGraph_layout_witness :
    (sampleGraph.edges.Ordered ∧ ∀ ke ∈ sampleGraph.edges, ke.1.1 < sampleGraph.Size) ∧
    Save_LinkGraph _node_desc _edge_desc.tail sampleGraph =
      sparseLayout _node_desc _edge_desc.tail sampleGraph ∧
    (∀ f, (sampleGraph.edges.row f).Pairwise (fun a b => a.1 < b.1)) ∧
    (List.range sampleGraph.Size).length = sampleGraph.Size ∧
    (List.range sampleGraph.Size).flatMap
        (fun f => (sampleGraph.edges.row f).map (fun te => ((f, te.1), te.2)))
      = sampleGraph.edges ∧
    ((List.range sampleGraph.Size).map (fun f => (sampleGraph.edges.row f).length)).sum
      = sampleGraph.edges.length :=
  ⟨by decide,
    C2_Save_LinkGraph_layout _node_desc _edge_desc.tail sampleGraph (by decide) (by decide)⟩

/-! ## C4: the linked-list format -/

theorem SlObjectLoadFiltered_length {α F : Type} (acc : SlAccess α F) (desc : List (SaveLoad F))
    (obj : α) (s : List Byte) :
    (recordBytes desc ≤ s.length →
        ∃ o, SlObjectLoadFiltered acc obj desc s = .ok o (s.drop (recordBytes desc))) ∧
      (s.length < recordBytes desc →
        ∃ o, SlObjectLoadFiltered acc obj desc s = .abort SlErrorEndOfChunk o) := by
  induction desc generalizing obj s with
  | nil => simp [recordBytes, SlObjectLoadFiltered]
  | cons sld desc ih =>
    have hrb : recordBytes (sld :: desc) = sld.fileBytes + recordBytes desc := by
      simp [recordBytes]
    rw [hrb]
    cases ha : sld.address with
    | none =>
      have hfb : sld.fileBytes = sld.length := by simp [SaveLoad.fileBytes, ha]
      rw [hfb]
      constructor
      · intro hle
        have h1 : sld.length ≤ s.length := by omega
        obtain ⟨o, ho⟩ := (ih obj (s.drop sld.length)).1 (by simp; omega)
        refine ⟨o, ?_⟩
        rw [SlObjectLoadFiltered]
        simp only [ha, h1, if_true, ho, List.drop_drop]
      · intro hlt
        rw [SlObjectLoadFiltered]
        simp only [ha]
        by_cases h1 : sld.length ≤ s.length
        · obtain ⟨o, ho⟩ := (ih obj (s.drop sld.length)).2 (by simp; omega)
          exact ⟨o, by simp only [h1, if_true, ho]⟩
        · exact ⟨obj, by simp only [h1, if_false]⟩
    | some f =>
      have hfb : sld.fileBytes = sld.file.size := by simp [SaveLoad.fileBytes, ha]
      rw [hfb]
      constructor
      · intro hle
        obtain ⟨n, hn⟩ := SlReadBytes_of_le sld.file.size s (by omega)
        obtain ⟨o, ho⟩ := (ih (acc.set obj f (sld.mem.wrap (sld.file.decode n)))
          (s.drop sld.file.size)).1 (by simp; omega)
        refine ⟨o, ?_⟩
        rw [SlObjectLoadFiltered]
        simp only [ha, hn, ho, List.drop_drop]
      · intro hlt
        rw [SlObjectLoadFiltered]
        simp only [ha]
        by_cases h1 : sld.file.size ≤ s.length
        · obtain ⟨n, hn⟩ := SlReadBytes_of_le sld.file.size s h1
          obtain ⟨o, ho⟩ := (ih (acc.set obj f (sld.mem.wrap (sld.file.decode n)))
            (s.drop sld.file.size)).2 (by simp; omega)
          exact ⟨o, by simp only [hn, ho]⟩
        · exact ⟨obj, by simp only [SlReadBytes_of_lt _ _ (Nat.lt_of_not_le h1)]⟩

theorem SlReadUint16_eq_some (s r : List Byte) (v : Nat) (h : SlReadUint16 s = some (v, r)) :
    v < 65536 ∧ s = SlWriteUint16 v ++ r := by
  unfold SlReadUint16 at h
  match s, h with
  | b1 :: b2 :: s', h =>
    simp only [SlReadBytes, Option.some.injEq, Prod.mk.injEq] at h
    obtain ⟨hv, hr⟩ := h
    subst hr
    have h1 := b1.isLt
    have h2 := b2.isLt
    refine ⟨by omega, ?_⟩
    simp only [SlWriteUint16, SlWriteBytes, List.cons_append, List.nil_append, List.cons.injEq,
      and_true]
    constructor
    · apply Fin.ext
      simp only
      omega
    · apply Fin.ext
      simp only
      omega
  | [b1], h => simp [SlReadBytes] at h
  | [], h => simp [SlReadBytes] at h

theorem SlErrorEndOfChunk_ne_overflow :
    SlErrorEndOfChunk ≠ .SlErrorCorrupt "Link graph structure overflow" := by
  decide

theorem Load_LinkGraph.loadNode_cases (nd : List (SaveLoad NodeField)) (from_ : Nat)
    (lg : LinkGraph) (s : List Byte) :
    (recordBytes nd ≤ s.length ∧ ∃ node,
        Load_LinkGraph.loadNode nd from_ lg s = .ok (lg.setNode from_ node) (s.drop (recordBytes nd)))
      ∨ (s.length < recordBytes nd ∧ ∃ node,
        Load_LinkGraph.loadNode nd from_ lg s = .abort SlErrorEndOfChunk (lg.setNode from_ node)) := by
  unfold Load_LinkGraph.loadNode
  by_cases h : recordBytes nd ≤ s.length
  · obtain ⟨o, ho⟩ := (SlObjectLoadFiltered_length Node.access nd
      (lg.nodes.getD from_ default) s).1 h
    exact Or.inl ⟨h, o, by rw [ho]⟩
  · obtain ⟨o, ho⟩ := (SlObjectLoadFiltered_length Node.access nd
      (lg.nodes.getD from_ default) s).2 (by omega)
    exact Or.inr ⟨by omega, o, by rw [ho]⟩

theorem Load_LinkGraph.loadEdge_cases (ed : List (SaveLoad EdgeField)) (einit : Edge)
    (k : EdgeKey) (lg : LinkGraph) (s : List Byte) :
    (recordBytes ed ≤ s.length ∧ ∃ e,
        Load_LinkGraph.loadEdge ed einit k lg s = .ok (lg.setEdge k e) (s.drop (recordBytes ed)))
      ∨ (s.length < recordBytes ed ∧ ∃ e,
        Load_LinkGraph.loadEdge ed einit k lg s = .abort SlErrorEndOfChunk (lg.setEdge k e)) := by
  unfold Load_LinkGraph.loadEdge
  by_cases h : recordBytes ed ≤ s.length
  · obtain ⟨o, ho⟩ := (SlObjectLoadFiltered_length Edge.access ed (lg.edgeAt einit k) s).1 h
    exact Or.inl ⟨h, o, by rw [ho]⟩
  · obtain ⟨o, ho⟩ := (SlObjectLoadFiltered_length Edge.access ed (lg.edgeAt einit k) s).2
      (by omega)
    exact Or.inr ⟨by omega, o, by rw [ho]⟩

/-- The bytes of the chain part of a row. -/
theorem chainBytes_length_le (chain : List (Nat × List Byte)) :
    chain.length ≤ (chain.flatMap (fun p => SlWriteUint16 p.1 ++ p.2)).length := by
  induction chain with
  | nil => simp
  | cons p chain ih =>
    simp only [List.flatMap_cons, List.length_append, List.length_cons, SlWriteUint16,
      SlWriteBytes_length] at ih ⊢
    omega

theorem Load_LinkGraph.listEdges_shape (ed : List (SaveLoad EdgeField)) (einit : Edge)
    (size from_ : Nat) (hsize : size ≤ 0xFFFF) (fuel to_ : Nat) (lg : LinkGraph) (s : List Byte)
    (hto : to_ < size) :
    (∀ lg' s', Load_LinkGraph.listEdges ed einit size from_ fuel to_ lg s = .ok lg' s' →
        ∃ (first : List Byte) (chain : List (Nat × List Byte)),
          first.length = recordBytes ed ∧
          (∀ p ∈ chain, p.1 < size ∧ p.2.length = recordBytes ed) ∧
          s = first ++ chain.flatMap (fun p => SlWriteUint16 p.1 ++ p.2)
            ++ SlWriteUint16 0xFFFF ++ s') ∧
      (∀ lg', Load_LinkGraph.listEdges ed einit size from_ fuel to_ lg s
          = .abort (.SlErrorCorrupt "Link graph structure overflow") lg' →
        ∃ (first : List Byte) (chain : List (Nat × List Byte)) (v : Nat) (rest : List Byte),
          first.length = recordBytes ed ∧
          (∀ p ∈ chain, p.1 < size ∧ p.2.length = recordBytes ed) ∧ size ≤ v ∧ v < 0xFFFF ∧
          s = first ++ chain.flatMap (fun p => SlWriteUint16 p.1 ++ p.2)
            ++ SlWriteUint16 v ++ rest) := by
  induction fuel generalizing to_ lg s with
  | zero =>
    constructor
    · intro lg' s' h
      simp [Load_LinkGraph.listEdges] at h
    · intro lg' h
      simp [Load_LinkGraph.listEdges] at h
  | succ fuel ih =>
    have hne : to_ ≠ INVALID_NODE := by simp only [INVALID_NODE]; omega
    have hlt : ¬ size ≤ to_ := by omega
    rw [Load_LinkGraph.listEdges]
    simp only [hne, hlt, if_false]
    rcases Load_LinkGraph.loadEdge_cases ed einit (from_, to_) lg s with
      ⟨hlen, e, he⟩ | ⟨hlen, e, he⟩
    · rw [he]
      simp only []
      have hs : s = s.take (recordBytes ed) ++ s.drop (recordBytes ed) :=
        (List.take_append_drop _ _).symm
      have htake : (s.take (recordBytes ed)).length = recordBytes ed := by
        simp; omega
      cases hr : SlReadUint16 (s.drop (recordBytes ed)) with
      | none =>
        simp only []
        constructor
        · intro lg' s' h; cases h
        · intro lg' h
          simp only [SlResult.abort.injEq] at h
          exact absurd h.1 SlErrorEndOfChunk_ne_overflow
      | some p =>
        obtain ⟨nx, r1⟩ := p
        obtain ⟨hnx, hdrop⟩ := SlReadUint16_eq_some _ _ _ hr
        simp only []
        by_cases hnxlt : nx < size
        · obtain ⟨ih1, ih2⟩ := ih nx (lg.setEdge (from_, to_) e) r1 hnxlt
          constructor
          · intro lg' s' h
            obtain ⟨first, chain, hf, hc, hs'⟩ := ih1 lg' s' h
            refine ⟨s.take (recordBytes ed), (nx, first) :: chain, htake, ?_, ?_⟩
            · intro p hp
              rcases List.mem_cons.mp hp with rfl | hp
              · exact ⟨hnxlt, hf⟩
              · exact hc p hp
            · conv_lhs => rw [hs, hdrop, hs']
              simp only [List.flatMap_cons, List.append_assoc]
          · intro lg' h
            obtain ⟨first, chain, v, rest, hf, hc, hv1, hv2, hs'⟩ := ih2 lg' h
            refine ⟨s.take (recordBytes ed), (nx, first) :: chain, v, rest, htake, ?_, hv1, hv2, ?_⟩
            · intro p hp
              rcases List.mem_cons.mp hp with rfl | hp
              · exact ⟨hnxlt, hf⟩
              · exact hc p hp
            · conv_lhs => rw [hs, hdrop, hs']
              simp only [List.flatMap_cons, List.append_assoc]
        · cases fuel with
          | zero =>
            constructor
            · intro lg' s' h
              simp [Load_LinkGraph.listEdges] at h
            · intro lg' h
              simp [Load_LinkGraph.listEdges] at h
          | succ fuel =>
            rw [Load_LinkGraph.listEdges]
            by_cases hinv : nx = INVALID_NODE
            · simp only [hinv, if_true]
              constructor
              · intro lg' s' h
                simp only [SlResult.ok.injEq] at h
                obtain ⟨-, rfl⟩ := h
                refine ⟨s.take (recordBytes ed), [], htake, by simp, ?_⟩
                conv_lhs => rw [hs, hdrop, hinv]
                simp [INVALID_NODE]
              · intro lg' h; cases h
            · have hge : size ≤ nx := by omega
              simp only [hinv, hge, if_true, if_false]
              constructor
              · intro lg' s' h; cases h
              · intro lg' _
                refine ⟨s.take (recordBytes ed), [], nx, r1, htake, by simp, hge, ?_, ?_⟩
                · simp only [INVALID_NODE] at hinv
                  omega
                · conv_lhs => rw [hs, hdrop]
                  simp
    · rw [he]
      simp only []
      constructor
      · intro lg' s' h; cases h
      · intro lg' h
        simp only [SlResult.abort.injEq] at h
        exact absurd h.1 SlErrorEndOfChunk_ne_overflow

theorem Load_LinkGraph.listEdges_run (ed : List (SaveLoad EdgeField)) (einit : Edge)
    (size from_ : Nat) (hsize : size ≤ 0xFFFF) (chain : List (Nat × List Byte))
    (first : List Byte) (to_ : Nat) (lg : LinkGraph) (fuel : Nat) (rest : List Byte)
    (hto : to_ < size) (hfirst : first.length = recordBytes ed)
    (hchain : ∀ p ∈ chain, p.1 < size ∧ p.2.length = recordBytes ed)
    (hfuel : chain.length + 2 ≤ fuel) :
    (∃ lg', Load_LinkGraph.listEdges ed einit size from_ fuel to_ lg
        (first ++ chain.flatMap (fun p => SlWriteUint16 p.1 ++ p.2)
          ++ SlWriteUint16 0xFFFF ++ rest) = .ok lg' rest) ∧
      (∀ v, size ≤ v → v < 0xFFFF →
        ∃ lg', Load_LinkGraph.listEdges ed einit size from_ fuel to_ lg
          (first ++ chain.flatMap (fun p => SlWriteUint16 p.1 ++ p.2)
            ++ SlWriteUint16 v ++ rest)
          = .abort (.SlErrorCorrupt "Link graph structure overflow") lg') := by
  induction chain generalizing first to_ lg fuel with
  | nil =>
    obtain ⟨fuel, rfl⟩ : ∃ f, fuel = f + 2 := ⟨fuel - 2, by simp at hfuel; omega⟩
    have hne : to_ ≠ INVALID_NODE := by simp only [INVALID_NODE]; omega
    have hlt : ¬ size ≤ to_ := by omega
    have hstep : ∀ (w : Nat), w < 65536 →
        Load_LinkGraph.listEdges ed einit size from_ (fuel + 2) to_ lg
            (first ++ [].flatMap (fun p : Nat × List Byte => SlWriteUint16 p.1 ++ p.2)
              ++ SlWriteUint16 w ++ rest)
          = Load_LinkGraph.listEdges ed einit size from_ (fuel + 1) w
              (Load_LinkGraph.loadEdge ed einit (from_, to_) lg
                (first ++ (SlWriteUint16 w ++ rest))).obj rest := by
      intro w hw
      rw [Load_LinkGraph.listEdges]
      simp only [hne, hlt, if_false, List.flatMap_nil, List.append_nil, List.append_assoc]
      rcases Load_LinkGraph.loadEdge_cases ed einit (from_, to_) lg
          (first ++ (SlWriteUint16 w ++ rest)) with ⟨_, e, he⟩ | ⟨hlen, _⟩
      · rw [he]
        simp only [SlResult.obj]
        rw [← hfirst, List.drop_left, SlReadUint16_SlWriteUint16 _ _ hw]
      · simp at hlen
        omega
    constructor
    · rw [hstep 0xFFFF (by decide), Load_LinkGraph.listEdges]
      simp only [INVALID_NODE, if_true]
      exact ⟨_, rfl⟩
    · intro v hv1 hv2
      rw [hstep v (by omega), Load_LinkGraph.listEdges]
      have hne' : v ≠ INVALID_NODE := by simp only [INVALID_NODE]; omega
      simp only [hne', hv1, if_true, if_false]
      exact ⟨_, rfl⟩
  | cons p chain ih =>
    obtain ⟨fuel, rfl⟩ : ∃ f, fuel = f + 1 := ⟨fuel - 1, by simp at hfuel; omega⟩
    have hne : to_ ≠ INVALID_NODE := by simp only [INVALID_NODE]; omega
    have hlt : ¬ size ≤ to_ := by omega
    obtain ⟨hp1, hp2⟩ := hchain p (List.mem_cons_self _ _)
    have hstep : ∀ (tail : List Byte),
        Load_LinkGraph.listEdges ed einit size from_ (fuel + 1) to_ lg
            (first ++ (p :: chain).flatMap (fun p : Nat × List Byte => SlWriteUint16 p.1 ++ p.2)
              ++ tail ++ rest)
          = Load_LinkGraph.listEdges ed einit size from_ fuel p.1
              (Load_LinkGraph.loadEdge ed einit (from_, to_) lg
                (first ++ (SlWriteUint16 p.1 ++ (p.2 ++ (chain.flatMap
                  (fun p : Nat × List Byte => SlWriteUint16 p.1 ++ p.2) ++ (tail ++ rest)))))).obj
              (p.2 ++ chain.flatMap (fun p : Nat × List Byte => SlWriteUint16 p.1 ++ p.2)
                ++ tail ++ rest) := by
      intro tail
      rw [Load_LinkGraph.listEdges]
      simp only [hne, hlt, if_false, List.flatMap_cons, List.append_assoc]
      rcases Load_LinkGraph.loadEdge_cases ed einit (from_, to_) lg
          (first ++ (SlWriteUint16 p.1 ++ (p.2 ++ (chain.flatMap
            (fun p : Nat × List Byte => SlWriteUint16 p.1 ++ p.2) ++ (tail ++ rest)))))
        with ⟨_, e, he⟩ | ⟨hlen, _⟩
      · rw [he]
        simp only [SlResult.obj]
        rw [← hfirst, List.drop_left, SlReadUint16_SlWriteUint16 _ _ (by omega)]
      · simp at hlen
        omega
    have hrec := fun lg1 => ih p.2 p.1 lg1 fuel hp1 hp2
      (fun q hq => hchain q (List.mem_cons_of_mem _ hq)) (by simp at hfuel; omega)
    constructor
    · rw [hstep]
      exact (hrec _).1
    · intro v hv1 hv2
      rw [hstep]
      exact (hrec _).2 v hv1 hv2

theorem Load_LinkGraph.listRows_shape (nd : List (SaveLoad NodeField))
    (ed : List (SaveLoad EdgeField)) (einit : Edge) (size : Nat) (hsize : size ≤ 0xFFFF)
    (n from_ : Nat) (lg : LinkGraph) (s : List Byte) (lg' : LinkGraph) (hfn : from_ + n = size)
    (h : Load_LinkGraph.forNodes (Load_LinkGraph.listRow nd ed einit size) n from_ lg s
      = .abort (.SlErrorCorrupt "Link graph structure overflow") lg') :
    ∃ (rows : List ListRow) (row : ListRow) (v : Nat) (rest : List Byte),
      rows.length < n ∧ (∀ r ∈ rows, r.Valid size (recordBytes nd) (recordBytes ed)) ∧
      row.Valid size (recordBytes nd) (recordBytes ed) ∧ size ≤ v ∧ v < 0xFFFF ∧
      s = rows.flatMap (fun r => r.bytes ++ SlWriteUint16 0xFFFF)
        ++ row.bytes ++ SlWriteUint16 v ++ rest := by
  induction n generalizing from_ lg s with
  | zero => simp [Load_LinkGraph.forNodes] at h
  | succ n ih =>
    rw [Load_LinkGraph.forNodes, Load_LinkGraph.listRow] at h
    have hs : s = s.take (recordBytes nd) ++ s.drop (recordBytes nd) :=
      (List.take_append_drop _ _).symm
    rcases Load_LinkGraph.loadNode_cases nd from_ lg s with ⟨hlen, node, hn⟩ | ⟨hlen, node, hn⟩
    · have htake : (s.take (recordBytes nd)).length = recordBytes nd := by simp; omega
      rw [hn] at h
      simp only [] at h
      obtain ⟨sh1, sh2⟩ := Load_LinkGraph.listEdges_shape ed einit size from_ hsize
        ((s.drop (recordBytes nd)).length + 2) from_ (lg.setNode from_ node)
        (s.drop (recordBytes nd)) (by omega)
      cases hres : Load_LinkGraph.listEdges ed einit size from_
          ((s.drop (recordBytes nd)).length + 2) from_ (lg.setNode from_ node)
          (s.drop (recordBytes nd)) with
      | ok lg2 r2 =>
        rw [hres] at h
        simp only [] at h
        obtain ⟨first, chain, hf, hc, hdrop⟩ := sh1 lg2 r2 hres
        obtain ⟨rows, row, v, rest, hrl, hrv, hrow, hv1, hv2, hr2⟩ :=
          ih (from_ + 1) lg2 r2 (by omega) h
        refine ⟨⟨s.take (recordBytes nd), first, chain⟩ :: rows, row, v, rest,
          by simp; omega, ?_, hrow, hv1, hv2, ?_⟩
        · intro r hr
          rcases List.mem_cons.mp hr with rfl | hr
          · exact ⟨htake, hf, hc⟩
          · exact hrv r hr
        · conv_lhs => rw [hs, hdrop, hr2]
          simp only [List.flatMap_cons, ListRow.bytes, List.append_assoc]
      | abort why lg2 =>
        rw [hres] at h
        simp only [SlResult.abort.injEq] at h
        obtain ⟨hwhy, -⟩ := h
        subst hwhy
        obtain ⟨first, chain, v, rest, hf, hc, hv1, hv2, hdrop⟩ := sh2 lg2 hres
        refine ⟨[], ⟨s.take (recordBytes nd), first, chain⟩, v, rest, by simp,
          by simp, ⟨htake, hf, hc⟩, hv1, hv2, ?_⟩
        conv_lhs => rw [hs, hdrop]
        simp only [List.flatMap_nil, ListRow.bytes, List.append_assoc, List.nil_append]
    · rw [hn] at h
      simp only [SlResult.abort.injEq] at h
      exact absurd h.1 SlErrorEndOfChunk_ne_overflow

theorem Load_LinkGraph.listRow_run (nd : List (SaveLoad NodeField))
    (ed : List (SaveLoad EdgeField)) (einit : Edge) (size : Nat) (hsize : size ≤ 0xFFFF)
    (row : ListRow) (from_ : Nat) (lg : LinkGraph) (rest : List Byte) (hfrom : from_ < size)
    (hrow : row.Valid size (recordBytes nd) (recordBytes ed)) :
    (∃ lg', Load_LinkGraph.listRow nd ed einit size from_ lg
        (row.bytes ++ SlWriteUint16 0xFFFF ++ rest) = .ok lg' rest) ∧
      (∀ v, size ≤ v → v < 0xFFFF →
        ∃ lg', Load_LinkGraph.listRow nd ed einit size from_ lg
            (row.bytes ++ SlWriteUint16 v ++ rest)
          = .abort (.SlErrorCorrupt "Link graph structure overflow") lg') := by
  obtain ⟨hnode, hfirst, hchain⟩ := hrow
  have key : ∀ w : Nat,
      Load_LinkGraph.listRow nd ed einit size from_ lg (row.bytes ++ SlWriteUint16 w ++ rest) =
        Load_LinkGraph.listEdges ed einit size from_
          ((row.first ++ row.chain.flatMap (fun p => SlWriteUint16 p.1 ++ p.2)
            ++ SlWriteUint16 w ++ rest).length + 2) from_
          (Load_LinkGraph.loadNode nd from_ lg (row.bytes ++ SlWriteUint16 w ++ rest)).obj
          (row.first ++ row.chain.flatMap (fun p => SlWriteUint16 p.1 ++ p.2)
            ++ SlWriteUint16 w ++ rest) := by
    intro w
    rw [Load_LinkGraph.listRow]
    rcases Load_LinkGraph.loadNode_cases nd from_ lg (row.bytes ++ SlWriteUint16 w ++ rest)
      with ⟨_, node, hn⟩ | ⟨hlen, _⟩
    · rw [hn]
      simp only [SlResult.obj]
      have : (row.bytes ++ SlWriteUint16 w ++ rest).drop (recordBytes nd) =
          row.first ++ row.chain.flatMap (fun p => SlWriteUint16 p.1 ++ p.2)
            ++ SlWriteUint16 w ++ rest := by
        simp only [ListRow.bytes, List.append_assoc]
        rw [← hnode, List.drop_left]
      rw [this]
    · simp only [ListRow.bytes, List.length_append] at hlen
      omega
  have hfuel : ∀ w : Nat, row.chain.length + 2 ≤
      (row.first ++ row.chain.flatMap (fun p => SlWriteUint16 p.1 ++ p.2)
        ++ SlWriteUint16 w ++ rest).length + 2 := by
    intro w
    have := chainBytes_length_le row.chain
    simp only [List.length_append]
    omega
  constructor
  · rw [key]
    exact (Load_LinkGraph.listEdges_run ed einit size from_ hsize row.chain row.first from_ _ _
      rest hfrom hfirst hchain (hfuel _)).1
  · intro v hv1 hv2
    rw [key]
    exact (Load_LinkGraph.listEdges_run ed einit size from_ hsize row.chain row.first from_ _ _
      rest hfrom hfirst hchain (hfuel _)).2 v hv1 hv2

theorem Load_LinkGraph.listRows_run (nd : List (SaveLoad NodeField))
    (ed : List (SaveLoad EdgeField)) (einit : Edge) (size : Nat) (hsize : size ≤ 0xFFFF)
    (rows : List ListRow) (row : ListRow) (v : Nat) (rest : List Byte) (n from_ : Nat)
    (lg : LinkGraph) (hfn : from_ + n = size) (hlen : rows.length < n)
    (hrows : ∀ r ∈ rows, r.Valid size (recordBytes nd) (recordBytes ed))
    (hrow : row.Valid size (recordBytes nd) (recordBytes ed)) (hv1 : size ≤ v)
    (hv2 : v < 0xFFFF) :
    ∃ lg', Load_LinkGraph.forNodes (Load_LinkGraph.listRow nd ed einit size) n from_ lg
        (rows.flatMap (fun r => r.bytes ++ SlWriteUint16 0xFFFF)
          ++ row.bytes ++ SlWriteUint16 v ++ rest)
      = .abort (.SlErrorCorrupt "Link graph structure overflow") lg' := by
  induction rows generalizing n from_ lg with
  | nil =>
    obtain ⟨n, rfl⟩ : ∃ m, n = m + 1 := ⟨n - 1, by simp at hlen; omega⟩
    obtain ⟨lg', h⟩ := (Load_LinkGraph.listRow_run nd ed einit size hsize row from_ lg rest
      (by omega) hrow).2 v hv1 hv2
    refine ⟨lg', ?_⟩
    rw [Load_LinkGraph.forNodes]
    simp only [List.flatMap_nil, List.nil_append, h]
  | cons r0 rows ih =>
    obtain ⟨n, rfl⟩ : ∃ m, n = m + 1 := ⟨n - 1, by simp at hlen; omega⟩
    obtain ⟨lg1, h1⟩ := (Load_LinkGraph.listRow_run nd ed einit size hsize r0 from_ lg
      (rows.flatMap (fun r => r.bytes ++ SlWriteUint16 0xFFFF)
          ++ row.bytes ++ SlWriteUint16 v ++ rest)
      (by omega) (hrows r0 (List.mem_cons_self _ _))).1
    obtain ⟨lg', h⟩ := ih n (from_ + 1) lg1 (by omega) (by simp at hlen; omega)
      (fun r hr => hrows r (List.mem_cons_of_mem _ hr))
    refine ⟨lg', ?_⟩
    rw [Load_LinkGraph.forNodes]
    simp only [List.flatMap_cons, List.append_assoc] at h1 h ⊢
    rw [h1]
    simp only []
    exact h

theorem EdgeMap.mem_assign (m : EdgeMap) (k : EdgeKey) (e : Edge) (ke : EdgeKey × Edge)
    (h : ke ∈ m.assign k e) : ke.1 = k ∨ ke ∈ m := by
  induction m with
  | nil =>
    simp only [EdgeMap.assign, List.mem_singleton] at h
    left
    rw [h]
  | cons x m ih =>
    obtain ⟨k', e'⟩ := x
    simp only [EdgeMap.assign] at h
    split_ifs at h with h1 h2
    · rcases List.mem_cons.mp h with h | h
      · left; rw [h]
      · right; exact h
    · rcases List.mem_cons.mp h with h | h
      · left; rw [h]
      · right; exact List.mem_cons_of_mem _ h
    · rcases List.mem_cons.mp h with h | h
      · right; rw [h]; exact List.mem_cons_self _ _
      · rcases ih h with h | h
        · left; exact h
        · right; exact List.mem_cons_of_mem _ h

theorem Load_LinkGraph.loadEdge_keys (ed : List (SaveLoad EdgeField)) (einit : Edge)
    (Q : EdgeKey → Prop) (k : EdgeKey) (hk : Q k) (lg : LinkGraph) (s : List Byte)
    (hlg : ∀ ke ∈ lg.edges, Q ke.1) :
    ∀ ke ∈ (Load_LinkGraph.loadEdge ed einit k lg s).obj.edges, Q ke.1 := by
  intro ke hke
  have hset : ∀ e, ke ∈ (lg.setEdge k e).edges → Q ke.1 := by
    intro e hmem
    rcases EdgeMap.mem_assign lg.edges k e ke hmem with h | h
    · rw [h]; exact hk
    · exact hlg ke h
  rcases Load_LinkGraph.loadEdge_cases ed einit k lg s with ⟨_, e, he⟩ | ⟨_, e, he⟩
  · rw [he] at hke
    exact hset e hke
  · rw [he] at hke
    exact hset e hke

theorem Load_LinkGraph.listEdges_keys (ed : List (SaveLoad EdgeField)) (einit : Edge)
    (size from_ : Nat) (Q : EdgeKey → Prop) (hQ : ∀ t, t < size → Q (from_, t))
    (fuel to_ : Nat) (lg : LinkGraph) (s : List Byte) (hlg : ∀ ke ∈ lg.edges, Q ke.1) :
    ∀ ke ∈ (Load_LinkGraph.listEdges ed einit size from_ fuel to_ lg s).obj.edges, Q ke.1 := by
  induction fuel generalizing to_ lg s with
  | zero => simpa [Load_LinkGraph.listEdges, SlResult.obj] using hlg
  | succ fuel ih =>
    rw [Load_LinkGraph.listEdges]
    by_cases h1 : to_ = INVALID_NODE
    · simpa [h1, SlResult.obj] using hlg
    · by_cases h2 : size ≤ to_
      · simpa [h1, h2, SlResult.obj] using hlg
      · simp only [h1, h2, if_false]
        have hedge := Load_LinkGraph.loadEdge_keys ed einit Q (from_, to_) (hQ to_ (by omega)) lg s
          hlg
        cases hres : Load_LinkGraph.loadEdge ed einit (from_, to_) lg s with
        | abort why lg1 =>
          rw [hres] at hedge
          exact hedge
        | ok lg1 r =>
          rw [hres] at hedge
          simp only [SlResult.obj] at hedge
          simp only []
          cases hr : SlReadUint16 r with
          | none => exact hedge
          | some p => exact ih p.1 lg1 p.2 hedge

theorem Load_LinkGraph.listRows_keys (nd : List (SaveLoad NodeField))
    (ed : List (SaveLoad EdgeField)) (einit : Edge) (size : Nat) (Q : EdgeKey → Prop)
    (hQ : ∀ f t, f < size → t < size → Q (f, t)) (n from_ : Nat) (lg : LinkGraph)
    (s : List Byte) (hfn : from_ + n = size) (hlg : ∀ ke ∈ lg.edges, Q ke.1) :
    ∀ ke ∈ (Load_LinkGraph.forNodes (Load_LinkGraph.listRow nd ed einit size) n from_ lg
      s).obj.edges, Q ke.1 := by
  induction n generalizing from_ lg s with
  | zero => simpa [Load_LinkGraph.forNodes, SlResult.obj] using hlg
  | succ n ih =>
    rw [Load_LinkGraph.forNodes]
    have hrow : ∀ ke ∈ (Load_LinkGraph.listRow nd ed einit size from_ lg s).obj.edges,
        Q ke.1 := by
      rw [Load_LinkGraph.listRow]
      rcases Load_LinkGraph.loadNode_cases nd from_ lg s with ⟨_, node, hn⟩ | ⟨_, node, hn⟩
      · rw [hn]
        exact Load_LinkGraph.listEdges_keys ed einit size from_ Q
          (fun t ht => hQ from_ t (by omega) ht) _ _ _ _ hlg
      · rw [hn]
        exact hlg
    cases hres : Load_LinkGraph.listRow nd ed einit size from_ lg s with
    | abort why lg1 =>
      rw [hres] at hrow
      exact hrow
    | ok lg1 r =>
      rw [hres] at hrow
      exact ih (from_ + 1) lg1 r (by omega) hrow

/-- C4: in the linked-list path of `Load_LinkGraph` (sparse edges feature absent, savegame
version not before `SLV_191`) the load raises `SlErrorCorrupt("Link graph structure
overflow")` if and only if, for some node `from`, the chain `from, next1, next2, ...` read
from the chunk reaches a value `>= size` before it reaches `0xFFFF`; and whether the load
ends or aborts, every edge key of the graph it leaves that was not there before has
`from < size` and `to < size`, so the error precedes the insertion of the offending
key. -/
theorem C4_list_path_overflow (v : SlVersions) (nd : List (SaveLoad NodeField))
    (ed : List (SaveLoad EdgeField)) (edge_init : Edge) (lg : LinkGraph) (s : List Byte)
    (hsparse : SlXvIsFeaturePresent v .XSLFI_LINKGRAPH_SPARSE_EDGES 1 0xFFFF = false)
    (hver : IsSavegameVersionBefore v SLV_191 = false) :
    ((∃ lg', Load_LinkGraph v nd ed edge_init lg s
          = .abort (.SlErrorCorrupt "Link graph structure overflow") lg') ↔
        ChainOverflows lg.Size (recordBytes nd) (recordBytes ed) s) ∧
      ∀ ke ∈ (Load_LinkGraph v nd ed edge_init lg s).obj.edges,
        (∃ e, (ke.1, e) ∈ lg.edges) ∨ (ke.1.1 < lg.Size ∧ ke.1.2 < lg.Size) := by
  have hsize : lg.Size ≤ 0xFFFF := by
    have : lg.Size < 2 ^ 16 := Nat.mod_lt _ (by decide)
    omega
  have hload : Load_LinkGraph v nd ed edge_init lg s =
      Load_LinkGraph.forNodes (Load_LinkGraph.listRow nd ed edge_init lg.Size) lg.Size 0 lg s := by
    unfold Load_LinkGraph
    simp only [hsparse, hver, Bool.false_eq_true, if_false]
  rw [hload]
  refine ⟨⟨?_, ?_⟩, ?_⟩
  · rintro ⟨lg', h⟩
    obtain ⟨rows, row, w, rest, h1, h2, h3, h4, h5, h6⟩ :=
      Load_LinkGraph.listRows_shape nd ed edge_init lg.Size hsize lg.Size 0 lg s lg' (by simp) h
    exact ⟨rows, row, w, rest, h1, h2, h3, h4, h5, h6⟩
  · rintro ⟨rows, row, w, rest, h1, h2, h3, h4, h5, h6⟩
    rw [h6]
    exact Load_LinkGraph.listRows_run nd ed edge_init lg.Size hsize rows row w rest lg.Size 0 lg
      (by simp) h1 h2 h3 h4 h5
  · exact Load_LinkGraph.listRows_keys nd ed edge_init lg.Size
      (fun k => (∃ e, (k, e) ∈ lg.edges) ∨ (k.1 < lg.Size ∧ k.2 < lg.Size))
      (fun f t hf ht => Or.inr ⟨hf, ht⟩) lg.Size 0 lg s (by simp)
      (fun ke hke => Or.inl ⟨ke.2, hke⟩)

theorem C4_list_path_overflow_witness :
    (SlXvIsFeaturePresent noDayScaleVersions .XSLFI_LINKGRAPH_SPARSE_EDGES 1 0xFFFF = false ∧
      IsSavegameVersionBefore noDayScaleVersions SLV_191 = false) ∧
    ((∃ lg', Load_LinkGraph noDayScaleVersions (SlFilterObject noDayScaleVersions _node_desc)
          (SlFilterObject noDayScaleVersions _edge_desc) default sampleSingleGraph
          listChunkNextFive
          = .abort (.SlErrorCorrupt "Link graph structure overflow") lg') ↔
        ChainOverflows sampleSingleGraph.Size
          (recordBytes (SlFilterObject noDayScaleVersions _node_desc))
          (recordBytes (SlFilterObject noDayScaleVersions _edge_desc)) listChunkNextFive) ∧
      ∀ ke ∈ (Load_LinkGraph noDayScaleVersions (SlFilterObject noDayScaleVersions _node_desc)
          (SlFilterObject noDayScaleVersions _edge_desc) default sampleSingleGraph
          listChunkNextFive).obj.edges,
        (∃ e, (ke.1, e) ∈ sampleSingleGraph.edges) ∨
          (ke.1.1 < sampleSingleGraph.Size ∧ ke.1.2 < sampleSingleGraph.Size) :=
  ⟨by decide,
    C4_list_path_overflow noDayScaleVersions (SlFilterObject noDayScaleVersions _node_desc)
      (SlFilterObject noDayScaleVersions _edge_desc) default sampleSingleGraph listChunkNextFive
      (by decide) (by decide)⟩

/-- The linked-list path at a next pointer of 5 in a graph of size 1: the load raises the
corruption error, after the edge `(0, 0)` and before any edge `(0, 5)`. -/
theorem list_path_rejects_out_of_range_next :
    Load_LinkGraph noDayScaleVersions (SlFilterObject noDayScaleVersions _node_desc)
        (SlFilterObject noDayScaleVersions _edge_desc) default sampleSingleGraph
        listChunkNextFive
      = .abort (.SlErrorCorrupt "Link graph structure overflow")
          ⟨0, 0, 0, [⟨100, 20, 30, 7, 5000⟩], [((0, 0), ⟨120, 40, 0, 5000, 4990, 0⟩)]⟩ := by
  decide

/-! ## The loops over the chunk always end -/

theorem SlErrorEndOfChunk_ne_endless : SlErrorEndOfChunk ≠ Abort.endless := by
  decide

theorem SlReadUint16_length (s r : List Byte) (v : Nat) (h : SlReadUint16 s = some (v, r)) :
    s.length = r.length + 2 :=
  (SlReadBytes_lt 2 s r v h).2

theorem Load_LinkGraph.sparseEdges_ends (ed : List (SaveLoad EdgeField)) (einit : Edge)
    (from_ fuel : Nat) (lg : LinkGraph) (s : List Byte) (hfuel : s.length < fuel)
    (lg' : LinkGraph) :
    Load_LinkGraph.sparseEdges ed einit from_ fuel lg s ≠ .abort .endless lg' := by
  induction fuel generalizing lg s with
  | zero => omega
  | succ fuel ih =>
    rw [Load_LinkGraph.sparseEdges]
    cases hr : SlReadUint16 s with
    | none =>
      simp only [ne_eq, SlResult.abort.injEq, not_and]
      exact fun h => absurd h SlErrorEndOfChunk_ne_endless
    | some p =>
      obtain ⟨to_, r⟩ := p
      have hlen := SlReadUint16_length s r to_ hr
      simp only []
      split_ifs with hinv
      · simp
      · rcases Load_LinkGraph.loadEdge_cases ed einit (from_, to_) lg r with
          ⟨_, e, he⟩ | ⟨_, e, he⟩
        · rw [he]
          simp only []
          exact ih _ _ (by simp; omega)
        · rw [he]
          simp only [ne_eq, SlResult.abort.injEq, not_and]
          exact fun h => absurd h SlErrorEndOfChunk_ne_endless

theorem Load_LinkGraph.listEdges_ends (ed : List (SaveLoad EdgeField)) (einit : Edge)
    (size from_ fuel to_ : Nat) (lg : LinkGraph) (s : List Byte) (hfuel : s.length + 1 < fuel)
    (lg' : LinkGraph) :
    Load_LinkGraph.listEdges ed einit size from_ fuel to_ lg s ≠ .abort .endless lg' := by
  induction fuel generalizing to_ lg s with
  | zero => omega
  | succ fuel ih =>
    rw [Load_LinkGraph.listEdges]
    split_ifs with h1 h2
    · simp
    · simp
    · rcases Load_LinkGraph.loadEdge_cases ed einit (from_, to_) lg s with
        ⟨hle, e, he⟩ | ⟨_, e, he⟩
      · rw [he]
        simp only []
        cases hr : SlReadUint16 (s.drop (recordBytes ed)) with
        | none =>
          simp only [ne_eq, SlResult.abort.injEq, not_and]
          exact fun h => absurd h SlErrorEndOfChunk_ne_endless
        | some p =>
          obtain ⟨nx, r1⟩ := p
          have hlen := SlReadUint16_length _ r1 nx hr
          simp only [List.length_drop] at hlen
          simp only []
          exact ih _ _ _ (by omega)
      · rw [he]
        simp only [ne_eq, SlResult.abort.injEq, not_and]
        exact fun h => absurd h SlErrorEndOfChunk_ne_endless

theorem Load_LinkGraph.forNodes_ends {σ : Type} (body : Nat → σ → List Byte → SlResult σ)
    (hbody : ∀ from_ st s st', body from_ st s ≠ .abort .endless st') (n from_ : Nat) (st : σ)
    (s : List Byte) (st' : σ) :
    Load_LinkGraph.forNodes body n from_ st s ≠ .abort .endless st' := by
  induction n generalizing from_ st s with
  | zero => simp [Load_LinkGraph.forNodes]
  | succ n ih =>
    rw [Load_LinkGraph.forNodes]
    cases hb : body from_ st s with
    | ok st1 r => exact ih _ _ _
    | abort why st1 =>
      simp only [ne_eq, SlResult.abort.injEq, not_and]
      intro hwhy hst
      subst hwhy
      exact hbody from_ st s st1 hb

/-- The sparse and the linked-list branch of `Load_LinkGraph` never run out of the
rounds their loops are given: the `endless` abort belongs to the dense branch alone. -/
theorem Load_LinkGraph_stream_branches_end (v : SlVersions) (nd : List (SaveLoad NodeField))
    (ed : List (SaveLoad EdgeField)) (edge_init : Edge) (lg : LinkGraph) (s : List Byte)
    (lg' : LinkGraph)
    (hbranch : SlXvIsFeaturePresent v .XSLFI_LINKGRAPH_SPARSE_EDGES 1 0xFFFF = true ∨
      IsSavegameVersionBefore v SLV_191 = false) :
    Load_LinkGraph v nd ed edge_init lg s ≠ .abort .endless lg' := by
  unfold Load_LinkGraph
  by_cases hsp : SlXvIsFeaturePresent v .XSLFI_LINKGRAPH_SPARSE_EDGES 1 0xFFFF = true
  · simp only [hsp, if_true]
    apply Load_LinkGraph.forNodes_ends
    intro from_ st s1 st'
    rw [Load_LinkGraph.sparseRow]
    rcases Load_LinkGraph.loadNode_cases nd from_ st s1 with ⟨_, node, hn⟩ | ⟨_, node, hn⟩
    · rw [hn]
      exact Load_LinkGraph.sparseEdges_ends ed edge_init from_ _ _ _ (by omega) st'
    · rw [hn]
      simp only [ne_eq, SlResult.abort.injEq, not_and]
      exact fun h => absurd h SlErrorEndOfChunk_ne_endless
  · have hver : IsSavegameVersionBefore v SLV_191 = false := by
      rcases hbranch with h | h
      · exact absurd h hsp
      · exact h
    simp only [hsp, hver, Bool.false_eq_true, if_false]
    apply Load_LinkGraph.forNodes_ends
    intro from_ st s1 st'
    rw [Load_LinkGraph.listRow]
    rcases Load_LinkGraph.loadNode_cases nd from_ st s1 with ⟨_, node, hn⟩ | ⟨_, node, hn⟩
    · rw [hn]
      exact Load_LinkGraph.listEdges_ends ed edge_init _ from_ _ from_ _ _ (by omega) st'
    · rw [hn]
      simp only [ne_eq, SlResult.abort.injEq, not_and]
      exact fun h => absurd h SlErrorEndOfChunk_ne_endless

/-! ## C14, C15, C16: conversions between directions -/

/-- C14: for every valid `Direction` `dir` and `Axis` `axis`, `DirToDiagDirAlongAxis` returns
`INVALID_DIAGDIR` exactly for the two directions along the other axis (3 and 7 on
`AXIS_X`, 1 and 5 on `AXIS_Y`) and otherwise follows the documented table (X: 0, 1, 2 to
0 and 4, 5, 6 to 2; Y: 2, 3, 4 to 1 and 0, 6, 7 to 3); every valid result is a valid
`DiagDirection` on the requested axis. -/
theorem C14_DirToDiagDirAlongAxis (dir axis : Nat) (hdir : IsValidDirection dir = true)
    (haxis : IsValidAxis axis = true) :
    (DirToDiagDirAlongAxis dir axis = INVALID_DIAGDIR ↔
        (axis = AXIS_X ∧ (dir = 3 ∨ dir = 7)) ∨ (axis = AXIS_Y ∧ (dir = 1 ∨ dir = 5))) ∧
    (axis = AXIS_X → (dir = 0 ∨ dir = 1 ∨ dir = 2) → DirToDiagDirAlongAxis dir axis = 0) ∧
    (axis = AXIS_X → (dir = 4 ∨ dir = 5 ∨ dir = 6) → DirToDiagDirAlongAxis dir axis = 2) ∧
    (axis = AXIS_Y → (dir = 2 ∨ dir = 3 ∨ dir = 4) → DirToDiagDirAlongAxis dir axis = 1) ∧
    (axis = AXIS_Y → (dir = 0 ∨ dir = 6 ∨ dir = 7) → DirToDiagDirAlongAxis dir axis = 3) ∧
    (DirToDiagDirAlongAxis dir axis ≠ INVALID_DIAGDIR →
      IsValidDiagDirection (DirToDiagDirAlongAxis dir axis) = true ∧
        DiagDirToAxis (DirToDiagDirAlongAxis dir axis) = axis) := by
  have hd : dir < 8 := by simpa [IsValidDirection, DIR_END] using hdir
  have ha : axis < 2 := by simpa [IsValidAxis, AXIS_END] using haxis
  clear hdir haxis
  interval_cases dir <;> interval_cases axis <;> decide

theorem C14_DirToDiagDirAlongAxis_witness :
    (IsValidDirection DIR_N = true ∧ IsValidAxis AXIS_Y = true) ∧
    (DirToDiagDirAlongAxis DIR_N AXIS_Y = INVALID_DIAGDIR ↔
        (AXIS_Y = AXIS_X ∧ (DIR_N = 3 ∨ DIR_N = 7)) ∨ (AXIS_Y = AXIS_Y ∧ (DIR_N = 1 ∨ DIR_N = 5))) ∧
    (AXIS_Y = AXIS_X → (DIR_N = 0 ∨ DIR_N = 1 ∨ DIR_N = 2) →
      DirToDiagDirAlongAxis DIR_N AXIS_Y = 0) ∧
    (AXIS_Y = AXIS_X → (DIR_N = 4 ∨ DIR_N = 5 ∨ DIR_N = 6) →
      DirToDiagDirAlongAxis DIR_N AXIS_Y = 2) ∧
    (AXIS_Y = AXIS_Y → (DIR_N = 2 ∨ DIR_N = 3 ∨ DIR_N = 4) →
      DirToDiagDirAlongAxis DIR_N AXIS_Y = 1) ∧
    (AXIS_Y = AXIS_Y → (DIR_N = 0 ∨ DIR_N = 6 ∨ DIR_N = 7) →
      DirToDiagDirAlongAxis DIR_N AXIS_Y = 3) ∧
    (DirToDiagDirAlongAxis DIR_N AXIS_Y ≠ INVALID_DIAGDIR →
      IsValidDiagDirection (DirToDiagDirAlongAxis DIR_N AXIS_Y) = true ∧
        DiagDirToAxis (DirToDiagDirAlongAxis DIR_N AXIS_Y) = AXIS_Y) :=
  ⟨by decide, C14_DirToDiagDirAlongAxis DIR_N AXIS_Y (by decide) (by decide)⟩

/-- C15: for every valid `DiagDirection` `dd`, `DirToDiagDir (DiagDirToDir dd) = dd`; for
every valid non-diagonal `Direction` `dir`, `DirToDiagDir` rounds clockwise:
`DiagDirToDir (DirToDiagDir dir)` is `ChangeDir dir DIRDIFF_45RIGHT`, which is
`(dir + 1) mod 8`; and `DIR_N` becomes `DIAGDIR_NE`. -/
theorem C15_DirToDiagDir_rounds_clockwise (dd dir : Nat)
    (hdd : IsValidDiagDirection dd = true) (hdir : IsValidDirection dir = true)
    (hnd : IsDiagonalDirection dir = false) :
    DirToDiagDir (DiagDirToDir dd) = dd ∧
    DiagDirToDir (DirToDiagDir dir) = ChangeDir dir DIRDIFF_45RIGHT ∧
    ChangeDir dir DIRDIFF_45RIGHT = (dir + 1) % 8 ∧
    DirToDiagDir DIR_N = DIAGDIR_NE := by
  have h1 : dd < 4 := by simpa [IsValidDiagDirection, DIAGDIR_END] using hdd
  have h2 : dir < 8 := by simpa [IsValidDirection, DIR_END] using hdir
  clear hdd hdir
  interval_cases dd <;> interval_cases dir <;> revert hnd <;> decide

theorem C15_DirToDiagDir_rounds_clockwise_witness :
    (IsValidDiagDirection DIAGDIR_SW = true ∧ IsValidDirection DIR_W = true ∧
      IsDiagonalDirection DIR_W = false) ∧
    DirToDiagDir (DiagDirToDir DIAGDIR_SW) = DIAGDIR_SW ∧
    DiagDirToDir (DirToDiagDir DIR_W) = ChangeDir DIR_W DIRDIFF_45RIGHT ∧
    ChangeDir DIR_W DIRDIFF_45RIGHT = (DIR_W + 1) % 8 ∧
    DirToDiagDir DIR_N = DIAGDIR_NE :=
  ⟨by decide,
    C15_DirToDiagDir_rounds_clockwise DIAGDIR_SW DIR_W (by decide) (by decide) (by decide)⟩

/-- C16: for every valid axis `xy` and `ns` in {0, 1}, `XYNSToDiagDir xy ns` is a valid
`DiagDirection` on axis `xy`; for `ns = 0` it is the one pointing north (`DIAGDIR_NE` on X,
`DIAGDIR_NW` on Y), for `ns = 1` the one pointing south, which is `AxisToDiagDir xy`
(`DIAGDIR_SW` on X, `DIAGDIR_SE` on Y); and `AxisToDirection xy` is
`DiagDirToDir (AxisToDiagDir xy)`. -/
theorem C16_XYNSToDiagDir (xy ns : Nat) (hxy : IsValidAxis xy = true) (hns : ns < 2) :
    IsValidDiagDirection (XYNSToDiagDir xy ns) = true ∧
    DiagDirToAxis (XYNSToDiagDir xy ns) = xy ∧
    (ns = 0 → XYNSToDiagDir xy ns = if xy = AXIS_X then DIAGDIR_NE else DIAGDIR_NW) ∧
    (ns = 1 → XYNSToDiagDir xy ns = AxisToDiagDir xy) ∧
    AxisToDiagDir xy = (if xy = AXIS_X then DIAGDIR_SW else DIAGDIR_SE) ∧
    AxisToDirection xy = DiagDirToDir (AxisToDiagDir xy) := by
  have h1 : xy < 2 := by simpa [IsValidAxis, AXIS_END] using hxy
  clear hxy
  interval_cases xy <;> interval_cases ns <;> decide

theorem C16_XYNSToDiagDir_witness :
    (IsValidAxis AXIS_Y = true ∧ 1 < 2) ∧
    IsValidDiagDirection (XYNSToDiagDir AXIS_Y 1) = true ∧
    DiagDirToAxis (XYNSToDiagDir AXIS_Y 1) = AXIS_Y ∧
    (1 = 0 → XYNSToDiagDir AXIS_Y 1 = if AXIS_Y = AXIS_X then DIAGDIR_NE else DIAGDIR_NW) ∧
    (1 = 1 → XYNSToDiagDir AXIS_Y 1 = AxisToDiagDir AXIS_Y) ∧
    AxisToDiagDir AXIS_Y = (if AXIS_Y = AXIS_X then DIAGDIR_SW else DIAGDIR_SE) ∧
    AxisToDirection AXIS_Y = DiagDirToDir (AxisToDiagDir AXIS_Y) :=
  ⟨by decide, C16_XYNSToDiagDir AXIS_Y 1 (by decide) (by decide)⟩

/-! ## C11: road types introduced by date -/

theorem and_eq_right_iff_testBit (a b : Nat) :
    b &&& a = a ↔ ∀ i, a.testBit i = true → b.testBit i = true := by
  constructor
  · intro h i hi
    have := congrArg (fun x => x.testBit i) h
    simp only [Nat.testBit_and, hi, Bool.and_true] at this
    exact this
  · intro h
    apply Nat.eq_of_testBit_eq
    intro i
    rw [Nat.testBit_and]
    cases ha : a.testBit i with
    | false => simp
    | true => simp [h i ha]

theorem AddDateIntroducedRoadTypes.pass_cases (t : RoadTypeTable) (date : Int) (n rt rts : Nat) :
    AddDateIntroducedRoadTypes.pass t date (n + 1) rt rts =
      AddDateIntroducedRoadTypes.pass t date n (rt + 1)
        (if (t.GetRoadTypeInfo rt).label ≠ 0 ∧ 0 ≤ (t.GetRoadTypeInfo rt).introduction_date ∧
            (t.GetRoadTypeInfo rt).introduction_date < t.MAX_DAY ∧
            (t.GetRoadTypeInfo rt).introduction_date ≤ date ∧
            rts &&& (t.GetRoadTypeInfo rt).introduction_required_roadtypes =
              (t.GetRoadTypeInfo rt).introduction_required_roadtypes
          then rts ||| (t.GetRoadTypeInfo rt).introduces_roadtypes else rts) := by
  rw [AddDateIntroducedRoadTypes.pass]
  simp only [IsInsideMM, Bool.not_eq_true', Bool.and_eq_false_imp, decide_eq_true_eq,
    decide_eq_false_iff_not, gt_iff_lt, ne_eq]
  by_cases h1 : (t.GetRoadTypeInfo rt).label = 0
  · simp [h1]
  · by_cases h2 : 0 ≤ (t.GetRoadTypeInfo rt).introduction_date
    · by_cases h3 : (t.GetRoadTypeInfo rt).introduction_date < t.MAX_DAY
      · by_cases h4 : date < (t.GetRoadTypeInfo rt).introduction_date
        · have : ¬ (t.GetRoadTypeInfo rt).introduction_date ≤ date := by omega
          simp [h1, h2, h3, h4, this]
        · have : (t.GetRoadTypeInfo rt).introduction_date ≤ date := by omega
          by_cases h5 : rts &&& (t.GetRoadTypeInfo rt).introduction_required_roadtypes =
              (t.GetRoadTypeInfo rt).introduction_required_roadtypes
          · simp [h1, h2, h3, h4, this, h5]
          · simp [h1, h2, h3, h4, this, h5]
      · simp [h1, h2, h3]
    · simp [h1, h2]

theorem AddDateIntroducedRoadTypes.pass_mono (t : RoadTypeTable) (date : Int) (n rt rts i : Nat)
    (h : rts.testBit i = true) :
    (AddDateIntroducedRoadTypes.pass t date n rt rts).testBit i = true := by
  induction n generalizing rt rts with
  | zero => simpa [AddDateIntroducedRoadTypes.pass] using h
  | succ n ih =>
    rw [AddDateIntroducedRoadTypes.pass_cases]
    apply ih
    split_ifs
    · simp [Nat.testBit_or, h]
    · exact h

theorem AddDateIntroducedRoadTypes.pass_lt (t : RoadTypeTable) (date : Int) (n rt rts : Nat)
    (htab : ∀ k, k < rt + n → (t.GetRoadTypeInfo k).introduces_roadtypes < 2 ^ 64)
    (h : rts < 2 ^ 64) : AddDateIntroducedRoadTypes.pass t date n rt rts < 2 ^ 64 := by
  induction n generalizing rt rts with
  | zero => simpa [AddDateIntroducedRoadTypes.pass] using h
  | succ n ih =>
    rw [AddDateIntroducedRoadTypes.pass_cases]
    apply ih
    · intro k hk
      exact htab k (by omega)
    · split_ifs
      · exact Nat.or_lt_two_pow h (htab rt (by omega))
      · exact h

theorem AddDateIntroducedRoadTypes.pass_ge (t : RoadTypeTable) (date : Int) (n rt rts : Nat) :
    rts ≤ AddDateIntroducedRoadTypes.pass t date n rt rts :=
  Nat.le_of_testBit (fun i hi => AddDateIntroducedRoadTypes.pass_mono t date n rt rts i hi)

theorem AddDateIntroducedRoadTypes.pass_fixed (t : RoadTypeTable) (date : Int) (n rt R : Nat)
    (h : AddDateIntroducedRoadTypes.pass t date n rt R = R) (k : Nat) (hk1 : rt ≤ k)
    (hk2 : k < rt + n) (hlabel : (t.GetRoadTypeInfo k).label ≠ 0)
    (h0 : 0 ≤ (t.GetRoadTypeInfo k).introduction_date)
    (hmax : (t.GetRoadTypeInfo k).introduction_date < t.MAX_DAY)
    (hdate : (t.GetRoadTypeInfo k).introduction_date ≤ date)
    (hreq : R &&& (t.GetRoadTypeInfo k).introduction_required_roadtypes =
      (t.GetRoadTypeInfo k).introduction_required_roadtypes) :
    R ||| (t.GetRoadTypeInfo k).introduces_roadtypes = R := by
  induction n generalizing rt with
  | zero => omega
  | succ n ih =>
    rw [AddDateIntroducedRoadTypes.pass_cases] at h
    generalize hstep : (if (t.GetRoadTypeInfo rt).label ≠ 0 ∧
        0 ≤ (t.GetRoadTypeInfo rt).introduction_date ∧
        (t.GetRoadTypeInfo rt).introduction_date < t.MAX_DAY ∧
        (t.GetRoadTypeInfo rt).introduction_date ≤ date ∧
        R &&& (t.GetRoadTypeInfo rt).introduction_required_roadtypes =
          (t.GetRoadTypeInfo rt).introduction_required_roadtypes
      then R ||| (t.GetRoadTypeInfo rt).introduces_roadtypes else R) = rts' at h
    have hle1 : rts' ≤ R := by
      have := AddDateIntroducedRoadTypes.pass_ge t date n (rt + 1) rts'
      rw [h] at this
      exact this
    have hle2 : R ≤ rts' := by
      rw [← hstep]
      split_ifs
      · exact Nat.le_of_testBit (fun i hi => by simp [Nat.testBit_or, hi])
      · exact le_refl _
    have heq : rts' = R := le_antisymm hle1 hle2
    by_cases hkr : k = rt
    · subst hkr
      rw [if_pos ⟨hlabel, h0, hmax, hdate, hreq⟩] at hstep
      rw [hstep, heq]
    · rw [heq] at h
      exact ih (rt + 1) h (by omega) (by omega)

theorem AddDateIntroducedRoadTypes.run_fixed (t : RoadTypeTable) (date : Int) (fuel R : Nat)
    (h : AddDateIntroducedRoadTypes.pass t date (t.ROADTYPE_END - ROADTYPE_BEGIN) ROADTYPE_BEGIN R
      = R) :
    AddDateIntroducedRoadTypes.run t date fuel R = some R := by
  rw [AddDateIntroducedRoadTypes.run.eq_def]
  simp only [h, if_true]

theorem AddDateIntroducedRoadTypes.run_ends (t : RoadTypeTable) (date : Int)
    (htab : ∀ k, k < t.ROADTYPE_END → (t.GetRoadTypeInfo k).introduces_roadtypes < 2 ^ 64)
    (fuel current : Nat) (hcur : current < 2 ^ 64) (hfuel : 2 ^ 64 ≤ current + fuel + 1) :
    ∃ R, AddDateIntroducedRoadTypes.run t date fuel current = some R ∧
      (∀ i, current.testBit i = true → R.testBit i = true) ∧
      AddDateIntroducedRoadTypes.pass t date (t.ROADTYPE_END - ROADTYPE_BEGIN) ROADTYPE_BEGIN R
        = R := by
  induction fuel generalizing current with
  | zero =>
    rw [AddDateIntroducedRoadTypes.run.eq_def]
    by_cases hfix : AddDateIntroducedRoadTypes.pass t date (t.ROADTYPE_END - ROADTYPE_BEGIN)
        ROADTYPE_BEGIN current = current
    · exact ⟨current, by simp only [hfix, if_true], fun i hi => hi, hfix⟩
    · have h1 := AddDateIntroducedRoadTypes.pass_ge t date (t.ROADTYPE_END - ROADTYPE_BEGIN)
        ROADTYPE_BEGIN current
      have h2 := AddDateIntroducedRoadTypes.pass_lt t date (t.ROADTYPE_END - ROADTYPE_BEGIN)
        ROADTYPE_BEGIN current (fun k hk => htab k (by simp only [ROADTYPE_BEGIN] at hk; omega)) hcur
      omega
  | succ fuel ih =>
    rw [AddDateIntroducedRoadTypes.run.eq_def]
    by_cases hfix : AddDateIntroducedRoadTypes.pass t date (t.ROADTYPE_END - ROADTYPE_BEGIN)
        ROADTYPE_BEGIN current = current
    · exact ⟨current, by simp only [hfix, if_true], fun i hi => hi, hfix⟩
    · have h1 := AddDateIntroducedRoadTypes.pass_ge t date (t.ROADTYPE_END - ROADTYPE_BEGIN)
        ROADTYPE_BEGIN current
      have h2 := AddDateIntroducedRoadTypes.pass_lt t date (t.ROADTYPE_END - ROADTYPE_BEGIN)
        ROADTYPE_BEGIN current (fun k hk => htab k (by simp only [ROADTYPE_BEGIN] at hk; omega)) hcur
      obtain ⟨R, hR1, hR2, hR3⟩ := ih _ h2 (by omega)
      refine ⟨R, ?_, ?_, hR3⟩
      · simp only [hfix, if_false]
        exact hR1
      · intro i hi
        exact hR2 i (AddDateIntroducedRoadTypes.pass_mono t date _ _ current i hi)

/-- C11: for every road type table, every set `current` and every date,
`AddDateIntroducedRoadTypes(current, date)` returns a set `R` that contains `current` and
is a fixed point, `AddDateIntroducedRoadTypes(R, date) = R`: every road type with a
non-zero label, an introduction date in `[0, MAX_DAY)` that is not after `date`, and all
of its required road types in `R` has all the road types it introduces in `R`. -/
theorem C11_AddDateIntroducedRoadTypes_fixed_point (t : RoadTypeTable) (current : Nat)
    (date : Int) (hcur : current < 2 ^ 64)
    (htab : ∀ rt, rt < t.ROADTYPE_END → (t.GetRoadTypeInfo rt).introduces_roadtypes < 2 ^ 64) :
    ∃ R, AddDateIntroducedRoadTypes t current date = some R ∧
      R &&& current = current ∧
      AddDateIntroducedRoadTypes t R date = some R ∧
      ∀ rt, rt < t.ROADTYPE_END → (t.GetRoadTypeInfo rt).label ≠ 0 →
        0 ≤ (t.GetRoadTypeInfo rt).introduction_date →
        (t.GetRoadTypeInfo rt).introduction_date < t.MAX_DAY →
        (t.GetRoadTypeInfo rt).introduction_date ≤ date →
        R &&& (t.GetRoadTypeInfo rt).introduction_required_roadtypes =
          (t.GetRoadTypeInfo rt).introduction_required_roadtypes →
        R &&& (t.GetRoadTypeInfo rt).introduces_roadtypes =
          (t.GetRoadTypeInfo rt).introduces_roadtypes := by
  obtain ⟨R, hR1, hR2, hR3⟩ := AddDateIntroducedRoadTypes.run_ends t date htab (2 ^ 64) current
    hcur (by omega)
  refine ⟨R, hR1, (and_eq_right_iff_testBit current R).mpr hR2,
    AddDateIntroducedRoadTypes.run_fixed t date _ R hR3, ?_⟩
  intro rt hrt hlabel h0 hmax hdate hreq
  have := AddDateIntroducedRoadTypes.pass_fixed t date _ _ R hR3 rt (Nat.zero_le _)
    (by simp only [ROADTYPE_BEGIN]; omega) hlabel h0 hmax hdate hreq
  rw [and_eq_right_iff_testBit]
  intro i hi
  have h2 := congrArg (fun x => x.testBit i) this
  simp only [Nat.testBit_or, hi, Bool.or_true] at h2
  exact h2.symm

theorem C11_AddDateIntroducedRoadTypes_fixed_point_witness :
    (1 < 2 ^ 64 ∧
      ∀ rt, rt < sampleRoadTypes.ROADTYPE_END →
        (sampleRoadTypes.GetRoadTypeInfo rt).introduces_roadtypes < 2 ^ 64) ∧
    AddDateIntroducedRoadTypes sampleRoadTypes 1 250 = some 15 ∧
    ∃ R, AddDateIntroducedRoadTypes sampleRoadTypes 1 250 = some R ∧
      R &&& 1 = 1 ∧
      AddDateIntroducedRoadTypes sampleRoadTypes R 250 = some R ∧
      ∀ rt, rt < sampleRoadTypes.ROADTYPE_END → (sampleRoadTypes.GetRoadTypeInfo rt).label ≠ 0 →
        0 ≤ (sampleRoadTypes.GetRoadTypeInfo rt).introduction_date →
        (sampleRoadTypes.GetRoadTypeInfo rt).introduction_date < sampleRoadTypes.MAX_DAY →
        (sampleRoadTypes.GetRoadTypeInfo rt).introduction_date ≤ 250 →
        R &&& (sampleRoadTypes.GetRoadTypeInfo rt).introduction_required_roadtypes =
          (sampleRoadTypes.GetRoadTypeInfo rt).introduction_required_roadtypes →
        R &&& (sampleRoadTypes.GetRoadTypeInfo rt).introduces_roadtypes =
          (sampleRoadTypes.GetRoadTypeInfo rt).introduces_roadtypes :=
  ⟨⟨by decide, by decide⟩, by decide,
    C11_AddDateIntroducedRoadTypes_fixed_point sampleRoadTypes 1 250 (by decide) (by decide)⟩

/-! ## C13: the road type of a label -/

theorem firstFrom_some (found : Nat → Bool) (n r k : Nat) (h : firstFrom found n r = some k) :
    r ≤ k ∧ k < r + n ∧ found k = true ∧ ∀ j, r ≤ j → j < k → found j = false := by
  induction n generalizing r with
  | zero => simp [firstFrom] at h
  | succ n ih =>
    rw [firstFrom] at h
    by_cases hf : found r = true
    · simp only [hf, if_true, Option.some.injEq] at h
      subst h
      exact ⟨le_refl _, by omega, hf, fun j h1 h2 => by omega⟩
    · simp only [hf, if_false] at h
      obtain ⟨h1, h2, h3, h4⟩ := ih (r + 1) h
      refine ⟨by omega, by omega, h3, ?_⟩
      intro j hj1 hj2
      by_cases hjr : j = r
      · subst hjr
        simpa using hf
      · exact h4 j (by omega) hj2

theorem firstFrom_none (found : Nat → Bool) (n r : Nat) (h : firstFrom found n r = none) :
    ∀ j, r ≤ j → j < r + n → found j = false := by
  induction n generalizing r with
  | zero => intro j h1 h2; omega
  | succ n ih =>
    rw [firstFrom] at h
    by_cases hf : found r = true
    · simp [hf] at h
    · simp only [hf, if_false] at h
      intro j hj1 hj2
      by_cases hjr : j = r
      · subst hjr
        simpa using hf
      · exact ih (r + 1) h j (by omega) (by omega)

/-- C13: `GetRoadTypeByLabel` returns the lowest-numbered road type whose label equals
`label` if there is one; otherwise, when `allow_alternate_labels` is set, the
lowest-numbered road type whose alternate labels contain `label`; and it returns
`INVALID_ROADTYPE` exactly when there is no such road type (`INVALID_ROADTYPE` is not
the number of a road type: it is not below `ROADTYPE_END`). -/
theorem C13_GetRoadTypeByLabel (t : RoadTypeTable) (label : Nat) (allow_alternate_labels : Bool)
    (hinv : t.ROADTYPE_END ≤ t.INVALID_ROADTYPE) :
    ((∃ r, r < t.ROADTYPE_END ∧ (t.GetRoadTypeInfo r).label = label) →
      GetRoadTypeByLabel t label allow_alternate_labels < t.ROADTYPE_END ∧
      (t.GetRoadTypeInfo (GetRoadTypeByLabel t label allow_alternate_labels)).label = label ∧
      ∀ r, r < GetRoadTypeByLabel t label allow_alternate_labels →
        (t.GetRoadTypeInfo r).label ≠ label) ∧
    ((¬ ∃ r, r < t.ROADTYPE_END ∧ (t.GetRoadTypeInfo r).label = label) →
      allow_alternate_labels = true →
      (∃ r, r < t.ROADTYPE_END ∧ label ∈ (t.GetRoadTypeInfo r).alternate_labels) →
      GetRoadTypeByLabel t label allow_alternate_labels < t.ROADTYPE_END ∧
      label ∈ (t.GetRoadTypeInfo (GetRoadTypeByLabel t label allow_alternate_labels)).alternate_labels ∧
      ∀ r, r < GetRoadTypeByLabel t label allow_alternate_labels →
        label ∉ (t.GetRoadTypeInfo r).alternate_labels) ∧
    (GetRoadTypeByLabel t label allow_alternate_labels = t.INVALID_ROADTYPE ↔
      (¬ ∃ r, r < t.ROADTYPE_END ∧ (t.GetRoadTypeInfo r).label = label) ∧
      ¬ (allow_alternate_labels = true ∧
        ∃ r, r < t.ROADTYPE_END ∧ label ∈ (t.GetRoadTypeInfo r).alternate_labels)) := by
  unfold GetRoadTypeByLabel
  simp only [ROADTYPE_BEGIN, Nat.sub_zero]
  cases h1 : firstFrom (fun r => decide ((t.GetRoadTypeInfo r).label = label)) t.ROADTYPE_END 0 with
  | some k =>
    dsimp only
    obtain ⟨-, hk2, hk3, hk4⟩ := firstFrom_some _ _ _ _ h1
    simp only [decide_eq_true_eq, decide_eq_false_iff_not] at hk3 hk4
    have hex : ∃ r, r < t.ROADTYPE_END ∧ (t.GetRoadTypeInfo r).label = label :=
      ⟨k, by omega, hk3⟩
    refine ⟨fun _ => ⟨by omega, hk3, fun r hr => hk4 r (Nat.zero_le _) hr⟩,
      fun hn => absurd hex hn, ?_⟩
    constructor
    · intro hk
      omega
    · intro hn
      exact absurd hex hn.1
  | none =>
    have hno := firstFrom_none _ _ _ h1
    simp only [decide_eq_false_iff_not] at hno
    have hnex : ¬ ∃ r, r < t.ROADTYPE_END ∧ (t.GetRoadTypeInfo r).label = label := by
      rintro ⟨r, hr, hl⟩
      exact hno r (Nat.zero_le _) (by omega) hl
    dsimp only
    cases allow_alternate_labels with
    | false =>
      simp only [Bool.false_eq_true, if_false, false_and, not_false_eq_true, and_true]
      exact ⟨fun h => absurd h hnex, fun _ h => absurd h (by simp), by simp [hnex]⟩
    | true =>
      simp only [if_true, true_and]
      cases h2 : firstFrom (fun r => decide (label ∈ (t.GetRoadTypeInfo r).alternate_labels))
          t.ROADTYPE_END 0 with
      | some k =>
        dsimp only
        obtain ⟨-, hk2, hk3, hk4⟩ := firstFrom_some _ _ _ _ h2
        simp only [decide_eq_true_eq, decide_eq_false_iff_not] at hk3 hk4
        refine ⟨fun h => absurd h hnex,
          fun _ _ _ => ⟨by omega, hk3, fun r hr => hk4 r (Nat.zero_le _) hr⟩, ?_⟩
        constructor
        · intro hk
          omega
        · intro hn
          exact absurd ⟨k, by omega, hk3⟩ hn.2
      | none =>
        have hno2 := firstFrom_none _ _ _ h2
        simp only [decide_eq_false_iff_not] at hno2
        have hnex2 : ¬ ∃ r, r < t.ROADTYPE_END ∧
            label ∈ (t.GetRoadTypeInfo r).alternate_labels := by
          rintro ⟨r, hr, hl⟩
          exact hno2 r (Nat.zero_le _) (by omega) hl
        dsimp only
        exact ⟨fun h => absurd h hnex, fun _ _ h => absurd h hnex2,
          ⟨fun _ => ⟨hnex, hnex2⟩, fun _ => rfl⟩⟩

theorem C13_GetRoadTypeByLabel_witness :
    sampleRoadTypes.ROADTYPE_END ≤ sampleRoadTypes.INVALID_ROADTYPE ∧
    GetRoadTypeByLabel sampleRoadTypes 0x4554524D true = 1 ∧
    (GetRoadTypeByLabel sampleRoadTypes 0x4554524D true = sampleRoadTypes.INVALID_ROADTYPE ↔
      (¬ ∃ r, r < sampleRoadTypes.ROADTYPE_END ∧
        (sampleRoadTypes.GetRoadTypeInfo r).label = 0x4554524D) ∧
      ¬ (true = true ∧ ∃ r, r < sampleRoadTypes.ROADTYPE_END ∧
        0x4554524D ∈ (sampleRoadTypes.GetRoadTypeInfo r).alternate_labels)) :=
  ⟨by decide, by decide,
    (C13_GetRoadTypeByLabel sampleRoadTypes 0x4554524D true (by decide)).2.2⟩

/-! ## C12: whether the loaded rail type labels need a conversion -/

theorem NeedRailTypeConversion.loop_iff (t : RailTypeTable) (l : List Nat) (n i : Nat) :
    NeedRailTypeConversion.loop t l n i = true ↔
      ∃ j, i ≤ j ∧ j < i + n ∧
        ((j % 256 < t.RAILTYPE_END ∧ t.label (j % 256) ≠ l.getD j 0) ∨
          (t.RAILTYPE_END ≤ j % 256 ∧ l.getD j 0 ≠ 0)) := by
  induction n generalizing i with
  | zero =>
    simp only [NeedRailTypeConversion.loop, Bool.false_eq_true, false_iff]
    rintro ⟨j, h1, h2, -⟩
    omega
  | succ n ih =>
    rw [NeedRailTypeConversion.loop]
    have hstep : (∃ j, i ≤ j ∧ j < i + (n + 1) ∧
        ((j % 256 < t.RAILTYPE_END ∧ t.label (j % 256) ≠ l.getD j 0) ∨
          (t.RAILTYPE_END ≤ j % 256 ∧ l.getD j 0 ≠ 0))) ↔
        (((i % 256 < t.RAILTYPE_END ∧ t.label (i % 256) ≠ l.getD i 0) ∨
          (t.RAILTYPE_END ≤ i % 256 ∧ l.getD i 0 ≠ 0)) ∨
        ∃ j, i + 1 ≤ j ∧ j < i + 1 + n ∧
          ((j % 256 < t.RAILTYPE_END ∧ t.label (j % 256) ≠ l.getD j 0) ∨
            (t.RAILTYPE_END ≤ j % 256 ∧ l.getD j 0 ≠ 0))) := by
      constructor
      · rintro ⟨j, h1, h2, h3⟩
        by_cases hj : j = i
        · subst hj
          exact Or.inl h3
        · exact Or.inr ⟨j, by omega, by omega, h3⟩
      · rintro (h | ⟨j, h1, h2, h3⟩)
        · exact ⟨i, le_refl _, by omega, h⟩
        · exact ⟨j, by omega, by omega, h3⟩
    rw [hstep, ← ih (i + 1)]
    by_cases hlt : i % 256 < t.RAILTYPE_END
    · have hnle : ¬ t.RAILTYPE_END ≤ i % 256 := by omega
      by_cases hlab : t.label (i % 256) = l.getD i 0
      · simp [hlt, hlab, hnle]
      · simp [hlt, hlab, hnle]
    · have hle : t.RAILTYPE_END ≤ i % 256 := by omega
      by_cases hz : l.getD i 0 = 0
      · simp [hlt, hz, hle]
      · simp [hlt, hz, hle]

/-- On a list of at most 256 labels `NeedRailTypeConversion` is true exactly when some
index `i` of the list is below `RAILTYPE_END` with a saved label different from the label
of the current rail type `i`, or not below `RAILTYPE_END` with a non-zero saved label. -/
theorem NeedRailTypeConversion_iff_of_length_le (t : RailTypeTable) (l : List Nat)
    (hlen : l.length ≤ 256) :
    NeedRailTypeConversion t l = true ↔
      ∃ i, i < l.length ∧
        ((i < t.RAILTYPE_END ∧ l.getD i 0 ≠ t.label i) ∨
          (t.RAILTYPE_END ≤ i ∧ l.getD i 0 ≠ 0)) := by
  unfold NeedRailTypeConversion
  rw [NeedRailTypeConversion.loop_iff]
  constructor
  · rintro ⟨j, -, h2, h3⟩
    have hj : j % 256 = j := Nat.mod_eq_of_lt (by omega)
    rw [hj] at h3
    rcases h3 with ⟨h4, h5⟩ | h3
    · exact ⟨j, by omega, Or.inl ⟨h4, fun h => h5 h.symm⟩⟩
    · exact ⟨j, by omega, Or.inr h3⟩
  · rintro ⟨j, h2, h3⟩
    have hj : j % 256 = j := Nat.mod_eq_of_lt (by omega)
    refine ⟨j, Nat.zero_le _, by omega, ?_⟩
    rw [hj]
    rcases h3 with ⟨h4, h5⟩ | h3
    · exact Or.inl ⟨h4, fun h => h5 h.symm⟩
    · exact Or.inr h3

set_option maxRecDepth 100000 in
/-- The list `longRailTypeList` has 257 entries, the last of them at index 256 is zero. -/
theorem longRailTypeList_length : longRailTypeList.length = 257 ∧
    longRailTypeList.getD 256 0 = 0 := by
  decide

set_option maxRecDepth 100000 in
/-- No entry of `longRailTypeList` differs from what the current rail types expect at its
index. -/
theorem longRailTypeList_matches :
    ¬ (∃ i, i < longRailTypeList.length ∧
        ((i < sampleRailTypes.RAILTYPE_END ∧
            longRailTypeList.getD i 0 ≠ sampleRailTypes.label i) ∨
          (sampleRailTypes.RAILTYPE_END ≤ i ∧ longRailTypeList.getD i 0 ≠ 0))) := by
  decide

/-- C12 fails on a list of 257 labels: every saved label below `RAILTYPE_END` equals the
label of the current rail type and every saved label from `RAILTYPE_END` on is zero, yet
`NeedRailTypeConversion` returns true, because at index 256 the cast `(RailType)i` gives
rail type 0, whose label `RAIL` is compared with the zero label saved at index 256. -/
theorem C12_NeedRailTypeConversion_wraps_at_256 :
    longRailTypeList.length = 257 ∧
    NeedRailTypeConversion sampleRailTypes longRailTypeList = true ∧
    ¬ (∃ i, i < longRailTypeList.length ∧
        ((i < sampleRailTypes.RAILTYPE_END ∧
            longRailTypeList.getD i 0 ≠ sampleRailTypes.label i) ∨
          (sampleRailTypes.RAILTYPE_END ≤ i ∧ longRailTypeList.getD i 0 ≠ 0))) ∧
    (256 % 256 < sampleRailTypes.RAILTYPE_END ∧
      sampleRailTypes.label (256 % 256) ≠ longRailTypeList.getD 256 0) ∧
    NeedRailTypeConversion sampleRailTypes [] = false := by
  refine ⟨longRailTypeList_length.1, ?_, longRailTypeList_matches, ⟨by decide, ?_⟩, by decide⟩
  · rw [NeedRailTypeConversion, NeedRailTypeConversion.loop_iff, longRailTypeList_length.1]
    refine ⟨256, by decide, by decide, Or.inl ⟨by decide, ?_⟩⟩
    rw [longRailTypeList_length.2]
    decide
  · rw [longRailTypeList_length.2]
    decide

/-! ## C18: the timestamps of a job loaded without the day scale feature -/

theorem VarType.wrap_of_inRange (t : VarType) (v : Int) (h : t.inRange v) : t.wrap v = v := by
  cases t <;>
    simp only [VarType.inRange, VarType.signed, VarType.size, VarType.wrap, VarType.decode,
      Bool.false_eq_true, if_false, if_true, Bool.true_and, Bool.false_and, decide_eq_true_eq,
      Nat.reduceMul, Nat.reduceSub, Nat.reducePow, Int.reducePow, Int.reduceNeg] at h ⊢ <;>
    (try split_ifs) <;> omega

/-- C18: for a job with stored join date `J` (a 32-bit value of the file) and settings
`recalc_time` `R` (a 16-bit value), `GetLinkGraphJobDayLengthScaleAfterLoad` sets
`join_date_ticks = J * DAY_TICKS + SPAWN_JOIN_TICK` and
`start_date_ticks = join_date_ticks - R * scale`, where `scale` is `DAY_TICKS` when the
savegame version is before `SLV_LINKGRAPH_SECONDS` and the day scale feature version is
below 3, and `DAY_TICKS / SECONDS_PER_DAY` otherwise; so the start is not after the join
and their distance is `R * scale`. Graph and settings are left as they are. -/
theorem C18_GetLinkGraphJobDayLengthScaleAfterLoad (v : SlVersions) (env : Env)
    (lgj : LinkGraphJob)
    (hxv : v.xv .XSLFI_LINKGRAPH_DAY_SCALE ≤ 0xFFFF)
    (hJ : VarType.I32.inRange lgj.join_date_ticks)
    (hR : VarType.U16.inRange lgj.settings.recalc_time)
    (hday : env.DAY_TICKS < 2 ^ 16) (hspawn : env.SPAWN_JOIN_TICK < 2 ^ 16)
    (_hsec : 0 < env.SECONDS_PER_DAY) :
    (GetLinkGraphJobDayLengthScaleAfterLoad v env lgj).join_date_ticks =
        lgj.join_date_ticks * env.DAY_TICKS + env.SPAWN_JOIN_TICK ∧
    (GetLinkGraphJobDayLengthScaleAfterLoad v env lgj).start_date_ticks =
        (GetLinkGraphJobDayLengthScaleAfterLoad v env lgj).join_date_ticks -
          lgj.settings.recalc_time *
            (if v.sl_version < env.SLV_LINKGRAPH_SECONDS ∧ v.xv .XSLFI_LINKGRAPH_DAY_SCALE < 3
              then (env.DAY_TICKS : Int) else ((env.DAY_TICKS / env.SECONDS_PER_DAY : Nat) : Int)) ∧
    (GetLinkGraphJobDayLengthScaleAfterLoad v env lgj).start_date_ticks ≤
        (GetLinkGraphJobDayLengthScaleAfterLoad v env lgj).join_date_ticks ∧
    (GetLinkGraphJobDayLengthScaleAfterLoad v env lgj).link_graph = lgj.link_graph ∧
    (GetLinkGraphJobDayLengthScaleAfterLoad v env lgj).settings = lgj.settings := by
  simp only [VarType.inRange, VarType.signed, VarType.size, if_true, Bool.false_eq_true,
    if_false, Nat.reduceMul, Nat.reduceSub] at hJ hR
  obtain ⟨hJ1, hJ2⟩ := hJ
  obtain ⟨hR1, hR2⟩ := hR
  have hD0 : (0 : Int) ≤ env.DAY_TICKS := Int.ofNat_nonneg _
  have hD1 : (env.DAY_TICKS : Int) ≤ 2 ^ 16 := by exact_mod_cast hday.le
  have hS1 : (env.SPAWN_JOIN_TICK : Int) < 2 ^ 16 := by exact_mod_cast hspawn
  have hS0 : (0 : Int) ≤ env.SPAWN_JOIN_TICK := Int.ofNat_nonneg _
  -- the scale is a 32-bit value below 2 ^ 16
  have hscale : ∀ s : Nat, s ≤ env.DAY_TICKS →
      VarType.U32.wrap (lgj.settings.recalc_time * ((s % 2 ^ 32 : Nat) : Int)) =
        lgj.settings.recalc_time * (s : Int) ∧
      0 ≤ lgj.settings.recalc_time * (s : Int) ∧
      lgj.settings.recalc_time * (s : Int) < 2 ^ 32 := by
    intro s hs
    have hs0 : (0 : Int) ≤ s := Int.ofNat_nonneg _
    have hs1 : (s : Int) ≤ 2 ^ 16 := by
      have : (s : Int) ≤ env.DAY_TICKS := by exact_mod_cast hs
      omega
    have hmod : s % 2 ^ 32 = s := Nat.mod_eq_of_lt (by omega)
    have hp0 : 0 ≤ lgj.settings.recalc_time * (s : Int) := mul_nonneg hR1 hs0
    have hp1 : lgj.settings.recalc_time * (s : Int) < 2 ^ 32 := by nlinarith
    rw [hmod]
    refine ⟨VarType.wrap_of_inRange _ _ ?_, hp0, hp1⟩
    simp only [VarType.inRange, VarType.signed, VarType.size, Bool.false_eq_true, if_false,
      Nat.reduceMul]
    exact ⟨hp0, hp1⟩
  have hjoin1 : VarType.I64.wrap (lgj.join_date_ticks * env.DAY_TICKS) =
      lgj.join_date_ticks * env.DAY_TICKS := by
    apply VarType.wrap_of_inRange
    simp only [VarType.inRange, VarType.signed, VarType.size, if_true, Nat.reduceMul,
      Nat.reduceSub]
    constructor <;> nlinarith
  have hjb1 : -(2 ^ 47 : Int) ≤ lgj.join_date_ticks * env.DAY_TICKS := by nlinarith
  have hjb2 : lgj.join_date_ticks * env.DAY_TICKS ≤ (2 ^ 47 : Int) := by nlinarith
  have hjoin2 : VarType.I64.wrap (lgj.join_date_ticks * env.DAY_TICKS + env.SPAWN_JOIN_TICK) =
      lgj.join_date_ticks * env.DAY_TICKS + env.SPAWN_JOIN_TICK := by
    apply VarType.wrap_of_inRange
    simp only [VarType.inRange, VarType.signed, VarType.size, if_true, Nat.reduceMul,
      Nat.reduceSub]
    constructor <;> omega
  have hcond : (IsSavegameVersionBefore v env.SLV_LINKGRAPH_SECONDS
        && SlXvIsFeatureMissing v .XSLFI_LINKGRAPH_DAY_SCALE 3) = true ↔
      (v.sl_version < env.SLV_LINKGRAPH_SECONDS ∧ v.xv .XSLFI_LINKGRAPH_DAY_SCALE < 3) := by
    simp only [IsSavegameVersionBefore, SlXvIsFeatureMissing, SlXvIsFeaturePresent,
      Bool.and_eq_true, decide_eq_true_eq, Bool.not_eq_true', Bool.and_eq_false_imp,
      decide_eq_false_iff_not]
    constructor
    · rintro ⟨h1, h2⟩
      refine ⟨h1, ?_⟩
      by_contra h3
      exact h2 (by omega) hxv
    · rintro ⟨h1, h2⟩
      exact ⟨h1, fun h3 => by omega⟩
  unfold GetLinkGraphJobDayLengthScaleAfterLoad
  simp only [hjoin1, hjoin2]
  by_cases hc : v.sl_version < env.SLV_LINKGRAPH_SECONDS ∧ v.xv .XSLFI_LINKGRAPH_DAY_SCALE < 3
  · obtain ⟨e1, e2, e3⟩ := hscale env.DAY_TICKS (le_refl _)
    rw [if_pos (hcond.mpr hc), if_pos hc, e1]
    have hw : VarType.I64.wrap (lgj.join_date_ticks * env.DAY_TICKS + env.SPAWN_JOIN_TICK -
        lgj.settings.recalc_time * env.DAY_TICKS) =
        lgj.join_date_ticks * env.DAY_TICKS + env.SPAWN_JOIN_TICK -
          lgj.settings.recalc_time * env.DAY_TICKS := by
      apply VarType.wrap_of_inRange
      simp only [VarType.inRange, VarType.signed, VarType.size, if_true, Nat.reduceMul,
        Nat.reduceSub]
      constructor <;> omega
    rw [hw]
    refine ⟨trivial, rfl, by omega, trivial, trivial⟩
  · obtain ⟨e1, e2, e3⟩ := hscale (env.DAY_TICKS / env.SECONDS_PER_DAY) (Nat.div_le_self _ _)
    rw [if_neg (fun h => hc (hcond.mp h)), if_neg hc, e1]
    have hw : VarType.I64.wrap (lgj.join_date_ticks * env.DAY_TICKS + env.SPAWN_JOIN_TICK -
        lgj.settings.recalc_time * ((env.DAY_TICKS / env.SECONDS_PER_DAY : Nat) : Int)) =
        lgj.join_date_ticks * env.DAY_TICKS + env.SPAWN_JOIN_TICK -
          lgj.settings.recalc_time * ((env.DAY_TICKS / env.SECONDS_PER_DAY : Nat) : Int) := by
      apply VarType.wrap_of_inRange
      simp only [VarType.inRange, VarType.signed, VarType.size, if_true, Nat.reduceMul,
        Nat.reduceSub]
      constructor <;> omega
    rw [hw]
    refine ⟨trivial, rfl, by omega, trivial, trivial⟩

theorem C18_GetLinkGraphJobDayLengthScaleAfterLoad_witness :
    SlXvIsFeatureMissing noDayScaleVersions .XSLFI_LINKGRAPH_DAY_SCALE 1 = true ∧
    (GetLinkGraphJobDayLengthScaleAfterLoad noDayScaleVersions sampleEnv
        storedDaysJob).join_date_ticks = 740021 ∧
    (GetLinkGraphJobDayLengthScaleAfterLoad noDayScaleVersions sampleEnv
        storedDaysJob).start_date_ticks = 738837 ∧
    ((GetLinkGraphJobDayLengthScaleAfterLoad noDayScaleVersions sampleEnv
        storedDaysJob).join_date_ticks =
        storedDaysJob.join_date_ticks * sampleEnv.DAY_TICKS + sampleEnv.SPAWN_JOIN_TICK ∧
    (GetLinkGraphJobDayLengthScaleAfterLoad noDayScaleVersions sampleEnv
        storedDaysJob).start_date_ticks =
        (GetLinkGraphJobDayLengthScaleAfterLoad noDayScaleVersions sampleEnv
          storedDaysJob).join_date_ticks -
          storedDaysJob.settings.recalc_time *
            (if noDayScaleVersions.sl_version < sampleEnv.SLV_LINKGRAPH_SECONDS ∧
                noDayScaleVersions.xv .XSLFI_LINKGRAPH_DAY_SCALE < 3
              then (sampleEnv.DAY_TICKS : Int)
              else ((sampleEnv.DAY_TICKS / sampleEnv.SECONDS_PER_DAY : Nat) : Int)) ∧
    (GetLinkGraphJobDayLengthScaleAfterLoad noDayScaleVersions sampleEnv
        storedDaysJob).start_date_ticks ≤
        (GetLinkGraphJobDayLengthScaleAfterLoad noDayScaleVersions sampleEnv
          storedDaysJob).join_date_ticks ∧
    (GetLinkGraphJobDayLengthScaleAfterLoad noDayScaleVersions sampleEnv
        storedDaysJob).link_graph = storedDaysJob.link_graph ∧
    (GetLinkGraphJobDayLengthScaleAfterLoad noDayScaleVersions sampleEnv
        storedDaysJob).settings = storedDaysJob.settings) :=
  ⟨by decide, by decide, by decide,
    C18_GetLinkGraphJobDayLengthScaleAfterLoad noDayScaleVersions sampleEnv storedDaysJob
      (by decide) (by decide) (by decide) (by decide) (by decide) (by decide)⟩

/-! ## C17: planned road bits without the unconnected ones -/

theorem IsPossibleCrossing_railway (m : TileMap) (t ax : Nat)
    (h : IsPossibleCrossing m t ax = true) : m.GetTileType t = .MP_RAILWAY := by
  simp only [IsPossibleCrossing, Bool.and_eq_true, decide_eq_true_eq] at h
  exact h.1.1.1

theorem CleanUpRoadBits.pass_end (m : TileMap) (dir t : Nat)
    (hend : ¬ (m.IsValidTile t = true ∧ IsPossibleCrossing m t (DiagDirToAxis dir) = true)) :
    CleanUpRoadBits.pass m dir (MirrorRoadBits (DiagDirToRoadBits dir)) t =
      .done (IsConnectiveTile m dir t) := by
  unfold CleanUpRoadBits.pass IsConnectiveTile
  cases hv : m.IsValidTile t with
  | false => simp
  | true =>
    have hnp : IsPossibleCrossing m t (DiagDirToAxis dir) = false := by
      cases hp : IsPossibleCrossing m t (DiagDirToAxis dir) with
      | false => rfl
      | true => exact absurd ⟨hv, hp⟩ hend
    cases hty : m.GetTileType t <;> simp [hnp] <;>
      cases m.IsNormalRoadTile t <;> simp

theorem CleanUpRoadBits.pass_crossing (m : TileMap) (dir mirrored_rb t : Nat)
    (hv : m.IsValidTile t = true) (hp : IsPossibleCrossing m t (DiagDirToAxis dir) = true) :
    CleanUpRoadBits.pass m dir mirrored_rb t = .again (m.TileAddByDiagDir t dir) := by
  unfold CleanUpRoadBits.pass
  simp only [hv, if_true, IsPossibleCrossing_railway m t _ hp, hp]

theorem CleanUpRoadBits.test_tile_run (m : TileMap) (dir : Nat) (n fuel t : Nat)
    (hfuel : n ≤ fuel) (hrun : IsCrossingRun m dir t n) :
    CleanUpRoadBits.test_tile m dir (MirrorRoadBits (DiagDirToRoadBits dir)) fuel t =
      some (IsConnectiveTile m dir (tileAhead m dir n t)) := by
  induction n generalizing fuel t with
  | zero =>
    obtain ⟨-, hend⟩ := hrun
    simp only [tileAhead] at hend ⊢
    cases fuel <;> simp only [CleanUpRoadBits.test_tile, CleanUpRoadBits.pass_end m dir t hend]
  | succ n ih =>
    obtain ⟨hpre, hend⟩ := hrun
    obtain ⟨hv, hp⟩ := hpre 0 (Nat.succ_pos _)
    simp only [tileAhead] at hv hp
    cases fuel with
    | zero => omega
    | succ fuel =>
      simp only [CleanUpRoadBits.test_tile, CleanUpRoadBits.pass_crossing m dir _ t hv hp]
      rw [tileAhead]
      apply ih
      · omega
      · refine ⟨fun j hj => ?_, ?_⟩
        · have := hpre (j + 1) (by omega)
          simpa only [tileAhead] using this
        · simpa only [tileAhead] using hend

theorem DiagDirToRoadBits_eq (dir : Nat) (h : dir < 4) : DiagDirToRoadBits dir = 2 ^ (3 - dir) := by
  interval_cases dir <;> decide

theorem and_two_pow_ne_zero (x b : Nat) : x &&& 2 ^ b ≠ 0 ↔ x.testBit b = true := by
  constructor
  · intro h
    by_contra hb
    apply h
    apply Nat.eq_of_testBit_eq
    intro i
    simp only [Nat.testBit_and, Nat.testBit_two_pow, Nat.zero_testBit]
    by_cases hi : b = i
    · subst hi
      simp [hb]
    · simp [hi]
  · intro h h0
    have := congrArg (fun y => y.testBit b) h0
    simp [Nat.testBit_two_pow, h] at this

theorem testBit_xor_two_pow (x b i : Nat) :
    (x ^^^ 2 ^ b).testBit i = (x.testBit i ^^ decide (b = i)) := by
  rw [Nat.testBit_xor, Nat.testBit_two_pow]

theorem CleanUpRoadBits.loop_bits (m : TileMap) (fuel tile : Nat) (c : Nat → Bool)
    (n dir x : Nat) (hnd : dir + n = 4)
    (h : ∀ d, dir ≤ d → d < 4 → x.testBit (3 - d) = true →
      CleanUpRoadBits.test_tile m d (MirrorRoadBits (DiagDirToRoadBits d)) fuel
        (m.TileAddByDiagDir tile d) = some (c d)) :
    ∃ r, CleanUpRoadBits.loop m fuel tile n dir x = some r ∧
      ∀ i, r.testBit i = (x.testBit i && (!decide (dir + i < 4) || c (3 - i))) := by
  induction n generalizing dir x with
  | zero =>
    refine ⟨x, rfl, fun i => ?_⟩
    have : ¬ dir + i < 4 := by omega
    simp [this]
  | succ n ih =>
    have hdir : dir < 4 := by omega
    rw [CleanUpRoadBits.loop]
    simp only [DiagDirToRoadBits_eq dir hdir, and_two_pow_ne_zero]
    by_cases hb : x.testBit (3 - dir) = true
    · rw [if_pos hb, ← DiagDirToRoadBits_eq dir hdir, h dir (le_refl _) hdir hb]
      simp only [DiagDirToRoadBits_eq dir hdir]
      have hx : ∀ i, (if (!c dir) = true then x ^^^ 2 ^ (3 - dir) else x).testBit i =
          if i = 3 - dir then c dir else x.testBit i := by
        intro i
        by_cases hi : i = 3 - dir
        · subst hi
          cases hc : c dir <;> simp [testBit_xor_two_pow, hb]
        · have hi2 : ¬ 3 - dir = i := fun e => hi e.symm
          cases hc : c dir <;> simp [testBit_xor_two_pow, hi, hi2]
      obtain ⟨r, hr1, hr2⟩ := ih (dir + 1)
        (if (!c dir) = true then x ^^^ 2 ^ (3 - dir) else x) (by omega) (by
          intro d hd1 hd2 hd3
          rw [hx, if_neg (by omega)] at hd3
          exact h d (by omega) hd2 hd3)
      refine ⟨r, hr1, fun i => ?_⟩
      rw [hr2, hx]
      by_cases hi : i = 3 - dir
      · have h1 : ¬ dir + 1 + i < 4 := by omega
        have h2 : dir + i < 4 := by omega
        have h3 : 3 - i = dir := by omega
        rw [if_pos hi]
        simp only [h1, h2, decide_False, decide_True, Bool.not_false, Bool.true_or,
          Bool.and_true, Bool.not_true, Bool.false_or, h3]
        rw [hi, hb, Bool.true_and]
      · have h1 : dir + 1 + i < 4 ↔ dir + i < 4 := by omega
        rw [if_neg hi]
        simp only [h1]
    · rw [if_neg hb]
      obtain ⟨r, hr1, hr2⟩ := ih (dir + 1) x (by omega) (by
          intro d hd1 hd2 hd3
          exact h d (by omega) hd2 hd3)
      refine ⟨r, hr1, fun i => ?_⟩
      rw [hr2]
      by_cases hi : i = 3 - dir
      · have hb2 : x.testBit i = false := by
          rw [hi]
          simpa using hb
        simp [hb2]
      · have h1 : dir + 1 + i < 4 ↔ dir + i < 4 := by omega
        simp only [h1]

/-- C17: `CleanUpRoadBits(tile, org_rb)` returns a subset of `org_rb`: `ROAD_NONE` for an
invalid tile, and otherwise, when the run of possible level crossings next to the tile
ends within the allowed jumps in every planned direction, every planned direction bit is
kept if the tile behind that run is connective and cleared if it is not, and all other
bits are as in `org_rb`. -/
theorem C17_CleanUpRoadBits (m : TileMap) (fuel tile org_rb : Nat) (len : Nat → Nat)
    (hrun : m.IsValidTile tile = true → ∀ dir, dir < DIAGDIR_END →
      org_rb &&& DiagDirToRoadBits dir ≠ 0 →
      len dir ≤ fuel ∧ IsCrossingRun m dir (m.TileAddByDiagDir tile dir) (len dir)) :
    ∃ r, CleanUpRoadBits m fuel tile org_rb = some r ∧
      org_rb &&& r = r ∧
      (m.IsValidTile tile = false → r = ROAD_NONE) ∧
      (m.IsValidTile tile = true →
        (∀ dir, dir < DIAGDIR_END →
          r &&& DiagDirToRoadBits dir =
            if IsConnectiveTile m dir
                (tileAhead m dir (len dir) (m.TileAddByDiagDir tile dir)) = true
            then org_rb &&& DiagDirToRoadBits dir else ROAD_NONE) ∧
        r >>> 4 = org_rb >>> 4) := by
  cases hv : m.IsValidTile tile with
  | false =>
    refine ⟨ROAD_NONE, ?_, ?_, fun _ => rfl, fun h => (by cases h)⟩
    · simp [CleanUpRoadBits, hv]
    · simp [ROAD_NONE]
  | true =>
    obtain ⟨r, hr1, hr2⟩ := CleanUpRoadBits.loop_bits m fuel tile
      (fun d => IsConnectiveTile m d (tileAhead m d (len d) (m.TileAddByDiagDir tile d)))
      4 0 org_rb rfl (by
        intro d _ hd hbit
        have hplanned : org_rb &&& DiagDirToRoadBits d ≠ 0 := by
          rw [DiagDirToRoadBits_eq d hd]
          exact (and_two_pow_ne_zero _ _).mpr hbit
        obtain ⟨h1, h2⟩ := hrun hv d hd hplanned
        exact CleanUpRoadBits.test_tile_run m d (len d) fuel _ h1 h2)
    refine ⟨r, ?_, ?_, fun h => (by cases h), fun _ => ⟨?_, ?_⟩⟩
    · simpa [CleanUpRoadBits, hv, DIAGDIR_END, DIAGDIR_BEGIN] using hr1
    · rw [and_eq_right_iff_testBit]
      intro i hi
      rw [hr2] at hi
      simp only [Bool.and_eq_true] at hi
      exact hi.1
    · intro dir hdir
      have hdir4 : dir < 4 := hdir
      rw [DiagDirToRoadBits_eq dir hdir4]
      have h3 : 3 - (3 - dir) = dir := by omega
      have h4 : 0 + (3 - dir) < 4 := by omega
      have h5 : 3 - dir < 4 := by omega
      apply Nat.eq_of_testBit_eq
      intro i
      by_cases hi : 3 - dir = i
      · subst hi
        cases hc : IsConnectiveTile m dir
            (tileAhead m dir (len dir) (m.TileAddByDiagDir tile dir)) <;>
          simp [Nat.testBit_and, Nat.testBit_two_pow, hr2, h3, h4, h5, hc, ROAD_NONE]
      · cases hc : IsConnectiveTile m dir
            (tileAhead m dir (len dir) (m.TileAddByDiagDir tile dir)) <;>
          simp [Nat.testBit_and, Nat.testBit_two_pow, hi, ROAD_NONE]
    · apply Nat.eq_of_testBit_eq
      intro i
      have h4 : ¬ 0 + (4 + i) < 4 := by omega
      simp only [Nat.testBit_shiftRight, hr2, h4, decide_False, Bool.not_false, Bool.true_or,
        Bool.and_true]

theorem C17_CleanUpRoadBits_witness :
    (sampleMap.IsValidTile 100 = true → ∀ dir, dir < DIAGDIR_END →
      15 &&& DiagDirToRoadBits dir ≠ 0 →
      sampleRunLength dir ≤ 4 ∧
        IsCrossingRun sampleMap dir (sampleMap.TileAddByDiagDir 100 dir) (sampleRunLength dir)) ∧
    CleanUpRoadBits sampleMap 4 100 15 = some 9 ∧
    ∃ r, CleanUpRoadBits sampleMap 4 100 15 = some r ∧
      15 &&& r = r ∧
      (sampleMap.IsValidTile 100 = false → r = ROAD_NONE) ∧
      (sampleMap.IsValidTile 100 = true →
        (∀ dir, dir < DIAGDIR_END →
          r &&& DiagDirToRoadBits dir =
            if IsConnectiveTile sampleMap dir
                (tileAhead sampleMap dir (sampleRunLength dir)
                  (sampleMap.TileAddByDiagDir 100 dir)) = true
            then 15 &&& DiagDirToRoadBits dir else ROAD_NONE) ∧
        r >>> 4 = 15 >>> 4) :=
  ⟨by decide, by decide, C17_CleanUpRoadBits sampleMap 4 100 15 sampleRunLength (by decide)⟩

end OpenTTD
